import Mathlib

/-!
# The IoC container of `pkg/container/container.go`

A shallow embedding of the container: the binding table
`map[reflect.Type]map[string]*binding`, the parent pointer, and the operations
`bind`, `invoke`, `arguments`, `resolve`, `resolveLocally`, `Reset`, `MakeNamed`,
`ForEachNamed` and `SubContainer`.

Modelling decisions.

* A `Container` value of the source is a struct holding a parent pointer and a
  reference to its binding map; copies of the struct share the map.  A registry is
  therefore a cell of a heap (`State.containers`) and is named by its address.
* A panic unwinds the Go stack but keeps every write made before it, so each
  operation returns its outcome (`Except Err _`) together with the state it leaves.
* The recursion `resolve -> resolveLocally -> invoke -> arguments -> resolve` need not
  terminate in Go (a transient factory that depends on itself recurses for ever, a
  singleton one blocks on its own mutex).  `resolve` carries a fuel argument and
  answers `Err.outOfFuel` when it is used up.
* Function values are deterministic: what a call returns is a function of the
  calls made so far and of its arguments.  They do not re-enter the container.
  Every call is appended to `State.calls`, which only the theorems read.
* Locks are not modelled (single thread of control).
* `reflect.Value.Set` and `reflect.Value.Call` panic when the dynamic type of a value is
  not assignable to the type it is stored in or passed as.  `MakeNamed` and
  `ForEachNamed` make these checks on the receiver and on the arguments of a callback,
  from the types recorded in the state; the call of a factory inside `invoke` is given by
  what the factory returns.
* A Go map has one entry per key; an association list may repeat a key.  `mapSet` never
  introduces a repetition, and where a statement depends on it (the range of
  `ForEachNamed`) it asks for keys without repetition.
-/

namespace Ioc

/-! ## Go maps as association lists -/

/-- Lookup `m[k]` together with its presence flag: the first entry for `k`. -/
def mapGet {κ β : Type} [DecidableEq κ] (k : κ) : List (κ × β) → Option β
  | [] => none
  | (k', v) :: m => if k' = k then some v else mapGet k m

/-- Assignment `m[k] = v`: overwrite the entry of `k`, or add one. -/
def mapSet {κ β : Type} [DecidableEq κ] (k : κ) (v : β) : List (κ × β) → List (κ × β)
  | [] => [(k, v)]
  | (k', v') :: m => if k' = k then (k, v) :: m else (k', v') :: mapSet k v m

/-- Removal `delete(m, k)`. -/
def mapDelete {κ β : Type} [DecidableEq κ] (k : κ) : List (κ × β) → List (κ × β)
  | [] => []
  | (k', v') :: m => if k' = k then mapDelete k m else (k', v') :: mapDelete k m

/-- The keys a `range` over the map visits. -/
def mapKeys {κ β : Type} (m : List (κ × β)) : List κ := m.map Prod.fst

/-! ## Data model -/

/-- A `reflect.Type` used as an abstraction: its identity and what `String()` prints. -/
structure RType where
  id : Nat
  str : String
deriving DecidableEq, Repr

/-- A non-nil object a factory produced, named by its identity. -/
abbrev Obj := Nat

/-- An `interface{}` holding an instance; `none` is the nil interface. -/
abbrev Instance := Option Obj

/-- One call of a function value: which function, and its arguments. -/
abbrev Call := Nat × List Obj

/-- A Go function value: `ins` and `outs` are `In(i)` and `Out(i)` of its type,
`body` gives the results of a call from the calls made before it and the arguments. -/
structure Func where
  fid : Nat
  ins : List RType
  outs : List RType
  body : List Call → List Obj → List Instance

/-- An `interface{}` passed as resolver or receiver, by what `reflect.TypeOf` says of it:
the untyped nil, a function, a pointer to the variable at `addr`, a nil pointer, or a
value of any other kind. -/
inductive Value where
  | nil : Value
  | func (f : Func) : Value
  | ptr (elem : RType) (addr : Nat) : Value
  | other : Value
  | nilPtr (elem : RType) : Value

/-- The struct `binding`; `inst` is its field `instance`.  Only `bind` creates bindings
and it has checked that the resolver is a function. -/
structure Binding where
  resolver : Func
  singleton : Bool
  inst : Instance

/-- The inner map `map[string]*binding`. -/
abbrev Names := List (String × Binding)

/-- The map `map[reflect.Type]map[string]*binding`. -/
abbrev Table := List (RType × Names)

/-- The struct `Container`: `parent` is the address of the parent registry. -/
structure Container where
  parent : Option Nat
  bindings : Table

/-- The heap of registries, the log of function calls, the variables that pointer
receivers point to, and what `reflect` knows of types: `dynType` is the dynamic type of
an object and `assignableTo x t` is `x.AssignableTo(t)`.  No operation of the container
changes the last two; left out of a state, they let every assignment through. -/
structure State where
  containers : List Container
  calls : List Call
  vars : List (Nat × Obj)
  dynType : Obj → RType := fun _ => { id := 0, str := "" }
  assignableTo : RType → RType → Bool := fun _ _ => true

/-- The ways an operation ends abnormally. -/
inductive Err where
  | panic (msg : String) : Err
  | nilDereference : Err
  | indexOutOfRange : Err
  | outOfFuel : Err
deriving DecidableEq, Repr

/-- Outcome of an operation and the state it leaves. -/
abbrev Res (α : Type) := Except Err α × State

/-! ## State access -/

/-- The map `c.bindings`. -/
def State.bindings (s : State) (c : Nat) : Table :=
  match s.containers[c]? with
  | some k => k.bindings
  | none => []

/-- The pointer `c.parent`. -/
def State.parent (s : State) (c : Nat) : Option Nat :=
  match s.containers[c]? with
  | some k => k.parent
  | none => none

/-- The two-level lookup `c.bindings[abstraction][name]`. -/
def State.binding (s : State) (c : Nat) (abstraction : RType) (name : String) :
    Option Binding :=
  match mapGet abstraction (s.bindings c) with
  | some names => mapGet name names
  | none => none

/-- Replace the contents of the map `c.bindings`. -/
def State.setBindings (s : State) (c : Nat) (t : Table) : State :=
  match s.containers[c]? with
  | some k => { s with containers := s.containers.set c { k with bindings := t } }
  | none => s

/-- The write `binding.instance = v` through the pointer stored at
`c.bindings[abstraction][name]`. -/
def State.setInstance (s : State) (c : Nat) (abstraction : RType) (name : String)
    (v : Instance) : State :=
  match mapGet abstraction (s.bindings c) with
  | none => s
  | some names =>
    match mapGet name names with
    | none => s
    | some b =>
      s.setBindings c
        (mapSet abstraction (mapSet name { b with inst := v } names) (s.bindings c))

/-- Append one call to the log. -/
def State.record (s : State) (f : Func) (args : List Obj) : State :=
  { s with calls := s.calls ++ [(f.fid, args)] }

/-- The write `reflect.ValueOf(receiver).Elem().Set(...)`. -/
def State.store (s : State) (addr : Nat) (v : Obj) : State :=
  { s with vars := mapSet addr v s.vars }

/-! ## Construction -/

/-- The function `NewContainer`: a fresh registry with an empty map and no parent. -/
def NewContainer (s : State) : Nat × State :=
  (s.containers.length,
    { s with containers := s.containers ++ [{ parent := none, bindings := [] }] })

/-- The method `SubContainer`: a fresh registry whose parent is `c`. -/
def SubContainer (c : Nat) (s : State) : Nat × State :=
  (s.containers.length,
    { s with containers := s.containers ++ [{ parent := some c, bindings := [] }] })

/-! ## Declaration -/

/-- The two writes that end the loop body of `bind`: create the inner map
`c.bindings[abstraction]` when it is missing, then store the new binding at
`c.bindings[abstraction][name]`. -/
def State.addBinding (s : State) (c : Nat) (abstraction : RType) (name : String)
    (b : Binding) : State :=
  let t1 : Table :=
    if (mapGet abstraction (s.bindings c)).isSome then s.bindings c
    else mapSet abstraction [] (s.bindings c)
  let names : Names := (mapGet abstraction t1).getD []
  s.setBindings c (mapSet abstraction (mapSet name b names) t1)

/-- The loop of `bind` over the output types of the resolver. -/
def bindOuts (c : Nat) (name : String) (resolver : Func) (singleton : Bool) :
    List RType → State → Res Unit
  | [], s => (.ok (), s)
  | abstraction :: rest, s =>
    if (s.binding c abstraction name).isSome then
      (.error (.panic ("concrete already exists  for the abstraction: " ++ abstraction.str)), s)
    else
      bindOuts c name resolver singleton rest
        (s.addBinding c abstraction name
          { resolver := resolver, singleton := singleton, inst := none })

/-- The method `bind`.  `reflect.TypeOf(nil)` is a nil `Type`, on which `Kind()`
is a nil dereference. -/
def bind (c : Nat) (name : String) (resolver : Value) (singleton : Bool) (s : State) :
    Res Unit :=
  match resolver with
  | .nil => (.error .nilDereference, s)
  | .func f => bindOuts c name f singleton f.outs s
  | _ => (.error (.panic "the resolver must be a function"), s)

/-- The method `SingletonNamed`. -/
def SingletonNamed (c : Nat) (name : String) (resolver : Value) (s : State) : Res Unit :=
  bind c name resolver true s

/-- The method `Singleton`. -/
def Singleton (c : Nat) (resolver : Value) (s : State) : Res Unit :=
  SingletonNamed c "" resolver s

/-- The method `TransientNamed`. -/
def TransientNamed (c : Nat) (name : String) (resolver : Value) (s : State) : Res Unit :=
  bind c name resolver false s

/-- The method `Transient`. -/
def Transient (c : Nat) (resolver : Value) (s : State) : Res Unit :=
  TransientNamed c "" resolver s

/-- The method `Reset`: delete every key the range visits. -/
def Reset (c : Nat) (s : State) : State :=
  s.setBindings c
    ((mapKeys (s.bindings c)).foldl (fun t k => mapDelete k t) (s.bindings c))

/-! ## Resolution -/

/-- The method `arguments`, over `resolve` = `c.resolve` and the parameter types
`In(0), In(1), ...` of the function: resolve each in position order. -/
def arguments (resolve : String → RType → State → Res Obj) (name : String) :
    List RType → State → Res (List Obj)
  | [], s => (.ok [], s)
  | abstraction :: rest, s =>
    match resolve name abstraction s with
    | (.error e, s1) => (.error e, s1)
    | (.ok v, s1) =>
      match arguments resolve name rest s1 with
      | (.error e, s2) => (.error e, s2)
      | (.ok vs, s2) => (.ok (v :: vs), s2)

/-- The method `invoke`: call the function on its resolved arguments (always resolved
under the empty name) and take result 0.  What the call returns is `body`; the check
`Call` makes on the arguments of a factory is not part of this definition, so a
statement about a factory speaks of a call that was made and returned. -/
def invoke (resolve : String → RType → State → Res Obj) (function : Func) (s : State) :
    Res Instance :=
  match arguments resolve "" function.ins s with
  | (.error e, s1) => (.error e, s1)
  | (.ok args, s1) =>
    match function.body s1.calls args with
    | [] => (.error .indexOutOfRange, s1.record function args)
    | r :: _ => (.ok r, s1.record function args)

/-- The method `resolveLocally`, over `resolve` = `c.resolve`. -/
def resolveLocally (resolve : String → RType → State → Res Obj) (c : Nat) (name : String)
    (abstraction : RType) (s : State) : Res Instance :=
  match s.binding c abstraction name with
  | some binding =>
    if binding.singleton then
      match binding.inst with
      | none =>
        match invoke resolve binding.resolver s with
        | (.error e, s1) => (.error e, s1)
        | (.ok r, s1) => (.ok r, s1.setInstance c abstraction name r)
      | some v => (.ok (some v), s)
    else invoke resolve binding.resolver s
  | none => (.ok none, s)

/-- The method `resolve`. -/
def resolve : Nat → Nat → String → RType → State → Res Obj
  | 0, _, _, _, s => (.error .outOfFuel, s)
  | fuel + 1, c, name, abstraction, s =>
    match resolveLocally (resolve fuel c) c name abstraction s with
    | (.error e, s1) => (.error e, s1)
    | (.ok (some v), s1) => (.ok v, s1)
    | (.ok none, s1) =>
      match s1.parent c with
      | some p => resolve fuel p name abstraction s1
      | none =>
        (.error (.panic ("no concrete found for the abstraction: " ++ abstraction.str)), s1)

/-- The check `reflect.Value.Call` makes before it calls a function: the dynamic type of
every argument has to be assignable to the type of its parameter.  The result is the
panic for the first argument that is not, if there is one. -/
def callCheck (s : State) : List RType → List Obj → Option Err
  | t :: ts, v :: vs =>
    if s.assignableTo (s.dynType v) t then callCheck s ts vs
    else some (.panic ("reflect: Call using " ++ (s.dynType v).str ++ " as type " ++ t.str))
  | _, _ => none

/-- The method `MakeNamed`.  For a pointer the instance is resolved first and then
stored with `reflect.Value.Set`, which panics on the zero `Value` that `Elem()` gives
for a nil pointer and on an instance whose dynamic type is not assignable to the type of
the variable.  For a function the arguments are resolved first and then handed to
`reflect.Value.Call`, which makes `callCheck`. -/
def MakeNamed (fuel : Nat) (c : Nat) (name : String) (receiver : Value) (s : State) :
    Res Unit :=
  match receiver with
  | .nil =>
    (.error (.panic
      "cannot detect type of the receiver, make sure your are passing reference of the object"),
      s)
  | .ptr abstraction addr =>
    match resolve fuel c name abstraction s with
    | (.error e, s1) => (.error e, s1)
    | (.ok v, s1) =>
      if s1.assignableTo (s1.dynType v) abstraction then (.ok (), s1.store addr v)
      else
        (.error (.panic ("reflect.Set: value of type " ++ (s1.dynType v).str ++
          " is not assignable to type " ++ abstraction.str)), s1)
  | .nilPtr abstraction =>
    match resolve fuel c name abstraction s with
    | (.error e, s1) => (.error e, s1)
    | (.ok _, s1) => (.error (.panic "reflect: call of reflect.Value.Set on zero Value"), s1)
  | .func f =>
    match arguments (resolve fuel c) name f.ins s with
    | (.error e, s1) => (.error e, s1)
    | (.ok args, s1) =>
      match callCheck s1 f.ins args with
      | some e => (.error e, s1)
      | none => (.ok (), s1.record f args)
  | .other => (.error (.panic "the receiver must be either a reference or a callback"), s)

/-- The method `Make`. -/
def Make (fuel : Nat) (c : Nat) (receiver : Value) (s : State) : Res Unit :=
  MakeNamed fuel c "" receiver s

/-- The loop of `ForEachNamed` over the names the range yields: the empty name is
skipped; for every other name the argument of the function is resolved under that name
and the function is called with `reflect.Value.Call`, which makes `callCheck`. -/
def forEachNamedLoop (resolve : String → RType → State → Res Obj) (function : Func) :
    List String → State → Res Unit
  | [], s => (.ok (), s)
  | name :: rest, s =>
    if name = "" then forEachNamedLoop resolve function rest s
    else
      match arguments resolve name function.ins s with
      | (.error e, s1) => (.error e, s1)
      | (.ok args, s1) =>
        match callCheck s1 function.ins args with
        | some e => (.error e, s1)
        | none => forEachNamedLoop resolve function rest (s1.record function args)

/-- The method `ForEachNamed`.  A range over a Go map yields its keys in an order the
language leaves open: `order` is that order, as a rearrangement of the keys.  As in
`bind`, `Kind()` on the nil `Type` of an untyped nil is a nil dereference. -/
def ForEachNamed (order : List String → List String) (fuel : Nat) (c : Nat)
    (function : Value) (s : State) : Res Unit :=
  match function with
  | .nil => (.error .nilDereference, s)
  | .func f =>
    match f.ins with
    | [abstraction] =>
      if f.outs.length ≠ 0 then
        (.error (.panic "function must not return anything"), s)
      else
        forEachNamedLoop (resolve fuel c) f
          (order (mapKeys ((mapGet abstraction (s.bindings c)).getD []))) s
    | _ => (.error (.panic "function have to accept exactly one argument"), s)
  | _ => (.error (.panic "argument must be a function"), s)

/-- The registries a resolution started at `c` can visit: `c`, its parent, the parent
of that one, ..., at most `n` parent steps. -/
def parentChain (s : State) : Nat → Nat → List Nat
  | 0, c => [c]
  | n + 1, c =>
    c :: (match s.parent c with
      | some p => parentChain s n p
      | none => [])

/-! ## Operations -/

/-- The operations a caller can issue: `NewContainer`, `SubContainer`, a declaration
(`Singleton`, `SingletonNamed`, `Transient` and `TransientNamed` are `bind` with a name and
a lifecycle), `Reset`, a resolution, `MakeNamed` (`Make` is `MakeNamed` under the empty
name) and `ForEachNamed`. -/
inductive Op where
  | newContainer : Op
  | subContainer (c : Nat) : Op
  | declare (c : Nat) (name : String) (resolver : Value) (singleton : Bool) : Op
  | reset (c : Nat) : Op
  | resolve (fuel c : Nat) (name : String) (abstraction : RType) : Op
  | makeNamed (fuel c : Nat) (name : String) (receiver : Value) : Op
  | forEachNamed (order : List String → List String) (fuel c : Nat) (function : Value) : Op

/-- The state an operation leaves, whether it returns or panics. -/
def Op.after : Op → State → State
  | .newContainer, s => (NewContainer s).2
  | .subContainer c, s => (SubContainer c s).2
  | .declare c name resolver singleton, s => (bind c name resolver singleton s).2
  | .reset c, s => Reset c s
  | .resolve fuel c name abstraction, s => (Ioc.resolve fuel c name abstraction s).2
  | .makeNamed fuel c name receiver, s => (MakeNamed fuel c name receiver s).2
  | .forEachNamed order fuel c function, s => (ForEachNamed order fuel c function s).2

/-- The state a sequence of operations leaves. -/
def afterAll : List Op → State → State
  | [], s => s
  | op :: ops, s => afterAll ops (op.after s)

/-! ## Successive calls -/

/-- The results of `n` successive calls of an operation, each on the state the one
before left; a panic ends the run. -/
def times (op : State → Res Instance) : Nat → State → Res (List Instance)
  | 0, s => (.ok [], s)
  | n + 1, s =>
    match op s with
    | (.error e, s1) => (.error e, s1)
    | (.ok r, s1) =>
      match times op n s1 with
      | (.error e, s2) => (.error e, s2)
      | (.ok rs, s2) => (.ok (r :: rs), s2)

/-! ## Predicates used in the statements -/

/-- Between `s` and `s'` nothing but the table of registry `c` may differ: every other
registry, every parent pointer, the call log and the variables are the same. -/
def OnlyTableOf (c : Nat) (s s' : State) : Prop :=
  (∀ k, k ≠ c → s'.containers[k]? = s.containers[k]?) ∧
  s'.containers.length = s.containers.length ∧
  (∀ k, s'.parent k = s.parent k) ∧
  s'.calls = s.calls ∧
  s'.vars = s.vars

/-- What may become of one slot of a table while bindings are resolved: an empty slot
stays empty; a binding keeps its resolver and lifecycle, a transient one keeps its
`instance` field, and a filled `instance` field keeps its value. -/
def SlotEvolves : Option Binding → Option Binding → Prop
  | none, o => o = none
  | some b, o =>
    ∃ b', o = some b' ∧ b'.resolver = b.resolver ∧ b'.singleton = b.singleton ∧
      (b.singleton = false → b'.inst = b.inst) ∧
      (∀ v, b.inst = some v → b'.inst = some v)

/-- What may become of a state while bindings are resolved: no registry is added or
re-parented, no variable is written, the call log grows at its end, and every slot of
every table evolves as `SlotEvolves` says. -/
def Evolves (s s' : State) : Prop :=
  s'.containers.length = s.containers.length ∧
  (∀ k, s'.parent k = s.parent k) ∧
  s'.vars = s.vars ∧
  (∃ l, s'.calls = s.calls ++ l) ∧
  (∀ k a n, SlotEvolves (s.binding k a n) (s'.binding k a n))

/-- The ways a resolution can end abnormally: out of fuel, result 0 of a function
without results, or the panic of `resolve` for some abstraction. -/
def IsResolveError (e : Err) : Prop :=
  e = .outOfFuel ∨ e = .indexOutOfRange ∨
    ∃ x : RType, e = .panic ("no concrete found for the abstraction: " ++ x.str)

/-- What the spec says of an argument list: the parameter types are resolved one after
the other in position order, each on the state the one before left, every one of them
resolves, and the list holds their results in that order. -/
inductive ResolvedInOrder (res : String → RType → State → Res Obj) (name : String) :
    List RType → State → List Obj → State → Prop where
  | nil (s : State) : ResolvedInOrder res name [] s [] s
  | cons (a : RType) (rest : List RType) (s s1 s2 : State) (v : Obj) (vs : List Obj) :
      res name a s = (.ok v, s1) → ResolvedInOrder res name rest s1 vs s2 →
      ResolvedInOrder res name (a :: rest) s (v :: vs) s2

/-- The cache of a binding is filled only if the binding is a singleton. -/
def CacheInvariant (s : State) : Prop :=
  ∀ k a n b, s.binding k a n = some b → b.singleton = false → b.inst = none

/-- Every binding whose cache is filled in `s` is still in the table in `s'`, with the
same resolver, the same lifecycle and the same instance in its cache. -/
def CachesKept (s s' : State) : Prop :=
  ∀ k a n b v, s.binding k a n = some b → b.inst = some v →
    ∃ b', s'.binding k a n = some b' ∧ b'.resolver = b.resolver ∧
      b'.singleton = b.singleton ∧ b'.inst = some v

/-- What a resolution under the name `name` may touch: every slot stored under another
non-empty name, in every registry, holds what it held; and every call added to the log
is a call of the resolver of a binding stored under `name` or under the empty name. -/
def TouchesOnly (name : String) (s s' : State) : Prop :=
  (∀ k a m, m ≠ name → m ≠ "" → s'.binding k a m = s.binding k a m) ∧
  (∃ l, s'.calls = s.calls ++ l ∧
    ∀ e ∈ l, ∃ k a m b, (m = name ∨ m = "") ∧ s.binding k a m = some b ∧
      b.resolver.fid = e.1)

/-- The names `ForEachNamed` has work to do for, in the order of the range: the keys of
the registry's own inner map of the abstraction, the empty name left out. -/
def visitedNames (order : List String → List String) (s : State) (c : Nat)
    (abstraction : RType) : List String :=
  (order (mapKeys ((mapGet abstraction (s.bindings c)).getD []))).filter
    (fun x => decide (x ≠ ""))

/-- What the spec says of `forEachNamed`, for a list of names: one name after the other,
the registry's own binding under the name resolves to an instance, of a type assignable
to the abstraction, and the consumer is called once, with that instance; the list holds
the instances in that order. -/
inductive VisitedInOrder (fuel c : Nat) (abstraction : RType) (consumer : Func) :
    List String → State → List Obj → State → Prop where
  | nil (s : State) : VisitedInOrder fuel c abstraction consumer [] s [] s
  | cons (name : String) (rest : List String) (s s1 s2 : State) (v : Obj) (vs : List Obj) :
      resolveLocally (resolve fuel c) c name abstraction s = (.ok (some v), s1) →
      s1.assignableTo (s1.dynType v) abstraction = true →
      VisitedInOrder fuel c abstraction consumer rest (s1.record consumer [v]) vs s2 →
      VisitedInOrder fuel c abstraction consumer (name :: rest) s (v :: vs) s2

/-! ## Sample registries

The types and factories of `container_test.go`, used to evaluate the operations on
concrete registries. -/

/-- The interface type `Shape`. -/
def Shape : RType := { id := 0, str := "ioc.Shape" }

/-- The interface type `Database`. -/
def Database : RType := { id := 1, str := "ioc.Database" }

/-- A factory `func() Shape` that returns a new circle at each call: the object is
named by the number of calls made before. -/
def newCircle (fid : Nat) : Func :=
  { fid := fid, ins := [], outs := [Shape], body := fun calls _ => [some calls.length] }

/-- The factory `func() Shape { return nil }`. -/
def nilShape (fid : Nat) : Func :=
  { fid := fid, ins := [], outs := [Shape], body := fun _ _ => [none] }

/-- A factory `func() Database` that returns a new object at each call. -/
def newMySQL (fid : Nat) : Func :=
  { fid := fid, ins := [], outs := [Database], body := fun calls _ => [some calls.length] }

/-- A factory `func(s Shape) Database` that returns a new object at each call. -/
def dbOfShape (fid : Nat) : Func :=
  { fid := fid, ins := [Shape], outs := [Database],
    body := fun calls _ => [some calls.length] }

/-- A factory `func(d Database) Shape` that returns a new object at each call. -/
def shapeOfDb (fid : Nat) : Func :=
  { fid := fid, ins := [Database], outs := [Shape],
    body := fun calls _ => [some calls.length] }

/-- A factory `func() (Shape, Database)` with two output types. -/
def shapeAndDb (fid : Nat) : Func :=
  { fid := fid, ins := [], outs := [Shape, Database],
    body := fun calls _ => [some calls.length, some (calls.length + 1)] }

/-- No registry yet. -/
def noRegistry : State := { containers := [], calls := [], vars := [] }

/-- One registry, at address 0, made by `NewContainer`. -/
def oneRegistry : State := (NewContainer noRegistry).2

/-- Registry 0 after `Singleton(func() Database)`. -/
def databaseBound : State := (Singleton 0 (.func (newMySQL 1)) oneRegistry).2

/-- Registry 0 after `Singleton(func() Shape)`: the state of
`TestSingletonItShouldMakeSameObjectEachMake` before its first `Make`. -/
def shapeSingleton : State := (Singleton 0 (.func (newCircle 1)) oneRegistry).2

/-- Registry 0 after `Transient(func() Shape)`: the state of
`TestTransientItShouldMakeDifferentObjectsOnMake` before its first `Make`. -/
def shapeTransient : State := (Transient 0 (.func (newCircle 1)) oneRegistry).2

/-- Registry 0 with its `Shape` singleton and a sub-container, registry 1, that
declares nothing: the state of `TestSubContainerResolvesFromParent`. -/
def shapeInParent : State := (SubContainer 0 shapeSingleton).2

/-- Registry 0 after its `Shape` singleton was resolved once: the cache is filled. -/
def shapeCached : State := (resolve 1 0 "" Shape shapeSingleton).2

/-- Registry 0 with a `Shape` singleton and its sub-container 1 with a `Shape`
singleton of its own: the state of `TestEachContainerResolvesFromItself`. -/
def shapeShadowed : State :=
  (Singleton 1 (.func (newCircle 2)) (SubContainer 0 shapeSingleton).2).2

/-- Registry 0 declares `func() Shape` and `func(s Shape) Database` as singletons; its
sub-container 1 declares `func(d Database) Shape` as a singleton. -/
def shapeShadowedWithDependency : State :=
  (Singleton 1 (.func (shapeOfDb 3))
    (SubContainer 0 (Singleton 0 (.func (dbOfShape 2)) shapeSingleton).2).2).2

/-- Registry 0 declares a transient `func() Shape` that makes a circle; its
sub-container 1 declares a transient `func() Shape` that returns nil: the state of
`TestMakePanicsIfDependencyResolvesToNil`. -/
def nilShapeInChild : State :=
  (Transient 1 (.func (nilShape 2)) (SubContainer 0 shapeTransient).2).2

/-- Registry 0 declares `func(d Database) Shape`; only its sub-container 1 declares
`func() Database`. -/
def databaseOnlyInChild : State :=
  (Singleton 1 (.func (newMySQL 2))
    (SubContainer 0 (Singleton 0 (.func (shapeOfDb 1)) oneRegistry).2).2).2

/-- Registry 0 after `Singleton(func() Shape)` and `Singleton(func() Database)`: the
state of `TestMakeWithMultipleInputsAndCallback` before `Make`. -/
def shapeAndDatabase : State := (Singleton 0 (.func (newMySQL 2)) shapeSingleton).2

/-- The callback `func(s Shape, d Database) {}` of `TestMakeWithMultipleInputsAndCallback`
and `TestMakeWithCallbackThatHasAUnboundedAbstraction`. -/
def shapeDatabaseCallback : Func :=
  { fid := 9, ins := [Shape, Database], outs := [], body := fun _ _ => [] }

/-- Registry 0 after `Singleton(func() Shape { return nil })`. -/
def nilShapeSingleton : State := (Singleton 0 (.func (nilShape 1)) oneRegistry).2

/-- Registry 0 after `SingletonNamed("x", func() Database)` and
`SingletonNamed("x", func(d Database) Shape)`: `Database` is bound under the name "x"
only. -/
def databaseOnlyNamed : State :=
  (SingletonNamed 0 "x" (.func (shapeOfDb 2))
    (SingletonNamed 0 "x" (.func (newMySQL 1)) oneRegistry).2).2

/-- A consumer `func(s Shape) {}` for `ForEachNamed`. -/
def shapeConsumer : Func :=
  { fid := 8, ins := [Shape], outs := [], body := fun _ _ => [] }

/-- A factory `func(s Shape) Shape` that returns a new object at each call. -/
def shapeOfShape (fid : Nat) : Func :=
  { fid := fid, ins := [Shape], outs := [Shape],
    body := fun calls _ => [some calls.length] }

/-- Registry 0 after `Singleton(func() Shape)` and
`SingletonNamed("x", func(s Shape) Shape)`. -/
def shapeNamedFromDefault : State :=
  (SingletonNamed 0 "x" (.func (shapeOfShape 2)) shapeSingleton).2

/-- Registry 0 after `SingletonNamed("A", func() Shape)` and
`SingletonNamed("B", func() Shape)`, as in `TestSingletonTwoNamedInstancesAreDifferent`. -/
def twoNamedShapes : State :=
  (SingletonNamed 0 "B" (.func (newCircle 2))
    (SingletonNamed 0 "A" (.func (newCircle 1)) oneRegistry).2).2

/-- The interface type `Concrete`. -/
def Concrete : RType := { id := 2, str := "ioc.Concrete" }

/-- A factory `func() Concrete` that returns a new object at each call. -/
def newConcrete (fid : Nat) : Func :=
  { fid := fid, ins := [], outs := [Concrete], body := fun calls _ => [some calls.length] }

/-- The consumer `func(c Concrete) {...}` of `TestForEachNamedReturnsNamedConcretesOnly`. -/
def concreteConsumer : Func :=
  { fid := 9, ins := [Concrete], outs := [], body := fun _ _ => [] }

/-- The registry of `TestForEachNamedReturnsNamedConcretesOnly`: a default `Concrete`, a
singleton `Concrete` named "B", a transient `Concrete` named "C" and a `Shape` named "B". -/
def namedConcretes : State :=
  (SingletonNamed 0 "B" (.func (newCircle 4))
    (TransientNamed 0 "C" (.func (newConcrete 3))
      (SingletonNamed 0 "B" (.func (newConcrete 2))
        (Singleton 0 (.func (newConcrete 1)) oneRegistry).2).2).2).2

/-- The registry of `TestForEachNamedReturnsNamedConcretesOnly` after the `Concrete`
named "B" was resolved and the consumer called with it. -/
def namedConcretesAfterB : State :=
  ((resolveLocally (resolve 0 0) 0 "B" Concrete namedConcretes).2).record concreteConsumer [0]

/-- The same registry after the `Concrete` named "C" was resolved next and the consumer
called with it. -/
def namedConcretesAfterC : State :=
  ((resolveLocally (resolve 0 0) 0 "C" Concrete namedConcretesAfterB).2).record
    concreteConsumer [2]

/-- A factory `func() Concrete { return nil }`. -/
def nilConcrete (fid : Nat) : Func :=
  { fid := fid, ins := [], outs := [Concrete], body := fun _ _ => [none] }

/-- Registry 0 after `SingletonNamed("B", func() Concrete { return nil })` and
`TransientNamed("C", func() Concrete)`. -/
def nilNamedConcrete : State :=
  (TransientNamed 0 "C" (.func (newConcrete 3))
    (SingletonNamed 0 "B" (.func (nilConcrete 2)) oneRegistry).2).2

/-- Registry 0 binds `Concrete` under "B", registry 1 is its child and binds `Concrete`
under "B" to a factory that returns nil, and under "C". -/
def nilNamedConcreteInChild : State :=
  (TransientNamed 1 "C" (.func (newConcrete 3))
    (SingletonNamed 1 "B" (.func (nilConcrete 2))
      (SubContainer 0
        (SingletonNamed 0 "B" (.func (newConcrete 1)) oneRegistry).2).2).2).2

/-- The type `*ioc.Circle` of the circles of `container_test.go`. -/
def CirclePtr : RType := { id := 10, str := "*ioc.Circle" }

/-- The type `*ioc.MySQL`. -/
def MySQLPtr : RType := { id := 11, str := "*ioc.MySQL" }

/-- `AssignableTo` among the types of `container_test.go`: every type to itself, a
`*Circle` to `Shape` and a `*MySQL` to `Database`. -/
def testAssignable (x t : RType) : Bool :=
  x == t || (x == CirclePtr && t == Shape) || (x == MySQLPtr && t == Database)

/-- The factory `func() (Shape, Database) { return &Circle{}, &MySQL{} }`: its call after
`k` calls makes the circle `2 * k` and the MySQL `2 * k + 1`. -/
def circleAndMySQL (fid : Nat) : Func :=
  { fid := fid, ins := [], outs := [Shape, Database],
    body := fun calls _ => [some (2 * calls.length), some (2 * calls.length + 1)] }

/-- The dynamic types of the objects `circleAndMySQL` makes: the even ones are circles,
the odd ones are MySQLs. -/
def circleOrMySQL (o : Obj) : RType := if o % 2 = 0 then CirclePtr else MySQLPtr

/-- One registry, at address 0, in a program with the types of `container_test.go`. -/
def typedRegistry : State :=
  { oneRegistry with dynType := circleOrMySQL, assignableTo := testAssignable }

/-- Registry 0 of `typedRegistry` after
`Singleton(func() (Shape, Database) { return &Circle{}, &MySQL{} })`. -/
def circleAndMySQLBound : State := (Singleton 0 (.func (circleAndMySQL 1)) typedRegistry).2

/-! ## Maps -/

section Maps
variable {κ β : Type} [DecidableEq κ]

theorem mapGet_mapSet_same (k : κ) (v : β) (m : List (κ × β)) :
    mapGet k (mapSet k v m) = some v := by
  induction m with
  | nil => simp [mapSet, mapGet]
  | cons p m ih =>
    obtain ⟨k', v'⟩ := p
    by_cases h : k' = k
    · simp [mapSet, mapGet, h]
    · simp [mapSet, mapGet, h, ih]

theorem mapGet_mapSet_ne (k k' : κ) (v : β) (m : List (κ × β)) (hne : k' ≠ k) :
    mapGet k' (mapSet k v m) = mapGet k' m := by
  induction m with
  | nil => simp [mapSet, mapGet, Ne.symm hne]
  | cons p m ih =>
    obtain ⟨k₀, v₀⟩ := p
    by_cases h : k₀ = k
    · subst h
      simp [mapSet, mapGet, Ne.symm hne]
    · by_cases h2 : k₀ = k'
      · subst h2
        simp [mapSet, mapGet, h]
      · simp [mapSet, mapGet, h, h2, ih]

theorem mapGet_mapSet (k k' : κ) (v : β) (m : List (κ × β)) :
    mapGet k' (mapSet k v m) = if k' = k then some v else mapGet k' m := by
  by_cases h : k' = k
  · subst h; simp [mapGet_mapSet_same]
  · simp [h, mapGet_mapSet_ne _ _ _ _ h]

theorem mem_mapDelete (k : κ) (m : List (κ × β)) (p : κ × β) (hp : p ∈ mapDelete k m) :
    p ∈ m ∧ p.1 ≠ k := by
  induction m with
  | nil => simp [mapDelete] at hp
  | cons q m ih =>
    obtain ⟨k', v'⟩ := q
    by_cases h : k' = k
    · simp only [mapDelete, h, if_true] at hp
      exact ⟨List.mem_cons_of_mem _ (ih hp).1, (ih hp).2⟩
    · simp only [mapDelete, h, if_false, List.mem_cons] at hp
      rcases hp with rfl | hp
      · exact ⟨List.mem_cons_self _ _, h⟩
      · exact ⟨List.mem_cons_of_mem _ (ih hp).1, (ih hp).2⟩

theorem mapDelete_all (ks : List κ) (m : List (κ × β)) (h : ∀ p ∈ m, p.1 ∈ ks) :
    ks.foldl (fun t k => mapDelete k t) m = [] := by
  induction ks generalizing m with
  | nil =>
    cases m with
    | nil => rfl
    | cons p m => exact absurd (h p (List.mem_cons_self _ _)) (List.not_mem_nil _)
  | cons k ks ih =>
    simp only [List.foldl_cons]
    apply ih
    intro p hp
    obtain ⟨hm, hne⟩ := mem_mapDelete k m p hp
    rcases List.mem_cons.mp (h p hm) with h1 | h1
    · exact absurd h1 hne
    · exact h1

end Maps

/-! ## State access -/

theorem State.getElem?_setBindings (s : State) (c k : Nat) (t : Table) (hk : k ≠ c) :
    (s.setBindings c t).containers[k]? = s.containers[k]? := by
  unfold State.setBindings
  cases h : s.containers[c]? with
  | none => rfl
  | some x => simp [List.getElem?_set_ne (Ne.symm hk)]

theorem State.length_setBindings (s : State) (c : Nat) (t : Table) :
    (s.setBindings c t).containers.length = s.containers.length := by
  unfold State.setBindings
  cases h : s.containers[c]? with
  | none => rfl
  | some x => simp

theorem State.calls_setBindings (s : State) (c : Nat) (t : Table) :
    (s.setBindings c t).calls = s.calls := by
  unfold State.setBindings
  cases h : s.containers[c]? <;> rfl

theorem State.vars_setBindings (s : State) (c : Nat) (t : Table) :
    (s.setBindings c t).vars = s.vars := by
  unfold State.setBindings
  cases h : s.containers[c]? <;> rfl

theorem State.parent_setBindings (s : State) (c c' : Nat) (t : Table) :
    (s.setBindings c t).parent c' = s.parent c' := by
  unfold State.setBindings
  cases h : s.containers[c]? with
  | none => rfl
  | some x =>
    by_cases hc : c' = c
    · subst hc
      have hlt : c' < s.containers.length := by
        by_contra hge
        simp [List.getElem?_eq_none (Nat.le_of_not_lt hge)] at h
      simp [State.parent, hlt, h]
    · simp [State.parent, List.getElem?_set_ne (Ne.symm hc)]

theorem State.bindings_setBindings (s : State) (c c' : Nat) (t : Table) :
    (s.setBindings c t).bindings c' =
      if c' = c ∧ c < s.containers.length then t else s.bindings c' := by
  unfold State.setBindings
  cases h : s.containers[c]? with
  | none =>
    have : ¬ c < s.containers.length := by
      intro hlt; simp [List.getElem?_eq_getElem hlt] at h
    simp [this]
  | some k =>
    have hlt : c < s.containers.length := by
      by_contra hge
      simp [List.getElem?_eq_none (Nat.le_of_not_lt hge)] at h
    by_cases hc : c' = c
    · subst hc
      simp [State.bindings, hlt]
    · simp [State.bindings, hc, List.getElem?_set_ne (Ne.symm hc)]

theorem State.bindings_of_not_lt (s : State) (c : Nat) (h : ¬ c < s.containers.length) :
    s.bindings c = [] := by
  simp [State.bindings, List.getElem?_eq_none (Nat.le_of_not_lt h)]

theorem State.binding_addBinding (s : State) (c c' : Nat) (a a' : RType) (n n' : String)
    (b : Binding) :
    (s.addBinding c a n b).binding c' a' n' =
      if c' = c ∧ c < s.containers.length ∧ a' = a ∧ n' = n then some b
      else s.binding c' a' n' := by
  unfold State.addBinding State.binding
  simp only [State.bindings_setBindings]
  by_cases hc : c' = c ∧ c < s.containers.length
  · obtain ⟨rfl, hlt⟩ := hc
    simp only [hlt, and_self, if_true, true_and]
    by_cases ha : a' = a
    · subst ha
      simp only [mapGet_mapSet_same, true_and]
      by_cases hn : n' = n
      · subst hn
        simp [mapGet_mapSet_same]
      · simp only [hn, if_false, mapGet_mapSet_ne _ _ _ _ hn]
        cases hg : mapGet a' (s.bindings c') with
        | none => simp [mapGet_mapSet_same, mapGet]
        | some names => simp [hg]
    · simp only [ha, false_and, if_false, mapGet_mapSet_ne _ _ _ _ ha]
      cases hg : mapGet a (s.bindings c') with
      | none => simp [mapGet_mapSet_ne _ _ _ _ ha]
      | some names => simp
  · have : ¬ (c' = c ∧ c < s.containers.length ∧ a' = a ∧ n' = n) := by
      rintro ⟨h1, h2, -⟩; exact hc ⟨h1, h2⟩
    simp [hc, this]

theorem State.binding_setInstance (s : State) (c c' : Nat) (a a' : RType) (n n' : String)
    (v : Instance) :
    (s.setInstance c a n v).binding c' a' n' =
      if c' = c ∧ a' = a ∧ n' = n then
        (s.binding c a n).map (fun b => { b with inst := v })
      else s.binding c' a' n' := by
  unfold State.setInstance
  cases hg : mapGet a (s.bindings c) with
  | none =>
    by_cases h : c' = c ∧ a' = a ∧ n' = n
    · obtain ⟨rfl, rfl, rfl⟩ := h
      simp [State.binding, hg]
    · simp [h]
  | some names =>
    cases hb : mapGet n names with
    | none =>
      simp only [hb]
      by_cases h : c' = c ∧ a' = a ∧ n' = n
      · obtain ⟨rfl, rfl, rfl⟩ := h
        simp [State.binding, hg, hb]
      · simp [h]
    | some b =>
      simp only [hb]
      have hlt : c < s.containers.length := by
        by_contra hge
        rw [State.bindings_of_not_lt s c hge] at hg
        simp [mapGet] at hg
      simp only [State.binding, State.bindings_setBindings, hlt, and_true]
      by_cases hc : c' = c
      · subst hc
        simp only [if_true, true_and, hg]
        by_cases ha : a' = a
        · subst ha
          simp only [mapGet_mapSet_same, true_and]
          by_cases hn : n' = n
          · subst hn
            simp [mapGet_mapSet_same, hb]
          · simp [hn, mapGet_mapSet_ne _ _ _ _ hn, hg]
        · simp [ha, mapGet_mapSet_ne _ _ _ _ ha]
      · simp [hc]

theorem State.getElem?_addBinding (s : State) (c k : Nat) (a : RType) (n : String)
    (b : Binding) (hk : k ≠ c) :
    (s.addBinding c a n b).containers[k]? = s.containers[k]? :=
  State.getElem?_setBindings s c k _ hk

theorem State.length_addBinding (s : State) (c : Nat) (a : RType) (n : String)
    (b : Binding) : (s.addBinding c a n b).containers.length = s.containers.length :=
  State.length_setBindings s c _

theorem State.parent_addBinding (s : State) (c c' : Nat) (a : RType) (n : String)
    (b : Binding) : (s.addBinding c a n b).parent c' = s.parent c' :=
  State.parent_setBindings s c c' _

theorem State.calls_addBinding (s : State) (c : Nat) (a : RType) (n : String)
    (b : Binding) : (s.addBinding c a n b).calls = s.calls :=
  State.calls_setBindings s c _

theorem State.vars_addBinding (s : State) (c : Nat) (a : RType) (n : String)
    (b : Binding) : (s.addBinding c a n b).vars = s.vars :=
  State.vars_setBindings s c _

theorem State.getElem?_setInstance (s : State) (c k : Nat) (a : RType) (n : String)
    (v : Instance) (hk : k ≠ c) :
    (s.setInstance c a n v).containers[k]? = s.containers[k]? := by
  unfold State.setInstance
  split
  · rfl
  · split
    · rfl
    · exact State.getElem?_setBindings s c k _ hk

theorem State.length_setInstance (s : State) (c : Nat) (a : RType) (n : String)
    (v : Instance) : (s.setInstance c a n v).containers.length = s.containers.length := by
  unfold State.setInstance
  split
  · rfl
  · split
    · rfl
    · exact State.length_setBindings s c _

theorem State.parent_setInstance (s : State) (c c' : Nat) (a : RType) (n : String)
    (v : Instance) : (s.setInstance c a n v).parent c' = s.parent c' := by
  unfold State.setInstance
  split
  · rfl
  · split
    · rfl
    · exact State.parent_setBindings s c c' _

theorem State.calls_setInstance (s : State) (c : Nat) (a : RType) (n : String)
    (v : Instance) : (s.setInstance c a n v).calls = s.calls := by
  unfold State.setInstance
  split
  · rfl
  · split
    · rfl
    · exact State.calls_setBindings s c _

theorem State.vars_setInstance (s : State) (c : Nat) (a : RType) (n : String)
    (v : Instance) : (s.setInstance c a n v).vars = s.vars := by
  unfold State.setInstance
  split
  · rfl
  · split
    · rfl
    · exact State.vars_setBindings s c _

/-! ## Declaration -/

theorem bindOuts_nil (c : Nat) (name : String) (f : Func) (L : Bool) (s : State) :
    bindOuts c name f L [] s = (.ok (), s) := rfl

theorem bindOuts_cons (c : Nat) (name : String) (f : Func) (L : Bool) (a : RType)
    (rest : List RType) (s : State) :
    bindOuts c name f L (a :: rest) s =
      if (s.binding c a name).isSome then
        (.error (.panic ("concrete already exists  for the abstraction: " ++ a.str)), s)
      else
        bindOuts c name f L rest
          (s.addBinding c a name { resolver := f, singleton := L, inst := none }) := rfl

/-- The loop of `bind` never touches another registry, a parent pointer, the call
log or the variables, whatever its outcome. -/
theorem bindOuts_frame (c : Nat) (name : String) (f : Func) (L : Bool) (outs : List RType)
    (s : State) :
    (∀ k, k ≠ c → (bindOuts c name f L outs s).2.containers[k]? = s.containers[k]?) ∧
    (bindOuts c name f L outs s).2.containers.length = s.containers.length ∧
    (∀ k, (bindOuts c name f L outs s).2.parent k = s.parent k) ∧
    (bindOuts c name f L outs s).2.calls = s.calls ∧
    (bindOuts c name f L outs s).2.vars = s.vars := by
  induction outs generalizing s with
  | nil => simp [bindOuts_nil]
  | cons a rest ih =>
    rw [bindOuts_cons]
    split
    · simp
    · obtain ⟨h1, h2, h3, h4, h5⟩ :=
        ih (s.addBinding c a name { resolver := f, singleton := L, inst := none })
      refine ⟨?_, ?_, ?_, ?_, ?_⟩
      · intro k hk
        rw [h1 k hk, State.getElem?_addBinding _ _ _ _ _ _ hk]
      · rw [h2, State.length_addBinding]
      · intro k
        rw [h3 k, State.parent_addBinding]
      · rw [h4, State.calls_addBinding]
      · rw [h5, State.vars_addBinding]

/-- A successful run of the loop: every output type was free, is bound afterwards to
the new binding, and every other slot is as before. -/
theorem bindOuts_ok (c : Nat) (name : String) (f : Func) (L : Bool) (outs : List RType)
    (s s' : State) (hc : c < s.containers.length)
    (h : bindOuts c name f L outs s = (.ok (), s')) :
    outs.Nodup ∧
    (∀ a ∈ outs, s.binding c a name = none ∧
      s'.binding c a name = some { resolver := f, singleton := L, inst := none }) ∧
    (∀ k a n, ¬ (k = c ∧ a ∈ outs ∧ n = name) → s'.binding k a n = s.binding k a n) := by
  induction outs generalizing s with
  | nil =>
    rw [bindOuts_nil] at h
    cases h
    simp
  | cons a rest ih =>
    rw [bindOuts_cons] at h
    by_cases hd : (s.binding c a name).isSome
    · simp [hd] at h
    · simp only [hd, if_false] at h
      have hnone : s.binding c a name = none := by
        cases hb : s.binding c a name with
        | none => rfl
        | some b => simp [hb] at hd
      have hc1 : c < (s.addBinding c a name
          { resolver := f, singleton := L, inst := none }).containers.length := by
        rw [State.length_addBinding]; exact hc
      obtain ⟨hnd, hin, hout⟩ := ih _ hc1 h
      have hanot : a ∉ rest := by
        intro hmem
        have := (hin a hmem).1
        rw [State.binding_addBinding] at this
        simp [hc] at this
      refine ⟨List.nodup_cons.mpr ⟨hanot, hnd⟩, ?_, ?_⟩
      · intro x hx
        rcases List.mem_cons.mp hx with rfl | hx
        · refine ⟨hnone, ?_⟩
          rw [hout c x name (by simp [hanot]), State.binding_addBinding]
          simp [hc]
        · have hxa : x ≠ a := fun e => hanot (e ▸ hx)
          have h1 := (hin x hx).1
          rw [State.binding_addBinding] at h1
          simp only [hxa, false_and, and_false, if_false] at h1
          exact ⟨h1, (hin x hx).2⟩
      · intro k x n hnot
        by_cases hmem : k = c ∧ x ∈ rest ∧ n = name
        · exact absurd ⟨hmem.1, List.mem_cons_of_mem _ hmem.2.1, hmem.2.2⟩ hnot
        · rw [hout k x n hmem, State.binding_addBinding]
          have : ¬ (k = c ∧ c < s.containers.length ∧ x = a ∧ n = name) := by
            rintro ⟨h1, -, h3, h4⟩
            exact hnot ⟨h1, h3 ▸ List.mem_cons_self _ _, h4⟩
          simp [this]

theorem bindOuts_append (c : Nat) (name : String) (f : Func) (L : Bool)
    (pre post : List RType) (s : State) :
    bindOuts c name f L (pre ++ post) s =
      match bindOuts c name f L pre s with
      | (.ok _, s1) => bindOuts c name f L post s1
      | (.error e, s1) => (.error e, s1) := by
  induction pre generalizing s with
  | nil => simp [bindOuts_nil]
  | cons a rest ih =>
    rw [List.cons_append, bindOuts_cons, bindOuts_cons]
    split
    · rfl
    · exact ih _

/-- A failed run of the loop stopped at the first output type whose slot was taken:
the output types before it were declared, and the state is the one they left. -/
theorem bindOuts_error (c : Nat) (name : String) (f : Func) (L : Bool) (outs : List RType)
    (s s' : State) (e : Err) (h : bindOuts c name f L outs s = (.error e, s')) :
    ∃ pre a post, outs = pre ++ a :: post ∧
      bindOuts c name f L pre s = (.ok (), s') ∧
      (s'.binding c a name).isSome = true ∧
      e = .panic ("concrete already exists  for the abstraction: " ++ a.str) := by
  induction outs generalizing s with
  | nil =>
    rw [bindOuts_nil] at h
    cases h
  | cons a rest ih =>
    rw [bindOuts_cons] at h
    by_cases hd : (s.binding c a name).isSome
    · simp only [hd, if_true, Prod.mk.injEq, Except.error.injEq] at h
      obtain ⟨he, hs⟩ := h
      subst hs
      exact ⟨[], a, rest, rfl, rfl, hd, he.symm⟩
    · simp only [hd, if_false] at h
      obtain ⟨pre, x, post, hsplit, hpre, hx, he⟩ := ih _ h
      refine ⟨a :: pre, x, post, by simp [hsplit], ?_, hx, he⟩
      rw [bindOuts_cons]
      simp only [hd, if_false]
      exact hpre

theorem bindOuts_ok_or_error (c : Nat) (name : String) (f : Func) (L : Bool)
    (outs : List RType) (s : State) :
    (∃ s', bindOuts c name f L outs s = (.ok (), s')) ∨
    (∃ e s', bindOuts c name f L outs s = (.error e, s')) := by
  rcases hres : bindOuts c name f L outs s with ⟨r, s'⟩
  cases r with
  | ok u => exact Or.inl ⟨s', rfl⟩
  | error e => exact Or.inr ⟨e, s', rfl⟩

/-- When a declaration fails: the resolver is not a function, or the loop reaches an
output type whose slot under the name is taken in the table as it is then.  The two
panics carry the messages of the source; an untyped nil ends in a nil dereference. -/
theorem bind_fails_iff (c : Nat) (name : String) (resolver : Value) (L : Bool) (s : State) :
    ((∃ e s', bind c name resolver L s = (.error e, s')) ↔
      ((∀ f, resolver ≠ .func f) ∨
        ∃ f pre a post s1, resolver = .func f ∧ f.outs = pre ++ a :: post ∧
          bindOuts c name f L pre s = (.ok (), s1) ∧ (s1.binding c a name).isSome = true)) ∧
    (∀ e s', bind c name resolver L s = (.error e, s') →
      (resolver = .nil ∧ e = .nilDereference) ∨
      ((∀ f, resolver ≠ .func f) ∧ resolver ≠ .nil ∧
        e = .panic "the resolver must be a function") ∨
      (∃ f a, resolver = .func f ∧ a ∈ f.outs ∧
        e = .panic ("concrete already exists  for the abstraction: " ++ a.str))) := by
  cases resolver with
  | nil =>
    refine ⟨⟨fun _ => Or.inl (by intro f hf; cases hf), fun _ => ⟨_, _, rfl⟩⟩, ?_⟩
    intro e s' h
    simp only [bind, Prod.mk.injEq, Except.error.injEq] at h
    exact Or.inl ⟨rfl, h.1.symm⟩
  | other =>
    refine ⟨⟨fun _ => Or.inl (by intro f hf; cases hf), fun _ => ⟨_, _, rfl⟩⟩, ?_⟩
    intro e s' h
    simp only [bind, Prod.mk.injEq, Except.error.injEq] at h
    exact Or.inr (Or.inl ⟨(by intro f hf; cases hf), (by intro hf; cases hf), h.1.symm⟩)
  | ptr t addr =>
    refine ⟨⟨fun _ => Or.inl (by intro f hf; cases hf), fun _ => ⟨_, _, rfl⟩⟩, ?_⟩
    intro e s' h
    simp only [bind, Prod.mk.injEq, Except.error.injEq] at h
    exact Or.inr (Or.inl ⟨(by intro f hf; cases hf), (by intro hf; cases hf), h.1.symm⟩)
  | nilPtr t =>
    refine ⟨⟨fun _ => Or.inl (by intro f hf; cases hf), fun _ => ⟨_, _, rfl⟩⟩, ?_⟩
    intro e s' h
    simp only [bind, Prod.mk.injEq, Except.error.injEq] at h
    exact Or.inr (Or.inl ⟨(by intro f hf; cases hf), (by intro hf; cases hf), h.1.symm⟩)
  | func f =>
    refine ⟨⟨?_, ?_⟩, ?_⟩
    · rintro ⟨e, s', h⟩
      obtain ⟨pre, a, post, hsplit, hpre, ha, -⟩ := bindOuts_error c name f L f.outs s s' e h
      exact Or.inr ⟨f, pre, a, post, s', rfl, hsplit, hpre, ha⟩
    · rintro (h | ⟨g, pre, a, post, s1, hg, hsplit, hpre, ha⟩)
      · exact absurd rfl (h f)
      · cases hg
        refine ⟨.panic ("concrete already exists  for the abstraction: " ++ a.str), s1, ?_⟩
        show bindOuts c name f L f.outs s = _
        rw [hsplit, bindOuts_append, hpre]
        simp only []
        rw [bindOuts_cons]
        simp [ha]
    · intro e s' h
      obtain ⟨pre, a, post, hsplit, -, -, he⟩ := bindOuts_error c name f L f.outs s s' e h
      exact Or.inr (Or.inr ⟨f, a, rfl, by simp [hsplit], he⟩)

/-! ## Claims on declaration -/

/-- C3 (where the code departs from it): a declaration whose resolver is the untyped
nil fails, but not with the failure "the resolver must be a function": `bind` calls
`Kind()` on the nil `reflect.Type` and ends in a nil dereference, in every registry,
under every name and for both lifecycles. -/
theorem C3_nil_resolver_is_a_nil_dereference (c : Nat) (name : String) (L : Bool)
    (s : State) :
    bind c name Value.nil L s = (.error .nilDereference, s) ∧
    (bind c name Value.nil L s).1 ≠ .error (.panic "the resolver must be a function") := by
  refine ⟨rfl, ?_⟩
  intro h
  simp [bind] at h

/-- C4 as stated fails: registry 0 holds a binding for `Database`; declaring a factory
with output types `Shape, Database` fails on `Database`, yet the binding stored for
`Shape` before the panic stays in the table. -/
theorem C4_counterexample_partial_declaration :
    (bind 0 "" (.func (shapeAndDb 2)) true databaseBound).1 =
      .error (.panic "concrete already exists  for the abstraction: ioc.Database") ∧
    (databaseBound.binding 0 Shape "").isSome = false ∧
    ((bind 0 "" (.func (shapeAndDb 2)) true databaseBound).2.binding 0 Shape "").isSome = true ∧
    (bind 0 "" (.func (shapeAndDb 2)) true databaseBound).2.bindings 0 ≠
      databaseBound.bindings 0 := by
  refine ⟨rfl, by decide, by decide, ?_⟩
  intro h
  have h2 : ((bind 0 "" (.func (shapeAndDb 2)) true databaseBound).2.binding 0 Shape "").isSome
      = (databaseBound.binding 0 Shape "").isSome := by
    unfold State.binding
    rw [h]
  revert h2
  decide

theorem bindOuts_onlyTableOf (c : Nat) (name : String) (f : Func) (L : Bool)
    (outs : List RType) (s : State) :
    OnlyTableOf c s (bindOuts c name f L outs s).2 :=
  bindOuts_frame c name f L outs s

theorem bind_onlyTableOf (c : Nat) (name : String) (resolver : Value) (L : Bool)
    (s : State) : OnlyTableOf c s (bind c name resolver L s).2 := by
  cases resolver with
  | func f => exact bindOuts_onlyTableOf c name f L f.outs s
  | nil => exact ⟨fun _ _ => rfl, rfl, fun _ => rfl, rfl, rfl⟩
  | ptr t addr => exact ⟨fun _ _ => rfl, rfl, fun _ => rfl, rfl, rfl⟩
  | nilPtr t => exact ⟨fun _ _ => rfl, rfl, fun _ => rfl, rfl, rfl⟩
  | other => exact ⟨fun _ _ => rfl, rfl, fun _ => rfl, rfl, rfl⟩

/-- C4 (amended): a failed declaration leaves the state as it was when the resolver
is not a function, when the duplicate is the first output type of the resolver, and so
whenever the resolver has a single output type.  When a later output type is the
duplicate, the state is the one left by declaring the output types before it: their
bindings are in the table, every other slot and every other registry is as before. -/
theorem C4_failed_declaration_state (c : Nat) (name : String) (resolver : Value) (L : Bool)
    (s s' : State) (e : Err) (h : bind c name resolver L s = (.error e, s')) :
    ((∀ f, resolver ≠ .func f) → s' = s) ∧
    (∀ f a rest, resolver = .func f → f.outs = a :: rest →
      (s.binding c a name).isSome = true → s' = s) ∧
    (∀ f, resolver = .func f → f.outs.length ≤ 1 → s' = s) ∧
    (∀ f, resolver = .func f →
      ∃ pre a post, f.outs = pre ++ a :: post ∧
        bindOuts c name f L pre s = (.ok (), s') ∧
        (s'.binding c a name).isSome = true ∧
        (c < s.containers.length →
          (∀ x ∈ pre, s.binding c x name = none ∧
            s'.binding c x name = some { resolver := f, singleton := L, inst := none }) ∧
          (∀ k x n, ¬ (k = c ∧ x ∈ pre ∧ n = name) → s'.binding k x n = s.binding k x n))) ∧
    OnlyTableOf c s s' := by
  have hframe : OnlyTableOf c s s' := by
    have := bind_onlyTableOf c name resolver L s
    rw [h] at this
    exact this
  refine ⟨?_, ?_, ?_, ?_, hframe⟩
  · intro hnf
    cases resolver with
    | func f => exact absurd rfl (hnf f)
    | nil => simp only [bind, Prod.mk.injEq] at h; exact h.2.symm
    | ptr t addr => simp only [bind, Prod.mk.injEq] at h; exact h.2.symm
    | nilPtr t => simp only [bind, Prod.mk.injEq] at h; exact h.2.symm
    | other => simp only [bind, Prod.mk.injEq] at h; exact h.2.symm
  · rintro f a rest rfl hout ha
    simp only [bind] at h
    rw [hout, bindOuts_cons] at h
    simp only [ha, if_true, Prod.mk.injEq] at h
    exact h.2.symm
  · rintro f rfl hlen
    simp only [bind] at h
    obtain ⟨pre, a, post, hsplit, hpre, -, -⟩ := bindOuts_error c name f L f.outs s s' e h
    have hpre0 : pre = [] := by
      cases pre with
      | nil => rfl
      | cons x xs =>
        rw [hsplit] at hlen
        simp at hlen
    subst hpre0
    rw [bindOuts_nil] at hpre
    simp only [Prod.mk.injEq] at hpre
    exact hpre.2.symm
  · rintro f rfl
    simp only [bind] at h
    obtain ⟨pre, a, post, hsplit, hpre, ha, -⟩ := bindOuts_error c name f L f.outs s s' e h
    refine ⟨pre, a, post, hsplit, hpre, ha, ?_⟩
    intro hc
    obtain ⟨-, h1, h2⟩ := bindOuts_ok c name f L pre s s' hc hpre
    exact ⟨h1, h2⟩

/-- C4 (amended), at the counterexample: the failed declaration of `Shape, Database`
in a registry that holds `Database`. -/
theorem C4_failed_declaration_state_witness :
    bind 0 "" (.func (shapeAndDb 2)) true databaseBound =
      (.error (.panic "concrete already exists  for the abstraction: ioc.Database"),
        (bind 0 "" (.func (shapeAndDb 2)) true databaseBound).2) ∧
    (((∀ f, Value.func (shapeAndDb 2) ≠ .func f) →
        (bind 0 "" (.func (shapeAndDb 2)) true databaseBound).2 = databaseBound) ∧
    (∀ f a rest, Value.func (shapeAndDb 2) = .func f → f.outs = a :: rest →
      (databaseBound.binding 0 a "").isSome = true →
        (bind 0 "" (.func (shapeAndDb 2)) true databaseBound).2 = databaseBound) ∧
    (∀ f, Value.func (shapeAndDb 2) = .func f → f.outs.length ≤ 1 →
        (bind 0 "" (.func (shapeAndDb 2)) true databaseBound).2 = databaseBound) ∧
    (∀ f, Value.func (shapeAndDb 2) = .func f →
      ∃ pre a post, f.outs = pre ++ a :: post ∧
        bindOuts 0 "" f true pre databaseBound =
          (.ok (), (bind 0 "" (.func (shapeAndDb 2)) true databaseBound).2) ∧
        (((bind 0 "" (.func (shapeAndDb 2)) true databaseBound).2).binding 0 a "").isSome
          = true ∧
        (0 < databaseBound.containers.length →
          (∀ x ∈ pre, databaseBound.binding 0 x "" = none ∧
            ((bind 0 "" (.func (shapeAndDb 2)) true databaseBound).2).binding 0 x "" =
              some { resolver := f, singleton := true, inst := none }) ∧
          (∀ k x n, ¬ (k = 0 ∧ x ∈ pre ∧ n = "") →
            ((bind 0 "" (.func (shapeAndDb 2)) true databaseBound).2).binding k x n =
              databaseBound.binding k x n))) ∧
    OnlyTableOf 0 databaseBound (bind 0 "" (.func (shapeAndDb 2)) true databaseBound).2) :=
  ⟨rfl, C4_failed_declaration_state 0 "" (.func (shapeAndDb 2)) true databaseBound _ _ rfl⟩

/-- C5: a successful declaration was given a function; each of its output types was
free under the name and is bound afterwards to a binding holding that function, the
lifecycle and an empty cache; every other slot of every registry holds what it held;
no other registry, no parent pointer, no call and no variable changed. -/
theorem C5_successful_declaration (c : Nat) (name : String) (resolver : Value) (L : Bool)
    (s s' : State) (hc : c < s.containers.length)
    (h : bind c name resolver L s = (.ok (), s')) :
    ∃ f, resolver = .func f ∧ f.outs.Nodup ∧
      (∀ a ∈ f.outs, s.binding c a name = none ∧
        s'.binding c a name = some { resolver := f, singleton := L, inst := none }) ∧
      (∀ k a n, ¬ (k = c ∧ a ∈ f.outs ∧ n = name) → s'.binding k a n = s.binding k a n) ∧
      OnlyTableOf c s s' := by
  have hframe : OnlyTableOf c s s' := by
    have := bind_onlyTableOf c name resolver L s
    rw [h] at this
    exact this
  cases resolver with
  | func f =>
    obtain ⟨h0, h1, h2⟩ := bindOuts_ok c name f L f.outs s s' hc h
    exact ⟨f, rfl, h0, h1, h2, hframe⟩
  | nil => simp [bind] at h
  | ptr t addr => simp [bind] at h
  | nilPtr t => simp [bind] at h
  | other => simp [bind] at h

/-- C5 at `Singleton(func() Shape)` on a new registry. -/
theorem C5_successful_declaration_witness :
    0 < oneRegistry.containers.length ∧
    bind 0 "" (.func (newCircle 1)) true oneRegistry =
      (.ok (), (bind 0 "" (.func (newCircle 1)) true oneRegistry).2) ∧
    ∃ f, Value.func (newCircle 1) = .func f ∧ f.outs.Nodup ∧
      (∀ a ∈ f.outs, oneRegistry.binding 0 a "" = none ∧
        ((bind 0 "" (.func (newCircle 1)) true oneRegistry).2).binding 0 a "" =
          some { resolver := f, singleton := true, inst := none }) ∧
      (∀ k a n, ¬ (k = 0 ∧ a ∈ f.outs ∧ n = "") →
        ((bind 0 "" (.func (newCircle 1)) true oneRegistry).2).binding k a n =
          oneRegistry.binding k a n) ∧
      OnlyTableOf 0 oneRegistry (bind 0 "" (.func (newCircle 1)) true oneRegistry).2 :=
  ⟨by decide, rfl,
    C5_successful_declaration 0 "" (.func (newCircle 1)) true oneRegistry _ (by decide) rfl⟩

/-! ## Reset -/

theorem Reset_bindings (c : Nat) (s : State) : (Reset c s).bindings c = [] := by
  unfold Reset
  rw [State.bindings_setBindings]
  by_cases hc : c < s.containers.length
  · simp only [hc, and_self, if_true]
    apply mapDelete_all
    intro p hp
    exact List.mem_map_of_mem Prod.fst hp
  · simp only [hc, and_false, if_false]
    exact State.bindings_of_not_lt s c hc

theorem Reset_onlyTableOf (c : Nat) (s : State) : OnlyTableOf c s (Reset c s) :=
  ⟨fun k hk => State.getElem?_setBindings s c k _ hk, State.length_setBindings s c _,
    fun k => State.parent_setBindings s c k _, State.calls_setBindings s c _,
    State.vars_setBindings s c _⟩

theorem State.binding_of_bindings_nil (s : State) (c : Nat) (a : RType) (n : String)
    (h : s.bindings c = []) : s.binding c a n = none := by
  simp [State.binding, h, mapGet]

/-- With no binding at the slot and no parent, `resolve` panics and leaves the state. -/
theorem resolve_unbound_root (fuel c : Nat) (name : String) (a : RType) (s : State)
    (hb : s.binding c a name = none) (hp : s.parent c = none) :
    resolve (fuel + 1) c name a s =
      (.error (.panic ("no concrete found for the abstraction: " ++ a.str)), s) := by
  simp [resolve, resolveLocally, hb, hp]

/-- With no binding at the slot, `resolve` is the parent's `resolve`. -/
theorem resolve_unbound_child (fuel c p : Nat) (name : String) (a : RType) (s : State)
    (hb : s.binding c a name = none) (hp : s.parent c = some p) :
    resolve (fuel + 1) c name a s = resolve fuel p name a s := by
  simp [resolve, resolveLocally, hb, hp]

/-- A singleton whose cache is filled is returned as it is, and nothing changes. -/
theorem resolve_cached (fuel c : Nat) (name : String) (a : RType) (s : State) (b : Binding)
    (v : Obj) (hb : s.binding c a name = some b) (hs : b.singleton = true)
    (hi : b.inst = some v) :
    resolve (fuel + 1) c name a s = (.ok v, s) := by
  simp [resolve, resolveLocally, hb, hs, hi]

/-! ## What resolution preserves -/

theorem SlotEvolves_refl (o : Option Binding) : SlotEvolves o o := by
  cases o with
  | none => rfl
  | some b => exact ⟨b, rfl, rfl, rfl, fun _ => rfl, fun _ h => h⟩

theorem SlotEvolves_trans {o1 o2 o3 : Option Binding} (h12 : SlotEvolves o1 o2)
    (h23 : SlotEvolves o2 o3) : SlotEvolves o1 o3 := by
  cases o1 with
  | none =>
    have h2 : o2 = none := h12
    subst h2
    exact h23
  | some b =>
    obtain ⟨b2, rfl, hr, hs, ht, hi⟩ := h12
    obtain ⟨b3, rfl, hr3, hs3, ht3, hi3⟩ := h23
    refine ⟨b3, rfl, hr3.trans hr, hs3.trans hs, ?_, ?_⟩
    · intro hf
      rw [ht3 (hs.trans hf), ht hf]
    · intro v hv
      exact hi3 v (hi v hv)

theorem Evolves_refl (s : State) : Evolves s s :=
  ⟨rfl, fun _ => rfl, rfl, ⟨[], by simp⟩, fun _ _ _ => SlotEvolves_refl _⟩

theorem Evolves_trans {s1 s2 s3 : State} (h12 : Evolves s1 s2) (h23 : Evolves s2 s3) :
    Evolves s1 s3 := by
  obtain ⟨a1, a2, a3, ⟨l1, a4⟩, a5⟩ := h12
  obtain ⟨b1, b2, b3, ⟨l2, b4⟩, b5⟩ := h23
  refine ⟨b1.trans a1, fun k => (b2 k).trans (a2 k), b3.trans a3, ⟨l1 ++ l2, ?_⟩, ?_⟩
  · rw [b4, a4, List.append_assoc]
  · intro k a n
    exact SlotEvolves_trans (a5 k a n) (b5 k a n)

theorem State.binding_record (s : State) (f : Func) (args : List Obj) (k : Nat) (a : RType)
    (n : String) : (s.record f args).binding k a n = s.binding k a n := rfl

theorem Evolves.record (s : State) (f : Func) (args : List Obj) :
    Evolves s (s.record f args) :=
  ⟨rfl, fun _ => rfl, rfl, ⟨[(f.fid, args)], rfl⟩, fun _ _ _ => SlotEvolves_refl _⟩

/-- Filling the cache of a singleton whose cache was empty at the start. -/
theorem Evolves.setInstance {s s1 : State} (h : Evolves s s1) (c : Nat) (a : RType)
    (n : String) (b : Binding) (r : Instance) (hb : s.binding c a n = some b)
    (hs : b.singleton = true) (hi : b.inst = none) :
    Evolves s (s1.setInstance c a n r) := by
  obtain ⟨a1, a2, a3, a4, a5⟩ := h
  refine ⟨?_, ?_, ?_, ?_, ?_⟩
  · rw [State.length_setInstance, a1]
  · intro k
    rw [State.parent_setInstance, a2]
  · rw [State.vars_setInstance, a3]
  · rw [State.calls_setInstance]
    exact a4
  · intro k x m
    rw [State.binding_setInstance]
    by_cases hk : k = c ∧ x = a ∧ m = n
    · obtain ⟨rfl, rfl, rfl⟩ := hk
      simp only [and_self, if_true]
      have h5 := a5 k x m
      rw [hb] at h5
      obtain ⟨b1, hb1, hr, hsg, -, -⟩ := h5
      rw [hb, hb1]
      refine ⟨{ b1 with inst := r }, rfl, hr, hsg, ?_, ?_⟩
      · intro hf
        rw [hs] at hf
        cases hf
      · intro v hv
        rw [hi] at hv
        cases hv
    · simp only [hk, if_false]
      exact a5 k x m

theorem arguments_evolves (res : String → RType → State → Res Obj)
    (hres : ∀ name a s, Evolves s (res name a s).2) (name : String) (ins : List RType)
    (s : State) : Evolves s (arguments res name ins s).2 := by
  induction ins generalizing s with
  | nil => exact Evolves_refl s
  | cons a rest ih =>
    simp only [arguments]
    have h1 := hres name a s
    rcases hr : res name a s with ⟨r, s1⟩
    rw [hr] at h1
    cases r with
    | error e => exact h1
    | ok v =>
      simp only []
      have h2 := ih s1
      rcases hr2 : arguments res name rest s1 with ⟨r2, s2⟩
      rw [hr2] at h2
      cases r2 with
      | error e => exact Evolves_trans h1 h2
      | ok vs => exact Evolves_trans h1 h2

theorem invoke_evolves (res : String → RType → State → Res Obj)
    (hres : ∀ name a s, Evolves s (res name a s).2) (f : Func) (s : State) :
    Evolves s (invoke res f s).2 := by
  simp only [invoke]
  have h1 := arguments_evolves res hres "" f.ins s
  rcases hr : arguments res "" f.ins s with ⟨r, s1⟩
  rw [hr] at h1
  cases r with
  | error e => exact h1
  | ok args =>
    simp only []
    split
    · exact Evolves_trans h1 (Evolves.record s1 f args)
    · exact Evolves_trans h1 (Evolves.record s1 f args)

theorem resolveLocally_evolves (res : String → RType → State → Res Obj)
    (hres : ∀ name a s, Evolves s (res name a s).2) (c : Nat) (name : String) (a : RType)
    (s : State) : Evolves s (resolveLocally res c name a s).2 := by
  simp only [resolveLocally]
  cases hb : s.binding c a name with
  | none => exact Evolves_refl s
  | some b =>
    simp only []
    by_cases hs : b.singleton = true
    · simp only [hs, if_true]
      cases hi : b.inst with
      | some v => exact Evolves_refl s
      | none =>
        simp only []
        have h1 := invoke_evolves res hres b.resolver s
        rcases hr : invoke res b.resolver s with ⟨r, s1⟩
        rw [hr] at h1
        cases r with
        | error e => exact h1
        | ok v => exact Evolves.setInstance h1 c a name b v hb hs hi
    · simp only [hs]
      exact invoke_evolves res hres b.resolver s

theorem resolve_evolves (fuel c : Nat) (name : String) (a : RType) (s : State) :
    Evolves s (resolve fuel c name a s).2 := by
  induction fuel generalizing c name a s with
  | zero => exact Evolves_refl s
  | succ fuel ih =>
    simp only [resolve]
    have h1 := resolveLocally_evolves (resolve fuel c) (fun n x t => ih c n x t) c name a s
    rcases hr : resolveLocally (resolve fuel c) c name a s with ⟨r, s1⟩
    rw [hr] at h1
    cases r with
    | error e => exact h1
    | ok o =>
      cases o with
      | some v => exact h1
      | none =>
        simp only []
        cases hp : s1.parent c with
        | none => exact h1
        | some p =>
          simp only []
          exact Evolves_trans h1 (ih p name a s1)

/-! ## Claims on the two lifecycles -/

/-- The first resolution of a singleton binding whose cache is empty, and the
resolutions after it. -/
theorem resolve_singleton_uncached (fuel c : Nat) (name : String) (a : RType) (s s1 : State)
    (b : Binding) (args : List Obj) (v : Obj) (rest : List Instance)
    (hb : s.binding c a name = some b) (hs : b.singleton = true) (hi : b.inst = none)
    (hargs : arguments (resolve fuel c) "" b.resolver.ins s = (.ok args, s1))
    (hbody : b.resolver.body s1.calls args = some v :: rest) :
    resolve (fuel + 1) c name a s =
      (.ok v, (s1.record b.resolver args).setInstance c a name (some v)) ∧
    ((s1.record b.resolver args).setInstance c a name (some v)).calls =
      s1.calls ++ [(b.resolver.fid, args)] ∧
    (∃ b2, ((s1.record b.resolver args).setInstance c a name (some v)).binding c a name =
        some b2 ∧ b2.resolver = b.resolver ∧ b2.singleton = true ∧ b2.inst = some v) ∧
    (∀ fuel2, resolve (fuel2 + 1) c name a
        ((s1.record b.resolver args).setInstance c a name (some v)) =
      (.ok v, (s1.record b.resolver args).setInstance c a name (some v))) := by
  have hev : Evolves s s1 := by
    have := arguments_evolves (resolve fuel c) (fun n x t => resolve_evolves fuel c n x t)
      "" b.resolver.ins s
    rw [hargs] at this
    exact this
  have h5 := hev.2.2.2.2 c a name
  rw [hb] at h5
  obtain ⟨b1, hb1, hr1, hs1, -, -⟩ := h5
  have hslot : ((s1.record b.resolver args).setInstance c a name (some v)).binding c a name =
      some { b1 with inst := some v } := by
    rw [State.binding_setInstance]
    simp [State.binding_record, hb1]
  refine ⟨?_, ?_, ⟨_, hslot, hr1, hs1.trans hs, rfl⟩, ?_⟩
  · simp [resolve, resolveLocally, hb, hs, hi, invoke, hargs, hbody]
  · rw [State.calls_setInstance]
    rfl
  · intro fuel2
    exact resolve_cached fuel2 c name a _ _ v hslot (hs1.trans hs) rfl

/-- C1: a local singleton binding not yet resolved, whose factory returns the non-nil
instance `v` once its arguments are resolved: the first resolution resolves the
arguments, calls the factory once (one entry added to the call log), stores `v` in the
binding and returns it; a second resolution, with any fuel, returns the same `v` and
leaves the state as it is, so it calls nothing. -/
theorem C1_singleton_resolved_once (fuel c : Nat) (name : String) (a : RType) (s s1 : State)
    (b : Binding) (args : List Obj) (v : Obj) (rest : List Instance)
    (hb : s.binding c a name = some b) (hs : b.singleton = true) (hi : b.inst = none)
    (hargs : arguments (resolve fuel c) "" b.resolver.ins s = (.ok args, s1))
    (hbody : b.resolver.body s1.calls args = some v :: rest) :
    resolve (fuel + 1) c name a s =
      (.ok v, (s1.record b.resolver args).setInstance c a name (some v)) ∧
    ((s1.record b.resolver args).setInstance c a name (some v)).calls =
      s1.calls ++ [(b.resolver.fid, args)] ∧
    (∃ b2, ((s1.record b.resolver args).setInstance c a name (some v)).binding c a name =
        some b2 ∧ b2.resolver = b.resolver ∧ b2.singleton = true ∧ b2.inst = some v) ∧
    (∀ fuel2, resolve (fuel2 + 1) c name a
        ((s1.record b.resolver args).setInstance c a name (some v)) =
      (.ok v, (s1.record b.resolver args).setInstance c a name (some v))) :=
  resolve_singleton_uncached fuel c name a s s1 b args v rest hb hs hi hargs hbody

/-- C1 at `TestSingletonItShouldMakeSameObjectEachMake`: the first resolution of `Shape`
makes the circle, the second returns it. -/
theorem C1_singleton_resolved_once_witness :
    shapeSingleton.binding 0 Shape "" =
      some { resolver := newCircle 1, singleton := true, inst := none } ∧
    arguments (resolve 0 0) "" (newCircle 1).ins shapeSingleton = (.ok [], shapeSingleton) ∧
    (newCircle 1).body shapeSingleton.calls [] = some 0 :: [] ∧
    (resolve (0 + 1) 0 "" Shape shapeSingleton =
      (.ok 0, (shapeSingleton.record (newCircle 1) []).setInstance 0 Shape "" (some 0)) ∧
    ((shapeSingleton.record (newCircle 1) []).setInstance 0 Shape "" (some 0)).calls =
      shapeSingleton.calls ++ [((newCircle 1).fid, [])] ∧
    (∃ b2, ((shapeSingleton.record (newCircle 1) []).setInstance 0 Shape "" (some 0)).binding
        0 Shape "" = some b2 ∧ b2.resolver = newCircle 1 ∧ b2.singleton = true ∧
        b2.inst = some 0) ∧
    (∀ fuel2, resolve (fuel2 + 1) 0 "" Shape
        ((shapeSingleton.record (newCircle 1) []).setInstance 0 Shape "" (some 0)) =
      (.ok 0, (shapeSingleton.record (newCircle 1) []).setInstance 0 Shape "" (some 0)))) :=
  ⟨rfl, rfl, rfl,
    C1_singleton_resolved_once 0 0 "" Shape shapeSingleton shapeSingleton
      { resolver := newCircle 1, singleton := true, inst := none } [] 0 [] rfl rfl rfl rfl rfl⟩

theorem Evolves.transient_slot {s s' : State} (h : Evolves s s') (c : Nat) (a : RType)
    (n : String) (b : Binding) (hb : s.binding c a n = some b) (hs : b.singleton = false) :
    s'.binding c a n = some b := by
  have h5 := h.2.2.2.2 c a n
  rw [hb] at h5
  obtain ⟨b1, hb1, hr, hsg, ht, -⟩ := h5
  rw [hb1]
  have hinst := ht hs
  cases b1
  cases b
  simp only [] at hr hsg hinst
  subst hr hsg hinst
  rfl

theorem resolveLocally_transient (res : String → RType → State → Res Obj) (c : Nat)
    (name : String) (a : RType) (s : State) (b : Binding)
    (hb : s.binding c a name = some b) (hs : b.singleton = false) :
    resolveLocally res c name a s = invoke res b.resolver s := by
  simp [resolveLocally, hb, hs]

theorem times_resolveLocally_transient (fuel c : Nat) (name : String) (a : RType)
    (b : Binding) (hs : b.singleton = false) (n : Nat) (s : State)
    (hb : s.binding c a name = some b) :
    times (resolveLocally (resolve fuel c) c name a) n s =
      times (invoke (resolve fuel c) b.resolver) n s ∧
    (times (resolveLocally (resolve fuel c) c name a) n s).2.binding c a name = some b := by
  induction n generalizing s with
  | zero => exact ⟨rfl, hb⟩
  | succ n ih =>
    have hstep := resolveLocally_transient (resolve fuel c) c name a s b hb hs
    have hev := invoke_evolves (resolve fuel c) (fun m x t => resolve_evolves fuel c m x t)
      b.resolver s
    simp only [times, hstep]
    rcases hr : invoke (resolve fuel c) b.resolver s with ⟨r, s1⟩
    rw [hr] at hev
    have hb1 := hev.transient_slot c a name b hb hs
    cases r with
    | error e => exact ⟨rfl, hb1⟩
    | ok v =>
      simp only []
      obtain ⟨h1, h2⟩ := ih s1 hb1
      rw [h1]
      rw [h1] at h2
      rcases hr2 : times (invoke (resolve fuel c) b.resolver) n s1 with ⟨r2, s2⟩
      rw [hr2] at h2
      cases r2 with
      | error e => exact ⟨rfl, h2⟩
      | ok vs => exact ⟨rfl, h2⟩

theorem invoke_no_parameters (res : String → RType → State → Res Obj) (f : Func) (s : State)
    (hins : f.ins = []) (hbody : ∀ calls, f.body calls [] ≠ []) :
    invoke res f s = (.ok ((f.body s.calls []).headD none), s.record f []) := by
  simp only [invoke, hins, arguments]
  cases hq : f.body s.calls [] with
  | nil => exact absurd hq (hbody s.calls)
  | cons r rest => rfl

theorem times_invoke_no_parameters (res : String → RType → State → Res Obj) (f : Func)
    (hins : f.ins = []) (hbody : ∀ calls, f.body calls [] ≠ []) (n : Nat) (s : State) :
    times (invoke res f) n s =
      (.ok ((List.range n).map
          (fun i => (f.body (s.calls ++ List.replicate i (f.fid, [])) []).headD none)),
        { s with calls := s.calls ++ List.replicate n (f.fid, []) }) := by
  induction n generalizing s with
  | zero =>
    cases s
    simp [times]
  | succ n ih =>
    simp only [times, invoke_no_parameters res f s hins hbody, ih]
    rw [List.range_succ_eq_map]
    simp [State.record, List.replicate_succ, Function.comp_def]

/-- C2: a local transient binding.  Each resolution resolves the arguments of the
factory, calls it once (one entry added to the call log) and returns what that call
returned, nil included; the binding is left as it was, so its cache slot is never
written.  Hence `n` successive resolutions are `n` successive invocations of the
factory; for a factory without parameters the log grows by exactly `n` calls of it and
the results are those of these `n` calls. -/
theorem C2_transient_resolved_afresh (c : Nat) (name : String) (a : RType) (s : State)
    (b : Binding) (hb : s.binding c a name = some b) (hs : b.singleton = false) :
    (∀ fuel args s1 r rest,
      arguments (resolve fuel c) "" b.resolver.ins s = (.ok args, s1) →
      b.resolver.body s1.calls args = r :: rest →
        resolveLocally (resolve fuel c) c name a s = (.ok r, s1.record b.resolver args) ∧
        (s1.record b.resolver args).calls = s1.calls ++ [(b.resolver.fid, args)] ∧
        (s1.record b.resolver args).binding c a name = some b ∧
        (∀ v, r = some v →
          resolve (fuel + 1) c name a s = (.ok v, s1.record b.resolver args))) ∧
    (∀ fuel n,
      times (resolveLocally (resolve fuel c) c name a) n s =
        times (invoke (resolve fuel c) b.resolver) n s ∧
      (times (resolveLocally (resolve fuel c) c name a) n s).2.binding c a name = some b) ∧
    (b.resolver.ins = [] → (∀ calls, b.resolver.body calls [] ≠ []) → ∀ fuel n,
      times (resolveLocally (resolve fuel c) c name a) n s =
        (.ok ((List.range n).map (fun i =>
            (b.resolver.body (s.calls ++ List.replicate i (b.resolver.fid, [])) []).headD none)),
          { s with calls := s.calls ++ List.replicate n (b.resolver.fid, []) })) := by
  refine ⟨?_, ?_, ?_⟩
  · intro fuel args s1 r rest hargs hbody
    have hev : Evolves s s1 := by
      have := arguments_evolves (resolve fuel c)
        (fun n x t => resolve_evolves fuel c n x t) "" b.resolver.ins s
      rw [hargs] at this
      exact this
    have hloc : resolveLocally (resolve fuel c) c name a s =
        (.ok r, s1.record b.resolver args) := by
      simp [resolveLocally, hb, hs, invoke, hargs, hbody]
    refine ⟨hloc, rfl, ?_, ?_⟩
    · rw [State.binding_record]
      exact hev.transient_slot c a name b hb hs
    · rintro v rfl
      simp [resolve, hloc]
  · intro fuel n
    exact times_resolveLocally_transient fuel c name a b hs n s hb
  · intro hins hbody fuel n
    rw [(times_resolveLocally_transient fuel c name a b hs n s hb).1]
    exact times_invoke_no_parameters (resolve fuel c) b.resolver hins hbody n s

/-- C2 at `TestTransientItShouldMakeDifferentObjectsOnMake`: every resolution of `Shape`
makes a new circle. -/
theorem C2_transient_resolved_afresh_witness :
    shapeTransient.binding 0 Shape "" =
      some { resolver := newCircle 1, singleton := false, inst := none } ∧
    ((∀ fuel args s1 r rest,
      arguments (resolve fuel 0) "" (newCircle 1).ins shapeTransient = (.ok args, s1) →
      (newCircle 1).body s1.calls args = r :: rest →
        resolveLocally (resolve fuel 0) 0 "" Shape shapeTransient =
          (.ok r, s1.record (newCircle 1) args) ∧
        (s1.record (newCircle 1) args).calls = s1.calls ++ [((newCircle 1).fid, args)] ∧
        (s1.record (newCircle 1) args).binding 0 Shape "" =
          some { resolver := newCircle 1, singleton := false, inst := none } ∧
        (∀ v, r = some v →
          resolve (fuel + 1) 0 "" Shape shapeTransient =
            (.ok v, s1.record (newCircle 1) args))) ∧
    (∀ fuel n,
      times (resolveLocally (resolve fuel 0) 0 "" Shape) n shapeTransient =
        times (invoke (resolve fuel 0) (newCircle 1)) n shapeTransient ∧
      (times (resolveLocally (resolve fuel 0) 0 "" Shape) n shapeTransient).2.binding
        0 Shape "" = some { resolver := newCircle 1, singleton := false, inst := none }) ∧
    ((newCircle 1).ins = [] → (∀ calls, (newCircle 1).body calls [] ≠ []) → ∀ fuel n,
      times (resolveLocally (resolve fuel 0) 0 "" Shape) n shapeTransient =
        (.ok ((List.range n).map (fun i =>
            ((newCircle 1).body
              (shapeTransient.calls ++ List.replicate i ((newCircle 1).fid, [])) []).headD
                none)),
          { shapeTransient with
            calls := shapeTransient.calls ++ List.replicate n ((newCircle 1).fid, []) }))) :=
  ⟨rfl,
    C2_transient_resolved_afresh 0 "" Shape shapeTransient
      { resolver := newCircle 1, singleton := false, inst := none } rfl rfl⟩

/-! ## Fuel

An outcome other than `outOfFuel` does not depend on the fuel: more fuel gives the
same outcome and the same state. -/

theorem arguments_more_fuel (res res2 : String → RType → State → Res Obj)
    (H : ∀ n x t, (res n x t).1 ≠ .error .outOfFuel → res2 n x t = res n x t)
    (name : String) (ins : List RType) (s : State)
    (h : (arguments res name ins s).1 ≠ .error .outOfFuel) :
    arguments res2 name ins s = arguments res name ins s := by
  induction ins generalizing s with
  | nil => rfl
  | cons a rest ih =>
    simp only [arguments] at h ⊢
    rcases hr : res name a s with ⟨r, s1⟩
    rw [hr] at h
    cases r with
    | error e =>
      have h1 : res2 name a s = res name a s := H name a s (by rw [hr]; simpa using h)
      rw [h1, hr]
    | ok v =>
      have h1 : res2 name a s = res name a s := H name a s (by rw [hr]; simp)
      rw [h1, hr]
      simp only [] at h ⊢
      have h2 : arguments res2 name rest s1 = arguments res name rest s1 := by
        apply ih
        rcases hr2 : arguments res name rest s1 with ⟨r2, s2⟩
        rw [hr2] at h
        cases r2 with
        | error e => simpa using h
        | ok vs => simp
      rw [h2]

theorem invoke_more_fuel (res res2 : String → RType → State → Res Obj)
    (H : ∀ n x t, (res n x t).1 ≠ .error .outOfFuel → res2 n x t = res n x t)
    (f : Func) (s : State) (h : (invoke res f s).1 ≠ .error .outOfFuel) :
    invoke res2 f s = invoke res f s := by
  simp only [invoke] at h ⊢
  have h2 : arguments res2 "" f.ins s = arguments res "" f.ins s := by
    apply arguments_more_fuel res res2 H
    rcases hr : arguments res "" f.ins s with ⟨r, s1⟩
    rw [hr] at h
    cases r with
    | error e => simpa using h
    | ok vs => simp
  rw [h2]

theorem resolveLocally_more_fuel (res res2 : String → RType → State → Res Obj)
    (H : ∀ n x t, (res n x t).1 ≠ .error .outOfFuel → res2 n x t = res n x t)
    (c : Nat) (name : String) (a : RType) (s : State)
    (h : (resolveLocally res c name a s).1 ≠ .error .outOfFuel) :
    resolveLocally res2 c name a s = resolveLocally res c name a s := by
  simp only [resolveLocally] at h ⊢
  cases hb : s.binding c a name with
  | none => rfl
  | some b =>
    rw [hb] at h
    simp only [] at h ⊢
    by_cases hs : b.singleton = true
    · simp only [hs, if_true] at h ⊢
      cases hi : b.inst with
      | some v => rfl
      | none =>
        rw [hi] at h
        simp only [] at h ⊢
        have h2 : invoke res2 b.resolver s = invoke res b.resolver s := by
          apply invoke_more_fuel res res2 H
          rcases hr : invoke res b.resolver s with ⟨r, s1⟩
          rw [hr] at h
          cases r with
          | error e => simpa using h
          | ok v => simp
        rw [h2]
    · simp only [hs] at h ⊢
      exact invoke_more_fuel res res2 H b.resolver s h

theorem resolve_succ_eq (fuel c : Nat) (name : String) (a : RType) (s : State) :
    resolve (fuel + 1) c name a s =
      match resolveLocally (resolve fuel c) c name a s with
      | (.error e, s1) => (.error e, s1)
      | (.ok (some v), s1) => (.ok v, s1)
      | (.ok none, s1) =>
        match s1.parent c with
        | some p => resolve fuel p name a s1
        | none =>
          (.error (.panic ("no concrete found for the abstraction: " ++ a.str)), s1) := rfl

theorem resolve_succ_fuel (fuel c : Nat) (name : String) (a : RType) (s : State)
    (h : (resolve fuel c name a s).1 ≠ .error .outOfFuel) :
    resolve (fuel + 1) c name a s = resolve fuel c name a s := by
  induction fuel generalizing c name a s with
  | zero => exact absurd rfl h
  | succ fuel ih =>
    have H : ∀ n x t, (resolve fuel c n x t).1 ≠ .error .outOfFuel →
        resolve (fuel + 1) c n x t = resolve fuel c n x t := fun n x t hh => ih c n x t hh
    rw [resolve_succ_eq] at h
    rw [resolve_succ_eq (fuel + 1), resolve_succ_eq fuel]
    have h2 : resolveLocally (resolve (fuel + 1) c) c name a s =
        resolveLocally (resolve fuel c) c name a s := by
      apply resolveLocally_more_fuel (resolve fuel c) (resolve (fuel + 1) c) H
      rcases hr : resolveLocally (resolve fuel c) c name a s with ⟨r, s1⟩
      rw [hr] at h
      cases r with
      | error e => simpa using h
      | ok o => simp
    rw [h2]
    rcases hr : resolveLocally (resolve fuel c) c name a s with ⟨r, s1⟩
    rw [hr] at h
    cases r with
    | error e => rfl
    | ok o =>
      cases o with
      | some v => rfl
      | none =>
        simp only [] at h ⊢
        cases hp : s1.parent c with
        | none => rfl
        | some p =>
          rw [hp] at h
          simp only [] at h ⊢
          exact ih p name a s1 h

/-- An outcome other than `outOfFuel` is the outcome for every larger fuel. -/
theorem resolve_more_fuel (fuel k c : Nat) (name : String) (a : RType) (s : State)
    (h : (resolve fuel c name a s).1 ≠ .error .outOfFuel) :
    resolve (fuel + k) c name a s = resolve fuel c name a s := by
  induction k with
  | zero => rfl
  | succ k ih =>
    rw [← Nat.add_assoc, resolve_succ_fuel (fuel + k) c name a s (by rw [ih]; exact h), ih]

/-! ## Claims on the parent chain and on Reset -/

/-- C6: a child registry without a local binding for the pair resolves it as its
parent does: the outcome (instance or failure) and the state left are those of the
parent's `resolve`, for every fuel that lets the parent answer; for a parent singleton
both routes return the one cached instance, also when the first route is the one that
fills the cache. -/
theorem C6_child_resolves_as_parent (fuel child p : Nat) (name : String) (a : RType)
    (s : State) (hp : s.parent child = some p) (hb : s.binding child a name = none) :
    resolve (fuel + 1) child name a s = resolve fuel p name a s ∧
    (∀ k, (resolve fuel p name a s).1 ≠ .error .outOfFuel →
      resolve (fuel + 1 + k) child name a s = resolve fuel p name a s) ∧
    (∀ b v, s.binding p a name = some b → b.singleton = true → b.inst = some v →
      resolve (fuel + 2) child name a s = (.ok v, s) ∧
      resolve (fuel + 1) p name a s = (.ok v, s)) ∧
    (∀ b args s1 v rest, s.binding p a name = some b → b.singleton = true → b.inst = none →
      arguments (resolve fuel p) "" b.resolver.ins s = (.ok args, s1) →
      b.resolver.body s1.calls args = some v :: rest →
        resolve (fuel + 2) child name a s =
          (.ok v, (s1.record b.resolver args).setInstance p a name (some v)) ∧
        resolve (fuel + 1) p name a s =
          (.ok v, (s1.record b.resolver args).setInstance p a name (some v)) ∧
        (∀ fuel2,
          resolve (fuel2 + 2) child name a
              ((s1.record b.resolver args).setInstance p a name (some v)) =
            (.ok v, (s1.record b.resolver args).setInstance p a name (some v)) ∧
          resolve (fuel2 + 1) p name a
              ((s1.record b.resolver args).setInstance p a name (some v)) =
            (.ok v, (s1.record b.resolver args).setInstance p a name (some v)))) := by
  have hstep : ∀ f, resolve (f + 1) child name a s = resolve f p name a s :=
    fun f => resolve_unbound_child f child p name a s hb hp
  refine ⟨hstep fuel, ?_, ?_, ?_⟩
  · intro k hne
    have h1 : resolve (fuel + 1 + k) child name a s = resolve (fuel + k) p name a s := by
      rw [Nat.add_right_comm]
      exact hstep (fuel + k)
    rw [h1]
    exact resolve_more_fuel fuel k p name a s hne
  · intro b v hbp hs hi
    have h2 := resolve_cached fuel p name a s b v hbp hs hi
    exact ⟨by rw [hstep (fuel + 1)]; exact h2, h2⟩
  · intro b args s1 v rest hbp hs hi hargs hbody
    obtain ⟨h1, -, -, h4⟩ :=
      resolve_singleton_uncached fuel p name a s s1 b args v rest hbp hs hi hargs hbody
    have hev : Evolves s ((s1.record b.resolver args).setInstance p a name (some v)) := by
      have := resolve_evolves (fuel + 1) p name a s
      rw [h1] at this
      exact this
    have hp2 : ((s1.record b.resolver args).setInstance p a name (some v)).parent child =
        some p := by rw [hev.2.1 child]; exact hp
    have hb2 : ((s1.record b.resolver args).setInstance p a name (some v)).binding
        child a name = none := by
      have := hev.2.2.2.2 child a name
      rw [hb] at this
      exact this
    refine ⟨by rw [hstep (fuel + 1)]; exact h1, h1, ?_⟩
    intro fuel2
    refine ⟨?_, h4 fuel2⟩
    rw [resolve_unbound_child (fuel2 + 1) child p name a _ hb2 hp2]
    exact h4 fuel2

/-- C6 at `TestSubContainerResolvesFromParent`: the sub-container declares nothing and
its parent holds the `Shape` singleton. -/
theorem C6_child_resolves_as_parent_witness :
    shapeInParent.parent 1 = some 0 ∧ shapeInParent.binding 1 Shape "" = none ∧
    (resolve (1 + 1) 1 "" Shape shapeInParent = resolve 1 0 "" Shape shapeInParent ∧
    (∀ k, (resolve 1 0 "" Shape shapeInParent).1 ≠ .error .outOfFuel →
      resolve (1 + 1 + k) 1 "" Shape shapeInParent = resolve 1 0 "" Shape shapeInParent) ∧
    (∀ b v, shapeInParent.binding 0 Shape "" = some b → b.singleton = true →
      b.inst = some v →
      resolve (1 + 2) 1 "" Shape shapeInParent = (.ok v, shapeInParent) ∧
      resolve (1 + 1) 0 "" Shape shapeInParent = (.ok v, shapeInParent)) ∧
    (∀ b args s1 v rest, shapeInParent.binding 0 Shape "" = some b → b.singleton = true →
      b.inst = none →
      arguments (resolve 1 0) "" b.resolver.ins shapeInParent = (.ok args, s1) →
      b.resolver.body s1.calls args = some v :: rest →
        resolve (1 + 2) 1 "" Shape shapeInParent =
          (.ok v, (s1.record b.resolver args).setInstance 0 Shape "" (some v)) ∧
        resolve (1 + 1) 0 "" Shape shapeInParent =
          (.ok v, (s1.record b.resolver args).setInstance 0 Shape "" (some v)) ∧
        (∀ fuel2,
          resolve (fuel2 + 2) 1 "" Shape
              ((s1.record b.resolver args).setInstance 0 Shape "" (some v)) =
            (.ok v, (s1.record b.resolver args).setInstance 0 Shape "" (some v)) ∧
          resolve (fuel2 + 1) 0 "" Shape
              ((s1.record b.resolver args).setInstance 0 Shape "" (some v)) =
            (.ok v, (s1.record b.resolver args).setInstance 0 Shape "" (some v))))) :=
  ⟨rfl, rfl, C6_child_resolves_as_parent 1 1 0 "" Shape shapeInParent rfl rfl⟩

/-- C10: after `Reset` the registry's own table is empty; every other registry, every
parent pointer, the call log and the variables are as before; and on a registry
without parent every resolve of every pair then fails with "no concrete found for the
abstraction: " and the name of the type, whatever was bound or cached before. -/
theorem C10_reset_empties_own_table (c : Nat) (s : State) :
    (Reset c s).bindings c = [] ∧
    OnlyTableOf c s (Reset c s) ∧
    (s.parent c = none → ∀ fuel name a,
      resolve (fuel + 1) c name a (Reset c s) =
        (.error (.panic ("no concrete found for the abstraction: " ++ a.str)), Reset c s)) := by
  refine ⟨Reset_bindings c s, Reset_onlyTableOf c s, ?_⟩
  intro hp fuel name a
  apply resolve_unbound_root
  · exact State.binding_of_bindings_nil _ c a name (Reset_bindings c s)
  · rw [(Reset_onlyTableOf c s).2.2.1 c]
    exact hp

/-- C10 on registry 0 after its `Shape` singleton was resolved and cached. -/
theorem C10_reset_empties_own_table_witness :
    shapeCached.parent 0 = none ∧
    (shapeCached.binding 0 Shape "").map (fun b => b.inst) = some (some 0) ∧
    resolve (0 + 1) 0 "" Shape (Reset 0 shapeCached) =
      (.error (.panic ("no concrete found for the abstraction: " ++ Shape.str)),
        Reset 0 shapeCached) :=
  ⟨rfl, rfl, (C10_reset_empties_own_table 0 shapeCached).2.2 rfl 0 "" Shape⟩

/-! ## Claims on shadowing and on nil instances -/

theorem State.binding_congr (s s' : State) (k : Nat) (a : RType) (n : String)
    (h : s'.containers[k]? = s.containers[k]?) : s'.binding k a n = s.binding k a n := by
  unfold State.binding State.bindings
  rw [h]

/-- A resolution that finds a local binding and has to call its factory. -/
theorem resolve_local_invoked (fuel c : Nat) (name : String) (a : RType) (s s1 : State)
    (b : Binding) (args : List Obj) (v : Obj) (rest : List Instance)
    (hb : s.binding c a name = some b) (hfresh : b.singleton = false ∨ b.inst = none)
    (hargs : arguments (resolve fuel c) "" b.resolver.ins s = (.ok args, s1))
    (hbody : b.resolver.body s1.calls args = some v :: rest) :
    resolve (fuel + 1) c name a s =
      (.ok v, if b.singleton = true then
          (s1.record b.resolver args).setInstance c a name (some v)
        else s1.record b.resolver args) := by
  by_cases hs : b.singleton = true
  · have hi : b.inst = none := by
      rcases hfresh with h | h
      · rw [hs] at h; cases h
      · exact h
    simp [resolve, resolveLocally, hb, hs, hi, invoke, hargs, hbody]
  · simp [resolve, resolveLocally, hb, hs, invoke, hargs, hbody]

/-- C7 as stated fails: registry 0 declares `Shape` and a `Database` made from a
`Shape`; its sub-container declares a `Shape` made from a `Database`.  Resolving
`Shape` on the sub-container returns the sub-container's instance, but on the way the
factory of the parent's `Shape` binding (function 1) is called and the parent's cache,
empty before, is filled. -/
theorem C7_counterexample_parent_factory_invoked :
    (resolve 4 1 "" Shape shapeShadowedWithDependency).1 = .ok 2 ∧
    (resolve 4 1 "" Shape shapeShadowedWithDependency).2.calls =
      [(1, []), (2, [0]), (3, [1])] ∧
    (shapeShadowedWithDependency.binding 0 Shape "").map (fun b => (b.resolver.fid, b.inst)) =
      some (1, none) ∧
    ((resolve 4 1 "" Shape shapeShadowedWithDependency).2.binding 0 Shape "").map
      (fun b => (b.resolver.fid, b.inst)) = some (1, some 0) :=
  ⟨rfl, rfl, rfl, rfl⟩

/-- C7 (amended): a child registry and its parent both hold a binding for the pair.
When the child's factory has to be called and returns a non-nil instance, resolve on the
child returns that instance; after the arguments of the child's factory are resolved,
only the child's table and the call log are written, so a child factory without
parameters leaves the parent's binding as it was.  When the child's cache is filled,
resolve on the child returns it and changes nothing.  In every case the parent's slot
keeps its resolver and lifecycle and a filled cache keeps its instance, which resolve
on the parent still returns.  Declaring in the child changes the child's table only. -/
theorem C7_shadowing (child p : Nat) (name : String) (a : RType) (s : State)
    (b bp : Binding) (hp : s.parent child = some p) (hne : p ≠ child)
    (hbc : s.binding child a name = some b) (hbp : s.binding p a name = some bp) :
    (∀ fuel args s1 v rest, (b.singleton = false ∨ b.inst = none) →
      arguments (resolve fuel child) "" b.resolver.ins s = (.ok args, s1) →
      b.resolver.body s1.calls args = some v :: rest →
      ∃ s2, resolve (fuel + 1) child name a s = (.ok v, s2) ∧
        s2.calls = s1.calls ++ [(b.resolver.fid, args)] ∧
        (∀ k, k ≠ child → s2.containers[k]? = s1.containers[k]?) ∧
        s2.parent child = some p ∧
        (b.resolver.ins = [] → s1 = s ∧ args = [] ∧ s2.binding p a name = some bp) ∧
        (∃ bp2, s2.binding p a name = some bp2 ∧ bp2.resolver = bp.resolver ∧
          bp2.singleton = bp.singleton ∧
          (∀ w, bp.singleton = true → bp.inst = some w →
            ∀ fuel2, resolve (fuel2 + 1) p name a s2 = (.ok w, s2)))) ∧
    (∀ w, b.singleton = true → b.inst = some w →
      ∀ fuel, resolve (fuel + 1) child name a s = (.ok w, s)) ∧
    (∀ name2 resolver L,
      OnlyTableOf child s (bind child name2 resolver L s).2 ∧
      (bind child name2 resolver L s).2.binding p a name = some bp) := by
  refine ⟨?_, ?_, ?_⟩
  · intro fuel args s1 v rest hfresh hargs hbody
    have hres := resolve_local_invoked fuel child name a s s1 b args v rest hbc hfresh
      hargs hbody
    have hev := resolve_evolves (fuel + 1) child name a s
    rw [hres] at hev
    refine ⟨_, hres, ?_, ?_, ?_, ?_, ?_⟩
    · split
      · rw [State.calls_setInstance]; rfl
      · rfl
    · intro k hk
      split
      · rw [State.getElem?_setInstance _ _ _ _ _ _ hk]; rfl
      · rfl
    · rw [hev.2.1 child]
      exact hp
    · intro hins
      rw [hins] at hargs
      simp only [arguments, Prod.mk.injEq, Except.ok.injEq] at hargs
      obtain ⟨hargs1, hs1⟩ := hargs
      refine ⟨hs1.symm, hargs1.symm, ?_⟩
      rw [← hbp, ← hs1]
      apply State.binding_congr
      split
      · rw [State.getElem?_setInstance _ _ _ _ _ _ hne]; rfl
      · rfl
    · have h5 := hev.2.2.2.2 p a name
      rw [hbp] at h5
      obtain ⟨bp2, hbp2, hr, hsg, -, hi⟩ := h5
      refine ⟨bp2, hbp2, hr, hsg, ?_⟩
      intro w hsw hiw fuel2
      exact resolve_cached fuel2 p name a _ bp2 w hbp2 (hsg.trans hsw) (hi w hiw)
  · intro w hs hi fuel
    exact resolve_cached fuel child name a s b w hbc hs hi
  · intro name2 resolver L
    have hframe := bind_onlyTableOf child name2 resolver L s
    refine ⟨hframe, ?_⟩
    rw [← hbp]
    exact State.binding_congr _ _ p a name (hframe.1 p hne)

/-- C7 (amended) at `TestEachContainerResolvesFromItself`: registry 0 and its
sub-container 1 each declare a `Shape` singleton without parameters. -/
theorem C7_shadowing_witness :
    shapeShadowed.parent 1 = some 0 ∧ (0 : Nat) ≠ 1 ∧
    shapeShadowed.binding 1 Shape "" =
      some { resolver := newCircle 2, singleton := true, inst := none } ∧
    shapeShadowed.binding 0 Shape "" =
      some { resolver := newCircle 1, singleton := true, inst := none } ∧
    ((∀ fuel args s1 v rest, (true = false ∨ (none : Instance) = none) →
      arguments (resolve fuel 1) "" (newCircle 2).ins shapeShadowed = (.ok args, s1) →
      (newCircle 2).body s1.calls args = some v :: rest →
      ∃ s2, resolve (fuel + 1) 1 "" Shape shapeShadowed = (.ok v, s2) ∧
        s2.calls = s1.calls ++ [((newCircle 2).fid, args)] ∧
        (∀ k, k ≠ 1 → s2.containers[k]? = s1.containers[k]?) ∧
        s2.parent 1 = some 0 ∧
        ((newCircle 2).ins = [] → s1 = shapeShadowed ∧ args = [] ∧
          s2.binding 0 Shape "" =
            some { resolver := newCircle 1, singleton := true, inst := none }) ∧
        (∃ bp2, s2.binding 0 Shape "" = some bp2 ∧ bp2.resolver = newCircle 1 ∧
          bp2.singleton = true ∧
          (∀ w, true = true → (none : Instance) = some w →
            ∀ fuel2, resolve (fuel2 + 1) 0 "" Shape s2 = (.ok w, s2)))) ∧
    (∀ w, true = true → (none : Instance) = some w →
      ∀ fuel, resolve (fuel + 1) 1 "" Shape shapeShadowed = (.ok w, shapeShadowed)) ∧
    (∀ name2 resolver L,
      OnlyTableOf 1 shapeShadowed (bind 1 name2 resolver L shapeShadowed).2 ∧
      (bind 1 name2 resolver L shapeShadowed).2.binding 0 Shape "" =
        some { resolver := newCircle 1, singleton := true, inst := none })) :=
  ⟨rfl, by decide, rfl, rfl,
    C7_shadowing 1 0 "" Shape shapeShadowed
      { resolver := newCircle 2, singleton := true, inst := none }
      { resolver := newCircle 1, singleton := true, inst := none } rfl (by decide) rfl rfl⟩

/-- A resolution that finds a local binding whose factory fails to get its arguments. -/
theorem resolve_local_arguments_fail (fuel c : Nat) (name : String) (a : RType)
    (s s1 : State) (b : Binding) (e : Err)
    (hb : s.binding c a name = some b) (hfresh : b.singleton = false ∨ b.inst = none)
    (hargs : arguments (resolve fuel c) "" b.resolver.ins s = (.error e, s1)) :
    resolve (fuel + 1) c name a s = (.error e, s1) := by
  by_cases hs : b.singleton = true
  · have hi : b.inst = none := by
      rcases hfresh with h | h
      · rw [hs] at h; cases h
      · exact h
    simp [resolve, resolveLocally, hb, hs, hi, invoke, hargs]
  · simp [resolve, resolveLocally, hb, hs, invoke, hargs]

/-- A resolution that finds a local binding whose factory returns nil goes on to the
parent, or panics when there is none. -/
theorem resolve_local_nil (fuel c : Nat) (name : String) (a : RType) (s s1 : State)
    (b : Binding) (args : List Obj) (rest : List Instance)
    (hb : s.binding c a name = some b) (hfresh : b.singleton = false ∨ b.inst = none)
    (hargs : arguments (resolve fuel c) "" b.resolver.ins s = (.ok args, s1))
    (hbody : b.resolver.body s1.calls args = none :: rest) :
    resolve (fuel + 1) c name a s =
      match s.parent c with
      | some p =>
        resolve fuel p name a
          (if b.singleton = true then (s1.record b.resolver args).setInstance c a name none
            else s1.record b.resolver args)
      | none =>
        (.error (.panic ("no concrete found for the abstraction: " ++ a.str)),
          if b.singleton = true then (s1.record b.resolver args).setInstance c a name none
            else s1.record b.resolver args) := by
  have hev : Evolves s s1 := by
    have := arguments_evolves (resolve fuel c) (fun n x t => resolve_evolves fuel c n x t)
      "" b.resolver.ins s
    rw [hargs] at this
    exact this
  have hpar : s1.parent c = s.parent c := hev.2.1 c
  by_cases hs : b.singleton = true
  · have hi : b.inst = none := by
      rcases hfresh with h | h
      · rw [hs] at h; cases h
      · exact h
    have hpar2 : ((s1.record b.resolver args).setInstance c a name none).parent c =
        s.parent c := by
      rw [State.parent_setInstance]
      exact hpar
    simp only [resolve, resolveLocally, hb, hs, hi, invoke, hargs, hbody, if_true, hpar2]
  · have hpar2 : (s1.record b.resolver args).parent c = s.parent c := hpar
    simp only [resolve, resolveLocally, hb, hs, invoke, hargs, hbody]
    simp only [Bool.false_eq_true, if_false]
    rw [hpar2]

/-- C8 (where the code departs from it), at `TestMakePanicsIfDependencyResolvesToNil`:
the sub-container's own `Shape` binding produces nil and its parent's produces a
circle.  `Make` on the sub-container does not fail with "no concrete found for the
abstraction: ioc.Shape": after the child's factory (function 2) returned nil, `resolve`
goes on to the parent, calls its factory (function 1) and stores the parent's circle in
the receiver. -/
theorem C8_nil_in_child_falls_back_to_parent (fuel : Nat) :
    Make (fuel + 2) 1 (.ptr Shape 7) nilShapeInChild =
      (.ok (), { nilShapeInChild with calls := [(2, []), (1, [])], vars := [(7, 1)] }) ∧
    (Make (fuel + 2) 1 (.ptr Shape 7) nilShapeInChild).1 ≠
      .error (.panic "no concrete found for the abstraction: ioc.Shape") := by
  have h : Make (fuel + 2) 1 (.ptr Shape 7) nilShapeInChild =
      (.ok (), { nilShapeInChild with calls := [(2, []), (1, [])], vars := [(7, 1)] }) := rfl
  refine ⟨h, ?_⟩
  rw [h]
  intro hc
  cases hc

/-- C9 as stated fails: registry 0 declares `func(d Database) Shape` and only its
sub-container 1 declares `Database`.  Resolving `Shape` on the sub-container reaches the
parent's binding, whose parameter is then looked up from the parent and not found, though
the sub-container itself resolves `Database`. -/
theorem C9_counterexample_parameter_bound_only_in_child :
    databaseOnlyInChild.parent 1 = some 0 ∧
    (databaseOnlyInChild.binding 1 Shape "").isSome = false ∧
    (databaseOnlyInChild.binding 0 Shape "").map (fun b => b.resolver.ins) =
      some [Database] ∧
    (resolve 5 1 "" Database databaseOnlyInChild).1 = .ok 0 ∧
    resolve 5 1 "" Shape databaseOnlyInChild =
      (.error (.panic "no concrete found for the abstraction: ioc.Database"),
        databaseOnlyInChild) :=
  ⟨rfl, rfl, rfl, rfl, rfl⟩

/-- C9 (amended): when a resolution started on a registry `r` without a local binding for
the pair reaches a binding declared in its parent `p`, the parameters of that binding's
factory are resolved by `p.resolve`, that is starting at `p` and then along the parent
chain of `p`: the outcome is the failure of that argument resolution, or the result of
the factory on the arguments it gave.  So a parameter type that `p` does not bind and
that no ancestor of `p` can supply is not found, whatever `r` binds. -/
theorem C9_parameters_resolved_from_declaring_registry (fuel r p : Nat) (name : String)
    (a : RType) (s : State) (b : Binding) (hp : s.parent r = some p)
    (hbr : s.binding r a name = none) (hbp : s.binding p a name = some b)
    (hfresh : b.singleton = false ∨ b.inst = none) :
    (∀ e s1, arguments (resolve fuel p) "" b.resolver.ins s = (.error e, s1) →
      resolve (fuel + 2) r name a s = (.error e, s1)) ∧
    (∀ args s1 v rest, arguments (resolve fuel p) "" b.resolver.ins s = (.ok args, s1) →
      b.resolver.body s1.calls args = some v :: rest →
      (resolve (fuel + 2) r name a s).1 = .ok v ∧
      (resolve (fuel + 2) r name a s).2.calls = s1.calls ++ [(b.resolver.fid, args)]) ∧
    (∀ d rest, b.resolver.ins = d :: rest → s.binding p d "" = none → s.parent p = none →
      resolve (fuel + 3) r name a s =
        (.error (.panic ("no concrete found for the abstraction: " ++ d.str)), s)) := by
  have hstep : ∀ f, resolve (f + 1) r name a s = resolve f p name a s :=
    fun f => resolve_unbound_child f r p name a s hbr hp
  refine ⟨?_, ?_, ?_⟩
  · intro e s1 hargs
    rw [hstep (fuel + 1)]
    exact resolve_local_arguments_fail fuel p name a s s1 b e hbp hfresh hargs
  · intro args s1 v rest hargs hbody
    rw [hstep (fuel + 1),
      resolve_local_invoked fuel p name a s s1 b args v rest hbp hfresh hargs hbody]
    refine ⟨rfl, ?_⟩
    split
    · rw [State.calls_setInstance]; rfl
    · rfl
  · intro d rest hins hd hroot
    rw [hstep (fuel + 2)]
    apply resolve_local_arguments_fail (fuel + 1) p name a s s b _ hbp hfresh
    rw [hins]
    simp only [arguments, resolve_unbound_root fuel p "" d s hd hroot]

/-- C9 (amended) at the counterexample: the `Shape` of registry 0 needs a `Database`
that only the sub-container declares. -/
theorem C9_parameters_resolved_from_declaring_registry_witness :
    databaseOnlyInChild.parent 1 = some 0 ∧
    databaseOnlyInChild.binding 1 Shape "" = none ∧
    databaseOnlyInChild.binding 0 Shape "" =
      some { resolver := shapeOfDb 1, singleton := true, inst := none } ∧
    (true = false ∨ (none : Instance) = none) ∧
    ((∀ e s1,
      arguments (resolve 0 0) "" (shapeOfDb 1).ins databaseOnlyInChild = (.error e, s1) →
      resolve (0 + 2) 1 "" Shape databaseOnlyInChild = (.error e, s1)) ∧
    (∀ args s1 v rest,
      arguments (resolve 0 0) "" (shapeOfDb 1).ins databaseOnlyInChild = (.ok args, s1) →
      (shapeOfDb 1).body s1.calls args = some v :: rest →
      (resolve (0 + 2) 1 "" Shape databaseOnlyInChild).1 = .ok v ∧
      (resolve (0 + 2) 1 "" Shape databaseOnlyInChild).2.calls =
        s1.calls ++ [((shapeOfDb 1).fid, args)]) ∧
    (∀ d rest, (shapeOfDb 1).ins = d :: rest → databaseOnlyInChild.binding 0 d "" = none →
      databaseOnlyInChild.parent 0 = none →
      resolve (0 + 3) 1 "" Shape databaseOnlyInChild =
        (.error (.panic ("no concrete found for the abstraction: " ++ d.str)),
          databaseOnlyInChild))) :=
  ⟨rfl, rfl, rfl, Or.inr rfl,
    C9_parameters_resolved_from_declaring_registry 0 1 0 "" Shape databaseOnlyInChild
      { resolver := shapeOfDb 1, singleton := true, inst := none } rfl rfl rfl (Or.inr rfl)⟩

/-! ## Declaration, in terms of the table before the call -/

/-- The loop of `bind` fails as soon as one of the output types is bound under the name. -/
theorem bindOuts_fails_of_bound (c : Nat) (name : String) (f : Func) (L : Bool)
    (outs : List RType) (s : State)
    (h : ∃ a ∈ outs, (s.binding c a name).isSome = true) :
    ∃ e s', bindOuts c name f L outs s = (.error e, s') := by
  induction outs generalizing s with
  | nil =>
    obtain ⟨a, ha, -⟩ := h
    exact absurd ha (List.not_mem_nil a)
  | cons x rest ih =>
    rw [bindOuts_cons]
    by_cases hd : (s.binding c x name).isSome = true
    · refine ⟨.panic ("concrete already exists  for the abstraction: " ++ x.str), s, ?_⟩
      simp [hd]
    · simp only [hd, if_false]
      apply ih
      obtain ⟨a, ha, hsome⟩ := h
      rcases List.mem_cons.mp ha with rfl | ha
      · exact absurd hsome hd
      · refine ⟨a, ha, ?_⟩
        rw [State.binding_addBinding]
        split
        · rfl
        · exact hsome

/-- The loop of `bind` fails when an output type occurs twice: the second occurrence
finds the binding the first one stored. -/
theorem bindOuts_fails_of_repeated (c : Nat) (name : String) (f : Func) (L : Bool)
    (outs : List RType) (s : State) (hc : c < s.containers.length) (h : ¬ outs.Nodup) :
    ∃ e s', bindOuts c name f L outs s = (.error e, s') := by
  rcases bindOuts_ok_or_error c name f L outs s with ⟨s', hok⟩ | herr
  · exact absurd (bindOuts_ok c name f L outs s s' hc hok).1 h
  · exact herr

/-- On a registry of the state, a declaration of a function fails exactly when one of
its output types is already bound under the name or occurs twice among the outputs. -/
theorem bind_func_fails_iff (c : Nat) (name : String) (f : Func) (L : Bool) (s : State)
    (hc : c < s.containers.length) :
    (∃ e s', bind c name (.func f) L s = (.error e, s')) ↔
      ((∃ a ∈ f.outs, (s.binding c a name).isSome = true) ∨ ¬ f.outs.Nodup) := by
  constructor
  · rintro ⟨e, s', h⟩
    by_contra hcon
    simp only [not_or, not_exists, not_and, not_not] at hcon
    obtain ⟨hfree, hnd⟩ := hcon
    obtain ⟨pre, a, post, hsplit, hpre, ha, -⟩ := bindOuts_error c name f L f.outs s s' e h
    obtain ⟨-, hin, hout⟩ := bindOuts_ok c name f L pre s s' hc hpre
    have hapre : a ∉ pre := by
      intro hmem
      rw [hsplit] at hnd
      have hdis := (List.nodup_append.mp hnd).2.2
      exact hdis hmem (List.mem_cons_self a post)
    have hsame := hout c a name (by simp [hapre])
    rw [hsame] at ha
    exact hfree a (by simp [hsplit]) ha
  · rintro (h | h)
    · exact bindOuts_fails_of_bound c name f L f.outs s h
    · exact bindOuts_fails_of_repeated c name f L f.outs s hc h

/-- Declaring a pair twice fails the second time, whatever the two factories and
lifecycles; a pair bound only under another name or only in another registry does not
stand in the way of a factory with that single output type. -/
theorem bind_again (c : Nat) (name : String) (f g : Func) (L L2 : Bool) (s s1 : State)
    (a : RType) (hc : c < s.containers.length)
    (h1 : bind c name (.func f) L s = (.ok (), s1)) (hf : a ∈ f.outs) :
    (a ∈ g.outs → ∃ e s2, bind c name (.func g) L2 s1 = (.error e, s2)) ∧
    (∀ name2, name2 ≠ name → g.outs = [a] → s.binding c a name2 = none →
      ∃ s2, bind c name2 (.func g) L2 s1 = (.ok (), s2)) ∧
    (∀ k, k ≠ c → k < s.containers.length → g.outs = [a] → s.binding k a name = none →
      ∃ s2, bind k name (.func g) L2 s1 = (.ok (), s2)) := by
  obtain ⟨-, hin, hout⟩ := bindOuts_ok c name f L f.outs s s1 hc h1
  refine ⟨?_, ?_, ?_⟩
  · intro hg
    apply bindOuts_fails_of_bound
    exact ⟨a, hg, by rw [(hin a hf).2]; rfl⟩
  · intro name2 hne hg hfree
    have hfree1 : s1.binding c a name2 = none := by
      rw [hout c a name2 (by simp [hne])]
      exact hfree
    refine ⟨s1.addBinding c a name2 { resolver := g, singleton := L2, inst := none }, ?_⟩
    simp [bind, hg, bindOuts_cons, bindOuts_nil, hfree1]
  · intro k hk _ hg hfree
    have hfree1 : s1.binding k a name = none := by
      rw [hout k a name (by simp [hk])]
      exact hfree
    refine ⟨s1.addBinding k a name { resolver := g, singleton := L2, inst := none }, ?_⟩
    simp [bind, hg, bindOuts_cons, bindOuts_nil, hfree1]

/-! ## Resolution of a pair no registry of the chain binds -/

/-- When the parent chain of `c` ends within `n` steps and no registry on it binds the
pair, `resolve` panics with the message that names the abstraction and leaves the
state as it is, for every fuel that covers the chain. -/
theorem resolve_unbound_chain (s : State) (a : RType) (name : String) (n c fuel : Nat)
    (hend : (parentChain s n c).length ≤ n)
    (hfree : ∀ k ∈ parentChain s n c, s.binding k a name = none)
    (hfuel : (parentChain s n c).length ≤ fuel) :
    resolve fuel c name a s =
      (.error (.panic ("no concrete found for the abstraction: " ++ a.str)), s) := by
  induction n generalizing c fuel with
  | zero => simp [parentChain] at hend
  | succ n ih =>
    have hb : s.binding c a name = none := hfree c (by simp [parentChain])
    cases fuel with
    | zero => simp [parentChain] at hfuel
    | succ fuel =>
      cases hp : s.parent c with
      | none => exact resolve_unbound_root fuel c name a s hb hp
      | some p =>
        rw [resolve_unbound_child fuel c p name a s hb hp]
        simp only [parentChain, hp, List.length_cons, Nat.add_le_add_iff_right] at hend hfuel
        apply ih p fuel hend _ hfuel
        intro k hk
        apply hfree
        simp [parentChain, hp, hk]

/-- C11: when neither the registry nor any registry on its parent chain has a binding
for the pair, `resolve` fails with "no concrete found for the abstraction: " followed
by the name of the abstraction, for every fuel that covers the chain; the state after
the call is the state before it, so no factory was called and nothing was written. -/
theorem C11_unbound_pair_fails (s : State) (a : RType) (name : String) (n c fuel : Nat)
    (hend : (parentChain s n c).length ≤ n)
    (hfree : ∀ k ∈ parentChain s n c, s.binding k a name = none)
    (hfuel : (parentChain s n c).length ≤ fuel) :
    resolve fuel c name a s =
      (.error (.panic ("no concrete found for the abstraction: " ++ a.str)), s) ∧
    (resolve fuel c name a s).2.calls = s.calls := by
  rw [resolve_unbound_chain s a name n c fuel hend hfree hfuel]
  exact ⟨rfl, rfl⟩

theorem shapeInParent_no_database :
    ∀ k ∈ parentChain shapeInParent 2 1, shapeInParent.binding k Database "" = none := by
  intro k hk
  have h : parentChain shapeInParent 2 1 = [1, 0] := rfl
  rw [h] at hk
  simp only [List.mem_cons, List.mem_singleton, List.not_mem_nil, or_false] at hk
  rcases hk with rfl | rfl <;> rfl

/-- C11 at a sub-container of `TestSubContainerResolvesFromParent`: neither it nor its
parent binds `Database`. -/
theorem C11_unbound_pair_fails_witness :
    (parentChain shapeInParent 2 1).length ≤ 2 ∧
    (∀ k ∈ parentChain shapeInParent 2 1, shapeInParent.binding k Database "" = none) ∧
    (parentChain shapeInParent 2 1).length ≤ 2 ∧
    (resolve 2 1 "" Database shapeInParent =
      (.error (.panic ("no concrete found for the abstraction: " ++ Database.str)),
        shapeInParent) ∧
    (resolve 2 1 "" Database shapeInParent).2.calls = shapeInParent.calls) :=
  ⟨by decide, shapeInParent_no_database, by decide,
    C11_unbound_pair_fails shapeInParent Database "" 2 1 2 (by decide)
      shapeInParent_no_database (by decide)⟩

/-- C18 as stated fails: on a registry that binds nothing, resolving `Shape` under the
name "named" fails with a message that names the abstraction alone; the requested name
does not occur in it. -/
theorem C18_counterexample_message_without_name :
    resolve 1 0 "named" Shape oneRegistry =
      (.error (.panic "no concrete found for the abstraction: ioc.Shape"), oneRegistry) ∧
    ¬ ("named".data <:+: "no concrete found for the abstraction: ioc.Shape".data) :=
  ⟨rfl, by decide⟩

/-- C18 (amended): when resolution of a pair finds no binding anywhere in the chain, the
failure message is "no concrete found for the abstraction: " followed by the name of the
abstraction and nothing else; it is the same message, and the same unchanged state, for
every name under which the abstraction is unbound on the chain, the default name
included. -/
theorem C18_unbound_message_names_abstraction_only (s : State) (a : RType) (name : String)
    (n c fuel : Nat) (hend : (parentChain s n c).length ≤ n)
    (hfree : ∀ k ∈ parentChain s n c, s.binding k a name = none)
    (hfuel : (parentChain s n c).length ≤ fuel) :
    resolve fuel c name a s =
      (.error (.panic ("no concrete found for the abstraction: " ++ a.str)), s) ∧
    (∀ name2, (∀ k ∈ parentChain s n c, s.binding k a name2 = none) →
      resolve fuel c name2 a s = resolve fuel c name a s) := by
  have h1 := resolve_unbound_chain s a name n c fuel hend hfree hfuel
  refine ⟨h1, ?_⟩
  intro name2 hfree2
  rw [h1, resolve_unbound_chain s a name2 n c fuel hend hfree2 hfuel]

theorem oneRegistry_binds_nothing (a : RType) (name : String) :
    ∀ k ∈ parentChain oneRegistry 1 0, oneRegistry.binding k a name = none := by
  intro k hk
  have h : parentChain oneRegistry 1 0 = [0] := rfl
  rw [h] at hk
  simp only [List.mem_singleton] at hk
  subst hk
  rfl

/-- C18 (amended) at the counterexample: `Shape` under the name "named" on a registry
that binds nothing. -/
theorem C18_unbound_message_names_abstraction_only_witness :
    (parentChain oneRegistry 1 0).length ≤ 1 ∧
    (∀ k ∈ parentChain oneRegistry 1 0, oneRegistry.binding k Shape "named" = none) ∧
    (parentChain oneRegistry 1 0).length ≤ 1 ∧
    (resolve 1 0 "named" Shape oneRegistry =
      (.error (.panic ("no concrete found for the abstraction: " ++ Shape.str)),
        oneRegistry) ∧
    (∀ name2, (∀ k ∈ parentChain oneRegistry 1 0, oneRegistry.binding k Shape name2 = none) →
      resolve 1 0 name2 Shape oneRegistry = resolve 1 0 "named" Shape oneRegistry)) :=
  ⟨by decide, oneRegistry_binds_nothing Shape "named", by decide,
    C18_unbound_message_names_abstraction_only oneRegistry Shape "named" 1 0 1 (by decide)
      (oneRegistry_binds_nothing Shape "named") (by decide)⟩

/-! ## The failures of a resolution -/

theorem arguments_error_kind (res : String → RType → State → Res Obj)
    (H : ∀ n x t e t', res n x t = (.error e, t') → IsResolveError e)
    (name : String) (ins : List RType) (s s' : State) (e : Err)
    (h : arguments res name ins s = (.error e, s')) : IsResolveError e := by
  induction ins generalizing s s' e with
  | nil => simp [arguments] at h
  | cons a rest ih =>
    simp only [arguments] at h
    rcases hr : res name a s with ⟨r, s1⟩
    rw [hr] at h
    cases r with
    | error e1 =>
      simp only [Prod.mk.injEq, Except.error.injEq] at h
      exact h.1 ▸ H name a s e1 s1 hr
    | ok v =>
      simp only [] at h
      rcases hr2 : arguments res name rest s1 with ⟨r2, s2⟩
      rw [hr2] at h
      cases r2 with
      | error e2 =>
        simp only [Prod.mk.injEq, Except.error.injEq] at h
        exact h.1 ▸ ih s1 s2 e2 hr2
      | ok vs => simp at h

theorem invoke_error_kind (res : String → RType → State → Res Obj)
    (H : ∀ n x t e t', res n x t = (.error e, t') → IsResolveError e)
    (f : Func) (s s' : State) (e : Err) (h : invoke res f s = (.error e, s')) :
    IsResolveError e := by
  simp only [invoke] at h
  rcases hr : arguments res "" f.ins s with ⟨r, s1⟩
  rw [hr] at h
  cases r with
  | error e1 =>
    simp only [Prod.mk.injEq, Except.error.injEq] at h
    exact h.1 ▸ arguments_error_kind res H "" f.ins s s1 e1 hr
  | ok args =>
    simp only [] at h
    split at h
    · simp only [Prod.mk.injEq, Except.error.injEq] at h
      exact Or.inr (Or.inl h.1.symm)
    · simp at h

theorem resolveLocally_error_kind (res : String → RType → State → Res Obj)
    (H : ∀ n x t e t', res n x t = (.error e, t') → IsResolveError e)
    (c : Nat) (name : String) (a : RType) (s s' : State) (e : Err)
    (h : resolveLocally res c name a s = (.error e, s')) : IsResolveError e := by
  simp only [resolveLocally] at h
  cases hb : s.binding c a name with
  | none => simp [hb] at h
  | some b =>
    rw [hb] at h
    simp only [] at h
    by_cases hs : b.singleton = true
    · simp only [hs, if_true] at h
      cases hi : b.inst with
      | some v => simp [hi] at h
      | none =>
        rw [hi] at h
        simp only [] at h
        rcases hr : invoke res b.resolver s with ⟨r, s1⟩
        rw [hr] at h
        cases r with
        | error e1 =>
          simp only [Prod.mk.injEq, Except.error.injEq] at h
          exact h.1 ▸ invoke_error_kind res H b.resolver s s1 e1 hr
        | ok v => simp at h
    · simp only [hs] at h
      exact invoke_error_kind res H b.resolver s s' e h

theorem resolve_error_kind (fuel c : Nat) (name : String) (a : RType) (s s' : State)
    (e : Err) (h : resolve fuel c name a s = (.error e, s')) : IsResolveError e := by
  induction fuel generalizing c name a s s' e with
  | zero =>
    simp only [resolve, Prod.mk.injEq, Except.error.injEq] at h
    exact Or.inl h.1.symm
  | succ fuel ih =>
    rw [resolve_succ_eq] at h
    rcases hr : resolveLocally (resolve fuel c) c name a s with ⟨r, s1⟩
    rw [hr] at h
    cases r with
    | error e1 =>
      simp only [Prod.mk.injEq, Except.error.injEq] at h
      exact h.1 ▸ resolveLocally_error_kind (resolve fuel c)
        (fun n x t e t' hh => ih c n x t t' e hh) c name a s s1 e1 hr
    | ok o =>
      cases o with
      | some v => simp at h
      | none =>
        simp only [] at h
        cases hp : s1.parent c with
        | none =>
          rw [hp] at h
          simp only [Prod.mk.injEq, Except.error.injEq] at h
          exact Or.inr (Or.inr ⟨a, h.1.symm⟩)
        | some p =>
          rw [hp] at h
          exact ih p name a s1 s' e h

/-- The two messages of `MakeNamed` are not messages of `resolve`. -/
theorem receiver_messages_not_of_resolve (e : Err) (h : IsResolveError e) :
    e ≠ .panic
      "cannot detect type of the receiver, make sure your are passing reference of the object" ∧
    e ≠ .panic "the receiver must be either a reference or a callback" := by
  rcases h with rfl | rfl | ⟨x, rfl⟩
  · exact ⟨(by intro h; cases h), (by intro h; cases h)⟩
  · exact ⟨(by intro h; cases h), (by intro h; cases h)⟩
  · constructor
    · intro h
      simp only [Err.panic.injEq] at h
      have h2 := congrArg (fun t => t.data.head?) h
      simp [String.data_append] at h2
    · intro h
      simp only [Err.panic.injEq] at h
      have h2 := congrArg (fun t => t.data.head?) h
      simp [String.data_append] at h2

/-- The panic of `callCheck` is one of `reflect`: its message starts with an `r`. -/
theorem callCheck_error (s : State) (ts : List RType) (vs : List Obj) (e : Err)
    (h : callCheck s ts vs = some e) : ∃ m, e = .panic m ∧ m.data.head? = some 'r' := by
  induction ts generalizing vs with
  | nil => simp [callCheck] at h
  | cons t ts ih =>
    cases vs with
    | nil => simp [callCheck] at h
    | cons v vs =>
      simp only [callCheck] at h
      split at h
      · exact ih vs h
      · simp only [Option.some.injEq] at h
        exact ⟨_, h.symm, by simp [String.data_append]⟩

/-- A failure of `MakeNamed` on a pointer or a function is a failure of the resolution
or a panic of `reflect`. -/
theorem MakeNamed_error_kind (fuel c : Nat) (name : String) (receiver : Value) (s : State)
    (e : Err)
    (hrecv : (∃ t addr, receiver = .ptr t addr) ∨ (∃ t, receiver = .nilPtr t) ∨
      ∃ f, receiver = .func f)
    (h : (MakeNamed fuel c name receiver s).1 = .error e) :
    IsResolveError e ∨ ∃ m, e = .panic m ∧ m.data.head? = some 'r' := by
  rcases hrecv with ⟨t, addr, rfl⟩ | ⟨t, rfl⟩ | ⟨f, rfl⟩
  · simp only [MakeNamed] at h
    rcases hr : resolve fuel c name t s with ⟨r, s1⟩
    rw [hr] at h
    cases r with
    | error e1 =>
      simp only [Except.error.injEq] at h
      exact Or.inl (h ▸ resolve_error_kind fuel c name t s s1 e1 hr)
    | ok v =>
      simp only [] at h
      split at h
      · simp at h
      · simp only [Except.error.injEq] at h
        exact Or.inr ⟨_, h.symm, by simp [String.data_append]⟩
  · simp only [MakeNamed] at h
    rcases hr : resolve fuel c name t s with ⟨r, s1⟩
    rw [hr] at h
    cases r with
    | error e1 =>
      simp only [Except.error.injEq] at h
      exact Or.inl (h ▸ resolve_error_kind fuel c name t s s1 e1 hr)
    | ok v =>
      simp only [Except.error.injEq] at h
      exact Or.inr ⟨_, h.symm, by decide⟩
  · simp only [MakeNamed] at h
    rcases hr : arguments (resolve fuel c) name f.ins s with ⟨r, s1⟩
    rw [hr] at h
    cases r with
    | error e1 =>
      simp only [Except.error.injEq] at h
      exact Or.inl (h ▸ arguments_error_kind (resolve fuel c)
        (fun n x t e t' hh => resolve_error_kind fuel c n x t t' e hh) name f.ins s s1 e1 hr)
    | ok v =>
      simp only [] at h
      cases hc : callCheck s1 f.ins v with
      | none => simp [hc] at h
      | some e2 =>
        rw [hc] at h
        simp only [Except.error.injEq] at h
        exact Or.inr (h ▸ callCheck_error s1 f.ins v e2 hc)

/-- A failure of `MakeNamed` on a pointer or a function carries neither of the two
messages about the receiver. -/
theorem MakeNamed_error_not_receiver (fuel c : Nat) (name : String) (receiver : Value)
    (s : State)
    (hrecv : (∃ t addr, receiver = .ptr t addr) ∨ (∃ t, receiver = .nilPtr t) ∨
      ∃ f, receiver = .func f) :
    (MakeNamed fuel c name receiver s).1 ≠ .error (.panic
      "cannot detect type of the receiver, make sure your are passing reference of the object") ∧
    (MakeNamed fuel c name receiver s).1 ≠
      .error (.panic "the receiver must be either a reference or a callback") := by
  constructor
  · intro h
    rcases MakeNamed_error_kind fuel c name receiver s _ hrecv h with hk | ⟨m, hm, hhead⟩
    · exact absurd rfl (receiver_messages_not_of_resolve _ hk).1
    · simp only [Err.panic.injEq] at hm
      rw [← hm] at hhead
      revert hhead
      decide
  · intro h
    rcases MakeNamed_error_kind fuel c name receiver s _ hrecv h with hk | ⟨m, hm, hhead⟩
    · exact absurd rfl (receiver_messages_not_of_resolve _ hk).2
    · simp only [Err.panic.injEq] at hm
      rw [← hm] at hhead
      revert hhead
      decide

/-- C17: `MakeNamed` fails with "cannot detect type of the receiver, ..." exactly when the
receiver is the untyped nil, and with "the receiver must be either a reference or a
callback" exactly when the receiver has a type that is neither a pointer nor a function;
in both cases the state after the call is the state before it, whatever the registry
holds: nothing was resolved, called or written. -/
theorem C17_receiver_validated_first (fuel c : Nat) (name : String) (receiver : Value)
    (s : State) :
    ((MakeNamed fuel c name receiver s).1 = .error (.panic
        "cannot detect type of the receiver, make sure your are passing reference of the object")
      ↔ receiver = .nil) ∧
    ((MakeNamed fuel c name receiver s).1 =
        .error (.panic "the receiver must be either a reference or a callback")
      ↔ receiver = .other) ∧
    (receiver = .nil ∨ receiver = .other → (MakeNamed fuel c name receiver s).2 = s) := by
  cases receiver with
  | nil =>
    refine ⟨⟨fun _ => rfl, fun _ => rfl⟩, ⟨?_, ?_⟩, fun _ => rfl⟩
    · intro h
      simp [MakeNamed] at h
    · intro h
      cases h
  | other =>
    refine ⟨⟨?_, ?_⟩, ⟨fun _ => rfl, fun _ => rfl⟩, fun _ => rfl⟩
    · intro h
      simp [MakeNamed] at h
    · intro h
      cases h
  | ptr t addr =>
    have hn := MakeNamed_error_not_receiver fuel c name (.ptr t addr) s
      (Or.inl ⟨t, addr, rfl⟩)
    refine ⟨⟨fun h => absurd h hn.1, ?_⟩, ⟨fun h => absurd h hn.2, ?_⟩, ?_⟩
    · intro h
      cases h
    · intro h
      cases h
    · rintro (h | h) <;> cases h
  | nilPtr t =>
    have hn := MakeNamed_error_not_receiver fuel c name (.nilPtr t) s
      (Or.inr (Or.inl ⟨t, rfl⟩))
    refine ⟨⟨fun h => absurd h hn.1, ?_⟩, ⟨fun h => absurd h hn.2, ?_⟩, ?_⟩
    · intro h
      cases h
    · intro h
      cases h
    · rintro (h | h) <;> cases h
  | func f =>
    have hn := MakeNamed_error_not_receiver fuel c name (.func f) s
      (Or.inr (Or.inr ⟨f, rfl⟩))
    refine ⟨⟨fun h => absurd h hn.1, ?_⟩, ⟨fun h => absurd h hn.2, ?_⟩, ?_⟩
    · intro h
      cases h
    · intro h
      cases h
    · rintro (h | h) <;> cases h

/-- C17 at `TestMakeWithNonReference` and `TestMakeWithUnsupportedReceiver`, on a
registry that holds a `Shape` singleton. -/
theorem C17_receiver_validated_first_witness :
    (Value.nil = Value.nil ∨ Value.nil = Value.other) ∧
    (MakeNamed 3 0 "" Value.nil shapeSingleton).2 = shapeSingleton ∧
    (Value.other = Value.nil ∨ Value.other = Value.other) ∧
    (MakeNamed 3 0 "" Value.other shapeSingleton).2 = shapeSingleton :=
  ⟨Or.inl rfl,
    (C17_receiver_validated_first 3 0 "" Value.nil shapeSingleton).2.2 (Or.inl rfl),
    Or.inr rfl,
    (C17_receiver_validated_first 3 0 "" Value.other shapeSingleton).2.2 (Or.inr rfl)⟩

/-! ## Argument lists -/

theorem arguments_ok_iff (res : String → RType → State → Res Obj) (name : String)
    (ins : List RType) (s s' : State) (args : List Obj) :
    arguments res name ins s = (.ok args, s') ↔ ResolvedInOrder res name ins s args s' := by
  constructor
  · intro h
    induction ins generalizing s args with
    | nil =>
      simp only [arguments, Prod.mk.injEq, Except.ok.injEq] at h
      obtain ⟨rfl, rfl⟩ := h
      exact ResolvedInOrder.nil s
    | cons a rest ih =>
      simp only [arguments] at h
      rcases hr : res name a s with ⟨r, s1⟩
      rw [hr] at h
      cases r with
      | error e => simp at h
      | ok v =>
        simp only [] at h
        rcases hr2 : arguments res name rest s1 with ⟨r2, s2⟩
        rw [hr2] at h
        cases r2 with
        | error e => simp at h
        | ok vs =>
          simp only [Prod.mk.injEq, Except.ok.injEq] at h
          obtain ⟨rfl, rfl⟩ := h
          exact ResolvedInOrder.cons a rest s s1 s2 v vs hr (ih s1 vs hr2)
  · intro h
    induction h with
    | nil s => rfl
    | cons a rest s s1 s2 v vs hr _ ih => simp only [arguments, hr, ih]

theorem ResolvedInOrder.length_eq {res : String → RType → State → Res Obj} {name : String}
    {ins : List RType} {s s' : State} {args : List Obj}
    (h : ResolvedInOrder res name ins s args s') : args.length = ins.length := by
  induction h with
  | nil s => rfl
  | cons a rest s s1 s2 v vs _ _ ih => simp [ih]

/-- A failed argument list: the parameters before some position resolved in order, and
the one at that position failed; its failure and the state it left are the outcome. -/
theorem arguments_error_iff (res : String → RType → State → Res Obj) (name : String)
    (ins : List RType) (s s' : State) (e : Err) :
    arguments res name ins s = (.error e, s') ↔
      ∃ pre a post vs s1, ins = pre ++ a :: post ∧
        ResolvedInOrder res name pre s vs s1 ∧ res name a s1 = (.error e, s') := by
  constructor
  · intro h
    induction ins generalizing s with
    | nil => simp [arguments] at h
    | cons a rest ih =>
      simp only [arguments] at h
      rcases hr : res name a s with ⟨r, s1⟩
      rw [hr] at h
      cases r with
      | error e1 =>
        simp only [Prod.mk.injEq, Except.error.injEq] at h
        obtain ⟨rfl, rfl⟩ := h
        exact ⟨[], a, rest, [], s, rfl, ResolvedInOrder.nil s, hr⟩
      | ok v =>
        simp only [] at h
        rcases hr2 : arguments res name rest s1 with ⟨r2, s2⟩
        rw [hr2] at h
        cases r2 with
        | ok vs => simp at h
        | error e2 =>
          simp only [Prod.mk.injEq, Except.error.injEq] at h
          obtain ⟨rfl, rfl⟩ := h
          obtain ⟨pre, x, post, vs, t, hsplit, hpre, hx⟩ := ih s1 hr2
          exact ⟨a :: pre, x, post, v :: vs, t, by simp [hsplit],
            ResolvedInOrder.cons a pre s s1 t v vs hr hpre, hx⟩
  · rintro ⟨pre, a, post, vs, s1, rfl, hpre, ha⟩
    induction hpre with
    | nil s => simp only [List.nil_append, arguments, ha]
    | cons x rest s t1 t2 v vs hr _ ih =>
      have h2 := ih ha
      show arguments res name (x :: (rest ++ a :: post)) s = _
      simp only [arguments, hr, h2]

theorem arguments_ok_or_error (res : String → RType → State → Res Obj) (name : String)
    (ins : List RType) (s : State) :
    (∃ args s', arguments res name ins s = (.ok args, s')) ∨
    (∃ e s', arguments res name ins s = (.error e, s')) := by
  rcases h : arguments res name ins s with ⟨r, s'⟩
  cases r with
  | ok args => exact Or.inl ⟨args, s', rfl⟩
  | error e => exact Or.inr ⟨e, s', rfl⟩

/-- `MakeNamed` (and `Make`, which is `MakeNamed` under the empty name) with a callback.
When the parameter types resolve one after the other in position order and `Call`
accepts their results, the callback is called once, after the last of them, on the list
of these results, which has one entry per parameter.  When `Call` does not accept them,
or when the parameters before some position resolve and the one at that position fails,
the call ends with that failure in the state the resolutions left: the callback is not
called.  One of the two, all resolve or one fails, always is the case. -/
theorem MakeNamed_callback (fuel c : Nat) (name : String) (f : Func) (s : State) :
    (∀ args s1, ResolvedInOrder (resolve fuel c) name f.ins s args s1 →
      callCheck s1 f.ins args = none →
      MakeNamed fuel c name (.func f) s = (.ok (), s1.record f args) ∧
      args.length = f.ins.length ∧
      (s1.record f args).calls = s1.calls ++ [(f.fid, args)]) ∧
    (∀ args s1 e, ResolvedInOrder (resolve fuel c) name f.ins s args s1 →
      callCheck s1 f.ins args = some e →
      MakeNamed fuel c name (.func f) s = (.error e, s1)) ∧
    (∀ pre a post vs s1 e s2, f.ins = pre ++ a :: post →
      ResolvedInOrder (resolve fuel c) name pre s vs s1 →
      resolve fuel c name a s1 = (.error e, s2) →
      MakeNamed fuel c name (.func f) s = (.error e, s2)) ∧
    ((∃ args s1, ResolvedInOrder (resolve fuel c) name f.ins s args s1) ∨
      (∃ pre a post vs s1 e s2, f.ins = pre ++ a :: post ∧
        ResolvedInOrder (resolve fuel c) name pre s vs s1 ∧
        resolve fuel c name a s1 = (.error e, s2))) ∧
    Make fuel c (.func f) s = MakeNamed fuel c "" (.func f) s := by
  refine ⟨?_, ?_, ?_, ?_, rfl⟩
  · intro args s1 h hc
    have h1 := (arguments_ok_iff (resolve fuel c) name f.ins s s1 args).mpr h
    exact ⟨by simp only [MakeNamed, h1, hc], h.length_eq, rfl⟩
  · intro args s1 e h hc
    have h1 := (arguments_ok_iff (resolve fuel c) name f.ins s s1 args).mpr h
    simp only [MakeNamed, h1, hc]
  · intro pre a post vs s1 e s2 hsplit hpre ha
    have h1 := (arguments_error_iff (resolve fuel c) name f.ins s s2 e).mpr
      ⟨pre, a, post, vs, s1, hsplit, hpre, ha⟩
    simp only [MakeNamed, h1]
  · rcases arguments_ok_or_error (resolve fuel c) name f.ins s with ⟨args, s', h⟩ | ⟨e, s', h⟩
    · exact Or.inl ⟨args, s', (arguments_ok_iff _ _ _ _ _ _).mp h⟩
    · obtain ⟨pre, a, post, vs, s1, h1, h2, h3⟩ := (arguments_error_iff _ _ _ _ _ _).mp h
      exact Or.inr ⟨pre, a, post, vs, s1, e, s', h1, h2, h3⟩

/-- `TestMakeWithMultipleInputsAndCallback`: `Shape` resolves to object 0, then `Database`
to object 1, and the callback is called on them. -/
theorem Make_callback_with_both_bound :
    ResolvedInOrder (resolve 1 0) "" shapeDatabaseCallback.ins shapeAndDatabase [0, 1]
      (arguments (resolve 1 0) "" [Shape, Database] shapeAndDatabase).2 ∧
    Make 1 0 (.func shapeDatabaseCallback) shapeAndDatabase =
      (.ok (), ((arguments (resolve 1 0) "" [Shape, Database] shapeAndDatabase).2).record
        shapeDatabaseCallback [0, 1]) ∧
    (Make 1 0 (.func shapeDatabaseCallback) shapeAndDatabase).2.calls =
      [(1, []), (2, []), (9, [0, 1])] :=
  ⟨(arguments_ok_iff _ _ _ _ _ _).mp rfl, rfl, rfl⟩

/-- C12 (where the code departs from it): registry 0 declares the one factory
`func() (Shape, Database) { return &Circle{}, &MySQL{} }` as a singleton.  `bind` stores a
binding under each of the two output types and `invoke` hands out result 0 of the
factory for both, so `Database` resolves to a `*Circle`.  In `Make` with the callback
`func(s Shape, d Database) {}` both parameter types resolve, to the circles 0 and 2, yet
the callback (function 9) is not called: `reflect.Value.Call` panics on the second
argument, and the only calls made are the two of the factory (function 1). -/
theorem C12_multi_output_resolver_callback_not_called :
    (arguments (resolve 1 0) "" shapeDatabaseCallback.ins circleAndMySQLBound).1 =
      .ok [0, 2] ∧
    circleAndMySQLBound.dynType 2 = CirclePtr ∧
    (Make 1 0 (.func shapeDatabaseCallback) circleAndMySQLBound).1 =
      .error (.panic "reflect: Call using *ioc.Circle as type ioc.Database") ∧
    (Make 1 0 (.func shapeDatabaseCallback) circleAndMySQLBound).2.calls =
      [(1, []), (1, [])] :=
  ⟨rfl, rfl, rfl, rfl⟩

/-- `TestMakeWithCallbackThatHasAUnboundedAbstraction`: `Shape` resolves, `Database` does
not, and `Make` ends with the failure of `Database`. -/
theorem Make_callback_with_unbound_parameter :
    (Make 1 0 (.func shapeDatabaseCallback) shapeSingleton).1 =
      .error (.panic "no concrete found for the abstraction: ioc.Database") := rfl

/-! ## Failed resolutions -/

theorem MakeNamed_error_evolves (fuel c : Nat) (name : String) (receiver : Value)
    (s s' : State) (e : Err) (h : MakeNamed fuel c name receiver s = (.error e, s')) :
    Evolves s s' := by
  cases receiver with
  | nil =>
    simp only [MakeNamed, Prod.mk.injEq] at h
    exact h.2 ▸ Evolves_refl s
  | other =>
    simp only [MakeNamed, Prod.mk.injEq] at h
    exact h.2 ▸ Evolves_refl s
  | ptr t addr =>
    simp only [MakeNamed] at h
    have hev := resolve_evolves fuel c name t s
    rcases hr : resolve fuel c name t s with ⟨r, s1⟩
    rw [hr] at h hev
    cases r with
    | error e1 =>
      simp only [Prod.mk.injEq] at h
      exact h.2 ▸ hev
    | ok v =>
      simp only at h
      split at h
      · simp at h
      · simp only [Prod.mk.injEq] at h
        exact h.2 ▸ hev
  | nilPtr t =>
    simp only [MakeNamed] at h
    have hev := resolve_evolves fuel c name t s
    rcases hr : resolve fuel c name t s with ⟨r, s1⟩
    rw [hr] at h hev
    cases r with
    | error e1 =>
      simp only [Prod.mk.injEq] at h
      exact h.2 ▸ hev
    | ok v =>
      simp only [Prod.mk.injEq] at h
      exact h.2 ▸ hev
  | func f =>
    simp only [MakeNamed] at h
    have hev := arguments_evolves (resolve fuel c)
      (fun n x t => resolve_evolves fuel c n x t) name f.ins s
    rcases hr : arguments (resolve fuel c) name f.ins s with ⟨r, s1⟩
    rw [hr] at h hev
    cases r with
    | error e1 =>
      simp only [Prod.mk.injEq] at h
      exact h.2 ▸ hev
    | ok v =>
      simp only at h
      split at h
      · simp only [Prod.mk.injEq] at h
        exact h.2 ▸ hev
      · simp at h

/-- C16 as stated fails, at `TestMakeWithCallbackThatHasAUnboundedAbstraction`: `Make` with
a callback over `Shape` and `Database` fails because `Database` is unbound, but `Shape`
was resolved before: its factory was called and the cache of its singleton binding,
empty before the call, holds the circle after it. -/
theorem C16_counterexample_cache_filled_by_failed_call :
    (Make 1 0 (.func shapeDatabaseCallback) shapeSingleton).1 =
      .error (.panic "no concrete found for the abstraction: ioc.Database") ∧
    (shapeSingleton.binding 0 Shape "").map (fun b => b.inst) = some none ∧
    ((Make 1 0 (.func shapeDatabaseCallback) shapeSingleton).2.binding 0 Shape "").map
      (fun b => b.inst) = some (some 0) ∧
    shapeSingleton.calls = [] ∧
    (Make 1 0 (.func shapeDatabaseCallback) shapeSingleton).2.calls = [(1, [])] :=
  ⟨rfl, rfl, rfl, rfl, rfl⟩

/-- C16 (amended): a failed `resolve`, `Make` or `MakeNamed` creates and re-parents no
registry, adds and removes no binding, changes no resolver and no lifecycle, leaves every
transient binding and every cache that was filled before the call as it was, writes no
variable and only appends to the call log.  What it does not undo are the calls made and
the singleton caches filled by the resolutions that completed before the failure. -/
theorem C16_failed_resolution_keeps_earlier_work (fuel c : Nat) (name : String)
    (s s' : State) (e : Err) :
    (∀ a, resolve fuel c name a s = (.error e, s') → Evolves s s') ∧
    (∀ receiver, MakeNamed fuel c name receiver s = (.error e, s') → Evolves s s') ∧
    (∀ receiver, Make fuel c receiver s = (.error e, s') → Evolves s s') := by
  refine ⟨?_, ?_, ?_⟩
  · intro a h
    have hev := resolve_evolves fuel c name a s
    rw [h] at hev
    exact hev
  · intro receiver h
    exact MakeNamed_error_evolves fuel c name receiver s s' e h
  · intro receiver h
    exact MakeNamed_error_evolves fuel c "" receiver s s' e h

/-- C16 (amended) at the counterexample: the state left by the failed `Make` of
`TestMakeWithCallbackThatHasAUnboundedAbstraction`. -/
theorem C16_failed_resolution_keeps_earlier_work_witness :
    Make 1 0 (.func shapeDatabaseCallback) shapeSingleton =
      (.error (.panic "no concrete found for the abstraction: ioc.Database"),
        (Make 1 0 (.func shapeDatabaseCallback) shapeSingleton).2) ∧
    Evolves shapeSingleton (Make 1 0 (.func shapeDatabaseCallback) shapeSingleton).2 :=
  ⟨rfl,
    (C16_failed_resolution_keeps_earlier_work 1 0 "" shapeSingleton _ _).2.2
      (.func shapeDatabaseCallback) rfl⟩

/-! ## Singletons whose factory returns nil -/

theorem list_set_same {α : Type} (l : List α) (i : Nat) (x : α) (h : l[i]? = some x) :
    l.set i x = l := by
  induction l generalizing i with
  | nil => rfl
  | cons y ys ih =>
    cases i with
    | zero =>
      simp only [List.getElem?_cons_zero, Option.some.injEq] at h
      simp [h]
    | succ i =>
      simp only [List.getElem?_cons_succ] at h
      simp [ih i h]

theorem mapSet_same {κ β : Type} [DecidableEq κ] (k : κ) (v : β) (m : List (κ × β))
    (h : mapGet k m = some v) : mapSet k v m = m := by
  induction m with
  | nil => simp [mapGet] at h
  | cons p m ih =>
    obtain ⟨k', v'⟩ := p
    by_cases hk : k' = k
    · subst hk
      simp only [mapGet, if_true, Option.some.injEq] at h
      simp [mapSet, h]
    · simp only [mapGet, hk, if_false] at h
      simp [mapSet, hk, ih h]

theorem State.setBindings_same (s : State) (c : Nat) : s.setBindings c (s.bindings c) = s := by
  unfold State.setBindings State.bindings
  cases h : s.containers[c]? with
  | none => rfl
  | some k =>
    cases s with
    | mk containers calls vars =>
      simp only [State.mk.injEq, and_true]
      exact list_set_same containers c _ h

/-- Writing into a binding the value its `instance` field holds changes nothing. -/
theorem State.setInstance_same (s : State) (c : Nat) (a : RType) (n : String) (b : Binding)
    (hb : s.binding c a n = some b) : s.setInstance c a n b.inst = s := by
  unfold State.binding at hb
  unfold State.setInstance
  cases hg : mapGet a (s.bindings c) with
  | none => rfl
  | some names =>
    rw [hg] at hb
    simp only [] at hb ⊢
    rw [hb]
    simp only []
    have h1 : ({ b with inst := b.inst } : Binding) = b := rfl
    rw [h1, mapSet_same n b names hb, mapSet_same a names (s.bindings c) hg]
    exact State.setBindings_same s c

/-- One resolution of a singleton with an empty cache whose factory returns nil. -/
theorem resolveLocally_singleton_nil (fuel c : Nat) (name : String) (a : RType)
    (s s1 : State) (b : Binding) (args : List Obj) (rest : List Instance)
    (hb : s.binding c a name = some b) (hs : b.singleton = true) (hi : b.inst = none)
    (hargs : arguments (resolve fuel c) "" b.resolver.ins s = (.ok args, s1))
    (hbody : b.resolver.body s1.calls args = none :: rest) :
    resolveLocally (resolve fuel c) c name a s =
      (.ok none, (s1.record b.resolver args).setInstance c a name none) ∧
    ((s1.record b.resolver args).setInstance c a name none).calls =
      s1.calls ++ [(b.resolver.fid, args)] ∧
    ((s1.record b.resolver args).setInstance c a name none).binding c a name = some b := by
  have hev : Evolves s s1 := by
    have := arguments_evolves (resolve fuel c) (fun n x t => resolve_evolves fuel c n x t)
      "" b.resolver.ins s
    rw [hargs] at this
    exact this
  have h5 := hev.2.2.2.2 c a name
  rw [hb] at h5
  obtain ⟨b1, hb1, hr1, hs1, -, -⟩ := h5
  refine ⟨?_, ?_, ?_⟩
  · simp [resolveLocally, hb, hs, hi, invoke, hargs, hbody]
  · rw [State.calls_setInstance]
    rfl
  · rw [State.binding_setInstance]
    simp only [and_self, if_true, State.binding_record, hb1, Option.map_some']
    cases b1
    cases b
    simp only [] at hr1 hs1 hi
    subst hr1 hs1 hi
    rfl

/-- A successful resolution of a singleton with an empty cache whose factory can only
return nil: the result is nil, the binding is as before, the log is longer. -/
theorem resolveLocally_singleton_always_nil (fuel c : Nat) (name : String) (a : RType)
    (s s2 : State) (b : Binding) (r : Instance)
    (hb : s.binding c a name = some b) (hs : b.singleton = true) (hi : b.inst = none)
    (hnil : ∀ calls args, ∃ rest, b.resolver.body calls args = none :: rest)
    (h : resolveLocally (resolve fuel c) c name a s = (.ok r, s2)) :
    r = none ∧ s2.binding c a name = some b ∧ s.calls.length + 1 ≤ s2.calls.length := by
  rcases hr : arguments (resolve fuel c) "" b.resolver.ins s with ⟨ra, s1⟩
  cases ra with
  | error e => simp [resolveLocally, hb, hs, hi, invoke, hr] at h
  | ok args =>
    obtain ⟨rest, hbody⟩ := hnil s1.calls args
    obtain ⟨h1, h2, h3⟩ :=
      resolveLocally_singleton_nil fuel c name a s s1 b args rest hb hs hi hr hbody
    rw [h1] at h
    simp only [Prod.mk.injEq, Except.ok.injEq] at h
    obtain ⟨rfl, rfl⟩ := h
    refine ⟨rfl, h3, ?_⟩
    have hev : Evolves s s1 := by
      have := arguments_evolves (resolve fuel c) (fun n x t => resolve_evolves fuel c n x t)
        "" b.resolver.ins s
      rw [hr] at this
      exact this
    obtain ⟨l, hl⟩ := hev.2.2.2.1
    rw [h2, hl]
    simp

theorem times_singleton_always_nil (fuel c : Nat) (name : String) (a : RType) (b : Binding)
    (hs : b.singleton = true) (hi : b.inst = none)
    (hnil : ∀ calls args, ∃ rest, b.resolver.body calls args = none :: rest)
    (n : Nat) (s s' : State) (rs : List Instance) (hb : s.binding c a name = some b)
    (h : times (resolveLocally (resolve fuel c) c name a) n s = (.ok rs, s')) :
    rs = List.replicate n none ∧ s'.binding c a name = some b ∧
      s.calls.length + n ≤ s'.calls.length := by
  induction n generalizing s rs with
  | zero =>
    simp only [times, Prod.mk.injEq, Except.ok.injEq] at h
    obtain ⟨rfl, rfl⟩ := h
    exact ⟨rfl, hb, Nat.le_refl _⟩
  | succ n ih =>
    simp only [times] at h
    rcases hr : resolveLocally (resolve fuel c) c name a s with ⟨r, s1⟩
    rw [hr] at h
    cases r with
    | error e => simp at h
    | ok v =>
      simp only [] at h
      obtain ⟨hv, hb1, hlen⟩ :=
        resolveLocally_singleton_always_nil fuel c name a s s1 b v hb hs hi hnil hr
      rcases hr2 : times (resolveLocally (resolve fuel c) c name a) n s1 with ⟨r2, s2⟩
      rw [hr2] at h
      cases r2 with
      | error e => simp at h
      | ok vs =>
        simp only [Prod.mk.injEq, Except.ok.injEq] at h
        obtain ⟨rfl, rfl⟩ := h
        obtain ⟨h1, h2, h3⟩ := ih s1 vs hb1 hr2
        refine ⟨?_, h2, by omega⟩
        rw [hv, h1, List.replicate_succ]

theorem times_singleton_nil_no_parameters (fuel c : Nat) (name : String) (a : RType)
    (b : Binding) (hs : b.singleton = true) (hi : b.inst = none)
    (hins : b.resolver.ins = [])
    (hnil : ∀ calls, ∃ rest, b.resolver.body calls [] = none :: rest)
    (n : Nat) (s : State) (hb : s.binding c a name = some b) :
    times (resolveLocally (resolve fuel c) c name a) n s =
      (.ok (List.replicate n none),
        { s with calls := s.calls ++ List.replicate n (b.resolver.fid, []) }) := by
  induction n generalizing s with
  | zero =>
    cases s
    simp [times]
  | succ n ih =>
    obtain ⟨rest, hbody⟩ := hnil s.calls
    have hargs : arguments (resolve fuel c) "" b.resolver.ins s = (.ok [], s) := by
      rw [hins]
      rfl
    obtain ⟨h1, -, -⟩ :=
      resolveLocally_singleton_nil fuel c name a s s b [] rest hb hs hi hargs hbody
    have hsame : (s.record b.resolver []).setInstance c a name none = s.record b.resolver [] := by
      have := State.setInstance_same (s.record b.resolver []) c a name b
        (by rw [State.binding_record]; exact hb)
      rw [hi] at this
      exact this
    rw [hsame] at h1
    simp only [times, h1, ih (s.record b.resolver []) (by rw [State.binding_record]; exact hb)]
    simp [State.record, List.replicate_succ]

/-- C19: a local singleton binding with an empty cache whose factory returns nil.  A
resolution resolves the arguments, calls the factory once (one entry added to the call
log), returns nil and leaves the binding as it was, its cache empty.  When the factory
can only return nil, `n` successive resolutions that complete all return nil, leave the
cache empty and lengthen the log by at least `n` calls; for a factory without
parameters the log grows by exactly `n` calls of the factory. -/
theorem C19_nil_singleton_never_cached (c : Nat) (name : String) (a : RType) (s : State)
    (b : Binding) (hb : s.binding c a name = some b) (hs : b.singleton = true)
    (hi : b.inst = none) :
    (∀ fuel args s1 rest,
      arguments (resolve fuel c) "" b.resolver.ins s = (.ok args, s1) →
      b.resolver.body s1.calls args = none :: rest →
        resolveLocally (resolve fuel c) c name a s =
          (.ok none, (s1.record b.resolver args).setInstance c a name none) ∧
        ((s1.record b.resolver args).setInstance c a name none).calls =
          s1.calls ++ [(b.resolver.fid, args)] ∧
        ((s1.record b.resolver args).setInstance c a name none).binding c a name = some b) ∧
    ((∀ calls args, ∃ rest, b.resolver.body calls args = none :: rest) →
      ∀ fuel n rs s',
        times (resolveLocally (resolve fuel c) c name a) n s = (.ok rs, s') →
        rs = List.replicate n none ∧ s'.binding c a name = some b ∧
          s.calls.length + n ≤ s'.calls.length) ∧
    (b.resolver.ins = [] → (∀ calls, ∃ rest, b.resolver.body calls [] = none :: rest) →
      ∀ fuel n,
        times (resolveLocally (resolve fuel c) c name a) n s =
          (.ok (List.replicate n none),
            { s with calls := s.calls ++ List.replicate n (b.resolver.fid, []) })) := by
  refine ⟨?_, ?_, ?_⟩
  · intro fuel args s1 rest hargs hbody
    exact resolveLocally_singleton_nil fuel c name a s s1 b args rest hb hs hi hargs hbody
  · intro hnil fuel n rs s' h
    exact times_singleton_always_nil fuel c name a b hs hi hnil n s s' rs hb h
  · intro hins hnil fuel n
    exact times_singleton_nil_no_parameters fuel c name a b hs hi hins hnil n s hb

/-- C19 on a registry that declares `func() Shape { return nil }` as a singleton. -/
theorem C19_nil_singleton_never_cached_witness :
    nilShapeSingleton.binding 0 Shape "" =
      some { resolver := nilShape 1, singleton := true, inst := none } ∧
    ((∀ fuel args s1 rest,
      arguments (resolve fuel 0) "" (nilShape 1).ins nilShapeSingleton = (.ok args, s1) →
      (nilShape 1).body s1.calls args = none :: rest →
        resolveLocally (resolve fuel 0) 0 "" Shape nilShapeSingleton =
          (.ok none, (s1.record (nilShape 1) args).setInstance 0 Shape "" none) ∧
        ((s1.record (nilShape 1) args).setInstance 0 Shape "" none).calls =
          s1.calls ++ [((nilShape 1).fid, args)] ∧
        ((s1.record (nilShape 1) args).setInstance 0 Shape "" none).binding 0 Shape "" =
          some { resolver := nilShape 1, singleton := true, inst := none }) ∧
    ((∀ calls args, ∃ rest, (nilShape 1).body calls args = none :: rest) →
      ∀ fuel n rs s',
        times (resolveLocally (resolve fuel 0) 0 "" Shape) n nilShapeSingleton = (.ok rs, s') →
        rs = List.replicate n none ∧
          s'.binding 0 Shape "" =
            some { resolver := nilShape 1, singleton := true, inst := none } ∧
          nilShapeSingleton.calls.length + n ≤ s'.calls.length) ∧
    ((nilShape 1).ins = [] → (∀ calls, ∃ rest, (nilShape 1).body calls [] = none :: rest) →
      ∀ fuel n,
        times (resolveLocally (resolve fuel 0) 0 "" Shape) n nilShapeSingleton =
          (.ok (List.replicate n none),
            { nilShapeSingleton with
              calls := nilShapeSingleton.calls ++ List.replicate n ((nilShape 1).fid, []) }))) :=
  ⟨rfl,
    C19_nil_singleton_never_cached 0 "" Shape nilShapeSingleton
      { resolver := nilShape 1, singleton := true, inst := none } rfl rfl rfl⟩

/-! ## ForEachNamed -/

/-- The loop of `ForEachNamed` does nothing for the empty name. -/
theorem forEachNamedLoop_skip (res : String → RType → State → Res Obj) (f : Func)
    (l : List String) (s : State) :
    forEachNamedLoop res f l s =
      forEachNamedLoop res f (l.filter (fun x => decide (x ≠ ""))) s := by
  induction l generalizing s with
  | nil => rfl
  | cons x rest ih =>
    by_cases hx : x = ""
    · subst hx
      have hf : List.filter (fun x => decide (x ≠ "")) ("" :: rest) =
          List.filter (fun x => decide (x ≠ "")) rest := by simp
      rw [hf]
      simp only [forEachNamedLoop, if_true]
      exact ih s
    · have hf : List.filter (fun x => decide (x ≠ "")) (x :: rest) =
          x :: List.filter (fun x => decide (x ≠ "")) rest := by simp [hx]
      rw [hf]
      simp only [forEachNamedLoop, hx, if_false]
      rcases arguments res x f.ins s with ⟨r, s1⟩
      cases r with
      | error e => rfl
      | ok args =>
        simp only
        cases callCheck s1 f.ins args with
        | some e => rfl
        | none => exact ih _

theorem ForEachNamed_consumer (order : List String → List String) (fuel c : Nat)
    (f : Func) (s : State) (a : RType) (hins : f.ins = [a]) (houts : f.outs = []) :
    ForEachNamed order fuel c (.func f) s =
      forEachNamedLoop (resolve fuel c) f
        ((order (mapKeys ((mapGet a (s.bindings c)).getD []))).filter
          (fun x => decide (x ≠ ""))) s := by
  rw [← forEachNamedLoop_skip]
  simp [ForEachNamed, hins, houts]

/-- C20: the parameters of the factory of a named binding are resolved under the empty
name: the outcome of resolving the pair is that of resolving the parameter types under
"" and then calling the factory.  So when the first parameter type is unbound under the
empty name on the whole chain, resolving the pair fails with "no concrete found for the
abstraction: " and the name of that parameter type, through `resolve`, through
`MakeNamed` and through `ForEachNamed` when the name is the first it visits, whatever is
bound for the parameter type under the name of the binding. -/
theorem C20_parameters_under_default_name (c : Nat) (n : String) (T : RType) (s : State)
    (b : Binding) (hb : s.binding c T n = some b)
    (hfresh : b.singleton = false ∨ b.inst = none) :
    (∀ fuel e s1, arguments (resolve fuel c) "" b.resolver.ins s = (.error e, s1) →
      resolve (fuel + 1) c n T s = (.error e, s1)) ∧
    (∀ fuel args s1 v rest,
      arguments (resolve fuel c) "" b.resolver.ins s = (.ok args, s1) →
      b.resolver.body s1.calls args = some v :: rest →
      (resolve (fuel + 1) c n T s).1 = .ok v) ∧
    (∀ D rest m fuel, b.resolver.ins = D :: rest →
      (parentChain s m c).length ≤ m →
      (∀ k ∈ parentChain s m c, s.binding k D "" = none) →
      (parentChain s m c).length ≤ fuel →
      resolve (fuel + 1) c n T s =
        (.error (.panic ("no concrete found for the abstraction: " ++ D.str)), s) ∧
      (∀ addr, MakeNamed (fuel + 1) c n (.ptr T addr) s =
        (.error (.panic ("no concrete found for the abstraction: " ++ D.str)), s)) ∧
      (∀ order consumer others, consumer.ins = [T] → consumer.outs = [] →
        (order (mapKeys ((mapGet T (s.bindings c)).getD []))).filter
          (fun x => decide (x ≠ "")) = n :: others →
        ForEachNamed order (fuel + 1) c (.func consumer) s =
          (.error (.panic ("no concrete found for the abstraction: " ++ D.str)), s))) := by
  refine ⟨?_, ?_, ?_⟩
  · intro fuel e s1 hargs
    exact resolve_local_arguments_fail fuel c n T s s1 b e hb hfresh hargs
  · intro fuel args s1 v rest hargs hbody
    rw [resolve_local_invoked fuel c n T s s1 b args v rest hb hfresh hargs hbody]
  · intro D rest m fuel hins hend hfree hfuel
    have hD := resolve_unbound_chain s D "" m c fuel hend hfree hfuel
    have hres : resolve (fuel + 1) c n T s =
        (.error (.panic ("no concrete found for the abstraction: " ++ D.str)), s) := by
      apply resolve_local_arguments_fail fuel c n T s s b _ hb hfresh
      rw [hins]
      simp only [arguments, hD]
    refine ⟨hres, ?_, ?_⟩
    · intro addr
      simp only [MakeNamed, hres]
    · intro order consumer others hcin hcout hfirst
      rw [ForEachNamed_consumer order (fuel + 1) c consumer s T hcin hcout, hfirst]
      have hne : n ≠ "" := by
        have hmem : n ∈ (order (mapKeys ((mapGet T (s.bindings c)).getD []))).filter
            (fun x => decide (x ≠ "")) := by rw [hfirst]; exact List.mem_cons_self _ _
        simpa using (List.mem_filter.mp hmem).2
      simp only [forEachNamedLoop, hne, if_false, hcin, arguments, hres]

theorem databaseOnlyNamed_no_default_database :
    ∀ k ∈ parentChain databaseOnlyNamed 1 0, databaseOnlyNamed.binding k Database "" = none := by
  intro k hk
  have h : parentChain databaseOnlyNamed 1 0 = [0] := rfl
  rw [h] at hk
  simp only [List.mem_singleton] at hk
  subst hk
  rfl

/-- C20 on a registry that binds `Database` under the name "x" only and, under the same
name, a `Shape` made from a `Database`. -/
theorem C20_parameters_under_default_name_witness :
    databaseOnlyNamed.binding 0 Shape "x" =
      some { resolver := shapeOfDb 2, singleton := true, inst := none } ∧
    (databaseOnlyNamed.binding 0 Database "x").map (fun b => b.resolver.fid) = some 1 ∧
    (true = false ∨ (none : Instance) = none) ∧
    ((∀ fuel e s1,
      arguments (resolve fuel 0) "" (shapeOfDb 2).ins databaseOnlyNamed = (.error e, s1) →
      resolve (fuel + 1) 0 "x" Shape databaseOnlyNamed = (.error e, s1)) ∧
    (∀ fuel args s1 v rest,
      arguments (resolve fuel 0) "" (shapeOfDb 2).ins databaseOnlyNamed = (.ok args, s1) →
      (shapeOfDb 2).body s1.calls args = some v :: rest →
      (resolve (fuel + 1) 0 "x" Shape databaseOnlyNamed).1 = .ok v) ∧
    (∀ D rest m fuel, (shapeOfDb 2).ins = D :: rest →
      (parentChain databaseOnlyNamed m 0).length ≤ m →
      (∀ k ∈ parentChain databaseOnlyNamed m 0, databaseOnlyNamed.binding k D "" = none) →
      (parentChain databaseOnlyNamed m 0).length ≤ fuel →
      resolve (fuel + 1) 0 "x" Shape databaseOnlyNamed =
        (.error (.panic ("no concrete found for the abstraction: " ++ D.str)),
          databaseOnlyNamed) ∧
      (∀ addr, MakeNamed (fuel + 1) 0 "x" (.ptr Shape addr) databaseOnlyNamed =
        (.error (.panic ("no concrete found for the abstraction: " ++ D.str)),
          databaseOnlyNamed)) ∧
      (∀ order consumer others, consumer.ins = [Shape] → consumer.outs = [] →
        (order (mapKeys ((mapGet Shape (databaseOnlyNamed.bindings 0)).getD []))).filter
          (fun x => decide (x ≠ "")) = "x" :: others →
        ForEachNamed order (fuel + 1) 0 (.func consumer) databaseOnlyNamed =
          (.error (.panic ("no concrete found for the abstraction: " ++ D.str)),
            databaseOnlyNamed)))) ∧
    ForEachNamed id 2 0 (.func shapeConsumer) databaseOnlyNamed =
      (.error (.panic "no concrete found for the abstraction: ioc.Database"),
        databaseOnlyNamed) :=
  ⟨rfl, rfl, Or.inr rfl,
    C20_parameters_under_default_name 0 "x" Shape databaseOnlyNamed
      { resolver := shapeOfDb 2, singleton := true, inst := none } rfl (Or.inr rfl),
    ((C20_parameters_under_default_name 0 "x" Shape databaseOnlyNamed
      { resolver := shapeOfDb 2, singleton := true, inst := none } rfl (Or.inr rfl)).2.2
        Database [] 1 1 rfl (by decide) databaseOnlyNamed_no_default_database
        (by decide)).2.2 id shapeConsumer [] rfl rfl rfl⟩

/-! ## The cache invariant -/

theorem CacheInvariant_of_slots (s s' : State) (hinv : CacheInvariant s)
    (h : ∀ k a n, SlotEvolves (s.binding k a n) (s'.binding k a n)) : CacheInvariant s' := by
  intro k a n b' hb' hs'
  have h1 := h k a n
  cases hb : s.binding k a n with
  | none =>
    rw [hb] at h1
    have h2 : s'.binding k a n = none := h1
    rw [h2] at hb'
    cases hb'
  | some b =>
    rw [hb] at h1
    obtain ⟨b2, hb2, -, hsg, ht, -⟩ := h1
    rw [hb2] at hb'
    cases hb'
    have hsb : b.singleton = false := hsg ▸ hs'
    rw [ht hsb]
    exact hinv k a n b hb hsb

theorem CachesKept_of_slots (s s' : State)
    (h : ∀ k a n, SlotEvolves (s.binding k a n) (s'.binding k a n)) : CachesKept s s' := by
  intro k a n b v hb hv
  have h1 := h k a n
  rw [hb] at h1
  obtain ⟨b2, hb2, hr, hsg, -, hi⟩ := h1
  exact ⟨b2, hb2, hr, hsg, hi v hv⟩

theorem State.binding_append_empty (s : State) (p : Option Nat) (k : Nat) (a : RType)
    (n : String) :
    ({ s with containers := s.containers ++ [{ parent := p, bindings := [] }] } :
      State).binding k a n = s.binding k a n := by
  unfold State.binding State.bindings
  simp only []
  by_cases hk : k < s.containers.length
  · rw [List.getElem?_append_left hk]
  · have hge : s.containers.length ≤ k := Nat.le_of_not_lt hk
    rw [List.getElem?_eq_none hge]
    by_cases hk2 : k = s.containers.length
    · subst hk2
      simp [mapGet]
    · rw [List.getElem?_eq_none (by simp; omega)]

theorem State.binding_store (s : State) (addr : Nat) (v : Obj) (k : Nat) (a : RType)
    (n : String) : (s.store addr v).binding k a n = s.binding k a n := rfl

/-- The loop of `bind` leaves every binding that is in the table as it is, and every
binding it adds has an empty cache. -/
theorem bindOuts_slots (c : Nat) (name : String) (f : Func) (L : Bool) (outs : List RType)
    (s : State) :
    (∀ k a n b, s.binding k a n = some b →
      (bindOuts c name f L outs s).2.binding k a n = some b) ∧
    (∀ k a n b, (bindOuts c name f L outs s).2.binding k a n = some b →
      s.binding k a n = some b ∨ b.inst = none) := by
  induction outs generalizing s with
  | nil => exact ⟨fun _ _ _ _ h => h, fun _ _ _ _ h => Or.inl h⟩
  | cons x rest ih =>
    rw [bindOuts_cons]
    by_cases hd : (s.binding c x name).isSome = true
    · simp only [hd, if_true]
      exact ⟨fun _ _ _ _ h => h, fun _ _ _ _ h => Or.inl h⟩
    · simp only [hd, if_false]
      obtain ⟨h1, h2⟩ :=
        ih (s.addBinding c x name { resolver := f, singleton := L, inst := none })
      constructor
      · intro k a n b hb
        apply h1
        rw [State.binding_addBinding, hb]
        split
        · rename_i hcond
          obtain ⟨rfl, -, rfl, rfl⟩ := hcond
          rw [hb] at hd
          exact absurd rfl hd
        · rfl
      · intro k a n b hb
        rcases h2 k a n b hb with h3 | h3
        · rw [State.binding_addBinding] at h3
          split at h3
          · simp only [Option.some.injEq] at h3
            exact Or.inr (h3 ▸ rfl)
          · exact Or.inl h3
        · exact Or.inr h3

theorem bind_slots (c : Nat) (name : String) (resolver : Value) (L : Bool) (s : State) :
    (∀ k a n b, s.binding k a n = some b →
      (bind c name resolver L s).2.binding k a n = some b) ∧
    (∀ k a n b, (bind c name resolver L s).2.binding k a n = some b →
      s.binding k a n = some b ∨ b.inst = none) := by
  cases resolver with
  | func f => exact bindOuts_slots c name f L f.outs s
  | nil => exact ⟨fun _ _ _ _ h => h, fun _ _ _ _ h => Or.inl h⟩
  | ptr t addr => exact ⟨fun _ _ _ _ h => h, fun _ _ _ _ h => Or.inl h⟩
  | nilPtr t => exact ⟨fun _ _ _ _ h => h, fun _ _ _ _ h => Or.inl h⟩
  | other => exact ⟨fun _ _ _ _ h => h, fun _ _ _ _ h => Or.inl h⟩

theorem Reset_binding (c : Nat) (s : State) :
    (∀ a n, (Reset c s).binding c a n = none) ∧
    (∀ k, k ≠ c → ∀ a n, (Reset c s).binding k a n = s.binding k a n) := by
  constructor
  · intro a n
    exact State.binding_of_bindings_nil _ c a n (Reset_bindings c s)
  · intro k hk a n
    exact State.binding_congr _ _ k a n ((Reset_onlyTableOf c s).1 k hk)

theorem MakeNamed_slots (fuel c : Nat) (name : String) (receiver : Value) (s : State) :
    ∀ k a n, SlotEvolves (s.binding k a n) ((MakeNamed fuel c name receiver s).2.binding k a n) := by
  intro k a n
  cases receiver with
  | nil => exact SlotEvolves_refl _
  | other => exact SlotEvolves_refl _
  | ptr t addr =>
    simp only [MakeNamed]
    have hev := resolve_evolves fuel c name t s
    rcases hr : resolve fuel c name t s with ⟨r, s1⟩
    rw [hr] at hev
    cases r with
    | error e => exact hev.2.2.2.2 k a n
    | ok v =>
      simp only
      split
      · exact hev.2.2.2.2 k a n
      · exact hev.2.2.2.2 k a n
  | nilPtr t =>
    simp only [MakeNamed]
    have hev := resolve_evolves fuel c name t s
    rcases hr : resolve fuel c name t s with ⟨r, s1⟩
    rw [hr] at hev
    cases r with
    | error e => exact hev.2.2.2.2 k a n
    | ok v => exact hev.2.2.2.2 k a n
  | func f =>
    simp only [MakeNamed]
    have hev := arguments_evolves (resolve fuel c)
      (fun m x t => resolve_evolves fuel c m x t) name f.ins s
    rcases hr : arguments (resolve fuel c) name f.ins s with ⟨r, s1⟩
    rw [hr] at hev
    cases r with
    | error e => exact hev.2.2.2.2 k a n
    | ok v =>
      simp only
      split
      · exact hev.2.2.2.2 k a n
      · exact hev.2.2.2.2 k a n

theorem forEachNamedLoop_evolves (res : String → RType → State → Res Obj)
    (hres : ∀ name a s, Evolves s (res name a s).2) (f : Func) (l : List String) (s : State) :
    Evolves s (forEachNamedLoop res f l s).2 := by
  induction l generalizing s with
  | nil => exact Evolves_refl s
  | cons x rest ih =>
    simp only [forEachNamedLoop]
    split
    · exact ih s
    · have h1 := arguments_evolves res hres x f.ins s
      rcases hr : arguments res x f.ins s with ⟨r, s1⟩
      rw [hr] at h1
      cases r with
      | error e => exact h1
      | ok args =>
        simp only
        split
        · exact h1
        · exact Evolves_trans h1 (Evolves_trans (Evolves.record s1 f args) (ih _))

theorem ForEachNamed_evolves (order : List String → List String) (fuel c : Nat)
    (function : Value) (s : State) : Evolves s (ForEachNamed order fuel c function s).2 := by
  cases function with
  | nil => exact Evolves_refl s
  | other => exact Evolves_refl s
  | ptr t addr => exact Evolves_refl s
  | nilPtr t => exact Evolves_refl s
  | func f =>
    simp only [ForEachNamed]
    split
    · split
      · exact Evolves_refl s
      · exact forEachNamedLoop_evolves (resolve fuel c)
          (fun m x t => resolve_evolves fuel c m x t) f _ s
    · exact Evolves_refl s

theorem Op.after_cacheInvariant (op : Op) (s : State) (hinv : CacheInvariant s) :
    CacheInvariant (op.after s) := by
  cases op with
  | newContainer =>
    intro k a n b hb hs
    rw [Op.after, NewContainer, State.binding_append_empty] at hb
    exact hinv k a n b hb hs
  | subContainer c =>
    intro k a n b hb hs
    rw [Op.after, SubContainer, State.binding_append_empty] at hb
    exact hinv k a n b hb hs
  | declare c name resolver L =>
    intro k a n b hb hs
    rcases (bind_slots c name resolver L s).2 k a n b hb with h | h
    · exact hinv k a n b h hs
    · exact h
  | reset c =>
    intro k a n b hb hs
    by_cases hk : k = c
    · subst hk
      rw [Op.after, (Reset_binding k s).1 a n] at hb
      cases hb
    · rw [Op.after, (Reset_binding c s).2 k hk a n] at hb
      exact hinv k a n b hb hs
  | resolve fuel c name a =>
    exact CacheInvariant_of_slots s _ hinv (resolve_evolves fuel c name a s).2.2.2.2
  | makeNamed fuel c name receiver =>
    exact CacheInvariant_of_slots s _ hinv (MakeNamed_slots fuel c name receiver s)
  | forEachNamed order fuel c function =>
    exact CacheInvariant_of_slots s _ hinv (ForEachNamed_evolves order fuel c function s).2.2.2.2

theorem Op.after_cachesKept (op : Op) (s : State) (hop : ∀ c, op ≠ .reset c) :
    CachesKept s (op.after s) := by
  cases op with
  | newContainer =>
    intro k a n b v hb hv
    exact ⟨b, by rw [Op.after, NewContainer, State.binding_append_empty]; exact hb,
      rfl, rfl, hv⟩
  | subContainer c =>
    intro k a n b v hb hv
    exact ⟨b, by rw [Op.after, SubContainer, State.binding_append_empty]; exact hb,
      rfl, rfl, hv⟩
  | declare c name resolver L =>
    intro k a n b v hb hv
    exact ⟨b, (bind_slots c name resolver L s).1 k a n b hb, rfl, rfl, hv⟩
  | reset c => exact absurd rfl (hop c)
  | resolve fuel c name a =>
    exact CachesKept_of_slots s _ (resolve_evolves fuel c name a s).2.2.2.2
  | makeNamed fuel c name receiver =>
    exact CachesKept_of_slots s _ (MakeNamed_slots fuel c name receiver s)
  | forEachNamed order fuel c function =>
    exact CachesKept_of_slots s _ (ForEachNamed_evolves order fuel c function s).2.2.2.2

theorem afterAll_cacheInvariant (ops : List Op) (s : State) (hinv : CacheInvariant s) :
    CacheInvariant (afterAll ops s) := by
  induction ops generalizing s with
  | nil => exact hinv
  | cons op ops ih => exact ih (op.after s) (op.after_cacheInvariant s hinv)

/-- C15: in every state reached from no registry at all by any sequence of operations
(`NewContainer`, `SubContainer`, declarations, `Reset`, resolutions, `Make`, `MakeNamed`,
`ForEachNamed`, whether they return or panic) the cache of a binding is filled only if
the binding is a singleton; every operation keeps that invariant; every operation other
than `Reset` keeps each binding whose cache is filled in the table with the same
instance in its cache; and `Reset` removes the bindings of its own registry only. -/
theorem C15_cache_invariant :
    (∀ ops, CacheInvariant (afterAll ops noRegistry)) ∧
    (∀ (op : Op) (s : State), CacheInvariant s → CacheInvariant (op.after s)) ∧
    (∀ (op : Op) (s : State), (∀ c, op ≠ Op.reset c) → CachesKept s (op.after s)) ∧
    (∀ c s, (∀ a n, ((Op.reset c).after s).binding c a n = none) ∧
      (∀ k, k ≠ c → ∀ a n, ((Op.reset c).after s).binding k a n = s.binding k a n)) := by
  refine ⟨?_, ?_, ?_, ?_⟩
  · intro ops
    apply afterAll_cacheInvariant
    intro k a n b hb
    cases hb
  · exact fun op s h => op.after_cacheInvariant s h
  · exact fun op s h => op.after_cachesKept s h
  · exact fun c s => Reset_binding c s

/-- C15 at a second resolution of the cached `Shape` singleton: the invariant holds
before, so it holds after, and the cache keeps its circle. -/
theorem C15_cache_invariant_witness :
    CacheInvariant (afterAll [.newContainer, .declare 0 "" (.func (newCircle 1)) true,
      .resolve 1 0 "" Shape] noRegistry) ∧
    CacheInvariant ((Op.resolve 1 0 "" Shape).after
      (afterAll [.newContainer, .declare 0 "" (.func (newCircle 1)) true,
        .resolve 1 0 "" Shape] noRegistry)) ∧
    (∀ c, Op.makeNamed 1 0 "" (.ptr Shape 7) ≠ Op.reset c) ∧
    CachesKept shapeCached ((Op.makeNamed 1 0 "" (.ptr Shape 7)).after shapeCached) :=
  ⟨C15_cache_invariant.1 _,
    C15_cache_invariant.2.1 _ _ (C15_cache_invariant.1 _),
    (fun c h => by cases h),
    C15_cache_invariant.2.2.1 _ _ (fun c h => by cases h)⟩

/-! ## Names are separate slots -/

theorem TouchesOnly_refl (name : String) (s : State) : TouchesOnly name s s :=
  ⟨fun _ _ _ _ _ => rfl, [], by simp, fun e he => absurd he (List.not_mem_nil e)⟩

theorem TouchesOnly_of_default (name : String) (s s' : State) (h : TouchesOnly "" s s') :
    TouchesOnly name s s' := by
  obtain ⟨h1, l, hl, h2⟩ := h
  refine ⟨fun k a m _ hm => h1 k a m hm hm, l, hl, ?_⟩
  intro e he
  obtain ⟨k, a, m, b, hm, hb, hf⟩ := h2 e he
  exact ⟨k, a, m, b, Or.inr (by rcases hm with h | h <;> exact h), hb, hf⟩

theorem TouchesOnly_trans (name : String) (s s1 s2 : State) (h1 : TouchesOnly name s s1)
    (hev : Evolves s s1) (h2 : TouchesOnly name s1 s2) : TouchesOnly name s s2 := by
  obtain ⟨a1, l1, hl1, b1⟩ := h1
  obtain ⟨a2, l2, hl2, b2⟩ := h2
  refine ⟨fun k a m hm hm0 => (a2 k a m hm hm0).trans (a1 k a m hm hm0), l1 ++ l2, ?_, ?_⟩
  · rw [hl2, hl1, List.append_assoc]
  · intro e he
    rcases List.mem_append.mp he with he | he
    · exact b1 e he
    · obtain ⟨k, a, m, b, hm, hb, hf⟩ := b2 e he
      have h5 := hev.2.2.2.2 k a m
      cases hsb : s.binding k a m with
      | none =>
        rw [hsb] at h5
        have h6 : s1.binding k a m = none := h5
        rw [h6] at hb
        cases hb
      | some b0 =>
        rw [hsb] at h5
        obtain ⟨b', hb', hr, -, -, -⟩ := h5
        rw [hb'] at hb
        cases hb
        exact ⟨k, a, m, b0, hm, hsb, by rw [← hr]; exact hf⟩

theorem arguments_touchesOnly (res : String → RType → State → Res Obj) (name : String)
    (hev : ∀ a s, Evolves s (res name a s).2)
    (H : ∀ a s, TouchesOnly name s (res name a s).2) (ins : List RType) (s : State) :
    Evolves s (arguments res name ins s).2 ∧ TouchesOnly name s (arguments res name ins s).2 := by
  induction ins generalizing s with
  | nil => exact ⟨Evolves_refl s, TouchesOnly_refl name s⟩
  | cons a rest ih =>
    simp only [arguments]
    have e1 := hev a s
    have t1 := H a s
    rcases hr : res name a s with ⟨r, s1⟩
    rw [hr] at e1 t1
    cases r with
    | error e => exact ⟨e1, t1⟩
    | ok v =>
      simp only []
      obtain ⟨e2, t2⟩ := ih s1
      rcases hr2 : arguments res name rest s1 with ⟨r2, s2⟩
      rw [hr2] at e2 t2
      cases r2 with
      | error e => exact ⟨Evolves_trans e1 e2, TouchesOnly_trans name s s1 s2 t1 e1 t2⟩
      | ok vs => exact ⟨Evolves_trans e1 e2, TouchesOnly_trans name s s1 s2 t1 e1 t2⟩

theorem TouchesOnly_record (name : String) (s : State) (f : Func) (args : List Obj)
    (hf : ∃ k a m b, (m = name ∨ m = "") ∧ s.binding k a m = some b ∧ b.resolver = f) :
    TouchesOnly name s (s.record f args) := by
  refine ⟨fun _ _ _ _ _ => rfl, [(f.fid, args)], rfl, ?_⟩
  intro e he
  simp only [List.mem_singleton] at he
  subst he
  obtain ⟨k, a, m, b, hm, hb, hr⟩ := hf
  exact ⟨k, a, m, b, hm, hb, by rw [hr]⟩

theorem invoke_touchesOnly (res : String → RType → State → Res Obj) (name : String)
    (hev : ∀ a s, Evolves s (res "" a s).2)
    (H : ∀ a s, TouchesOnly "" s (res "" a s).2) (f : Func) (s : State)
    (hf : ∃ k a m b, (m = name ∨ m = "") ∧ s.binding k a m = some b ∧ b.resolver = f) :
    TouchesOnly name s (invoke res f s).2 := by
  simp only [invoke]
  obtain ⟨e1, t1⟩ := arguments_touchesOnly res "" hev H f.ins s
  rcases hr : arguments res "" f.ins s with ⟨r, s1⟩
  rw [hr] at e1 t1
  have t1' := TouchesOnly_of_default name s s1 t1
  cases r with
  | error e => exact t1'
  | ok args =>
    simp only []
    have hf1 : ∃ k a m b, (m = name ∨ m = "") ∧ s1.binding k a m = some b ∧
        b.resolver = f := by
      obtain ⟨k, a, m, b, hm, hb, hrf⟩ := hf
      have h5 := e1.2.2.2.2 k a m
      rw [hb] at h5
      obtain ⟨b', hb', hr', -, -, -⟩ := h5
      exact ⟨k, a, m, b', hm, hb', hr'.trans hrf⟩
    have t2 := TouchesOnly_record name s1 f args hf1
    split
    · exact TouchesOnly_trans name s s1 _ t1' e1 t2
    · exact TouchesOnly_trans name s s1 _ t1' e1 t2

theorem TouchesOnly_setInstance (name : String) (s : State) (c : Nat) (a : RType)
    (v : Instance) : TouchesOnly name s (s.setInstance c a name v) := by
  refine ⟨?_, [], by rw [State.calls_setInstance]; simp,
    fun e he => absurd he (List.not_mem_nil e)⟩
  intro k x m hm _
  rw [State.binding_setInstance]
  have : ¬ (k = c ∧ x = a ∧ m = name) := fun h => hm h.2.2
  simp [this]

theorem resolveLocally_touchesOnly (res : String → RType → State → Res Obj)
    (hev : ∀ n a s, Evolves s (res n a s).2)
    (H : ∀ a s, TouchesOnly "" s (res "" a s).2) (c : Nat) (name : String) (a : RType)
    (s : State) : TouchesOnly name s (resolveLocally res c name a s).2 := by
  simp only [resolveLocally]
  cases hb : s.binding c a name with
  | none => exact TouchesOnly_refl name s
  | some b =>
    simp only []
    have hf : ∃ k x m b', (m = name ∨ m = "") ∧ s.binding k x m = some b' ∧
        b'.resolver = b.resolver := ⟨c, a, name, b, Or.inl rfl, hb, rfl⟩
    have t1 := invoke_touchesOnly res name (hev "") H b.resolver s hf
    by_cases hs : b.singleton = true
    · simp only [hs, if_true]
      cases hi : b.inst with
      | some v => exact TouchesOnly_refl name s
      | none =>
        simp only []
        have e1 := invoke_evolves res hev b.resolver s
        rcases hr : invoke res b.resolver s with ⟨r, s1⟩
        rw [hr] at t1 e1
        cases r with
        | error e => exact t1
        | ok v =>
          exact TouchesOnly_trans name s s1 _ t1 e1 (TouchesOnly_setInstance name s1 c a v)
    · simp only [hs]
      exact t1

/-- A resolution under a name leaves every slot stored under another non-empty name as
it is, and calls only resolvers of bindings stored under that name or the empty one. -/
theorem resolve_touchesOnly (fuel c : Nat) (name : String) (a : RType) (s : State) :
    TouchesOnly name s (resolve fuel c name a s).2 := by
  induction fuel generalizing c name a s with
  | zero => exact TouchesOnly_refl name s
  | succ fuel ih =>
    rw [resolve_succ_eq]
    have t1 := resolveLocally_touchesOnly (resolve fuel c)
      (fun n x t => resolve_evolves fuel c n x t) (fun x t => ih c "" x t) c name a s
    have e1 := resolveLocally_evolves (resolve fuel c)
      (fun n x t => resolve_evolves fuel c n x t) c name a s
    rcases hr : resolveLocally (resolve fuel c) c name a s with ⟨r, s1⟩
    rw [hr] at t1 e1
    cases r with
    | error e => exact t1
    | ok o =>
      cases o with
      | some v => exact t1
      | none =>
        simp only []
        cases hp : s1.parent c with
        | none => exact t1
        | some p => exact TouchesOnly_trans name s s1 _ t1 e1 (ih p name a s1)

/-- The loop of `bind` writes slots stored under its name only. -/
theorem bindOuts_other_names (c : Nat) (name : String) (f : Func) (L : Bool)
    (outs : List RType) (s : State) (k : Nat) (a : RType) (m : String) (hm : m ≠ name) :
    (bindOuts c name f L outs s).2.binding k a m = s.binding k a m := by
  induction outs generalizing s with
  | nil => rfl
  | cons x rest ih =>
    rw [bindOuts_cons]
    split
    · rfl
    · rw [ih, State.binding_addBinding]
      have : ¬ (k = c ∧ c < s.containers.length ∧ a = x ∧ m = name) := fun h => hm h.2.2.2
      simp [this]

theorem bind_other_names (c : Nat) (name : String) (resolver : Value) (L : Bool) (s : State)
    (k : Nat) (a : RType) (m : String) (hm : m ≠ name) :
    (bind c name resolver L s).2.binding k a m = s.binding k a m := by
  cases resolver with
  | func f => exact bindOuts_other_names c name f L f.outs s k a m hm
  | nil => rfl
  | ptr t addr => rfl
  | nilPtr t => rfl
  | other => rfl

/-- C14 as stated fails when one of the two names is the default one: registry 0 declares
`func() Shape` under the empty name and `func(s Shape) Shape` under the name "x".
Resolving `Shape` under "x" returns the instance of the factory declared under "x", but
its parameter is resolved under the empty name: the factory of the default binding
(function 1) is called and its cache, empty before, is filled. -/
theorem C14_counterexample_default_binding_invoked :
    (resolve 2 0 "x" Shape shapeNamedFromDefault).1 = .ok 1 ∧
    (resolve 2 0 "x" Shape shapeNamedFromDefault).2.calls = [(1, []), (2, [0])] ∧
    (shapeNamedFromDefault.binding 0 Shape "").map (fun b => (b.resolver.fid, b.inst)) =
      some (1, none) ∧
    ((resolve 2 0 "x" Shape shapeNamedFromDefault).2.binding 0 Shape "").map
      (fun b => (b.resolver.fid, b.inst)) = some (1, some 0) :=
  ⟨rfl, rfl, rfl, rfl⟩

/-- C14 (amended): for names `n1 ≠ n2` of which `n2` is not the empty name.  Resolving
`(T, n1)` on any registry leaves every slot stored under `n2`, in every registry and for
every abstraction, as it is, and every call it makes is a call of the resolver of a
binding stored under `n1` or under the empty name; when the local binding under `n1` has
to call its factory and that returns a non-nil instance, this instance is the result.
Declaring under `n2` leaves the slot `(T, n1)` as it is, whatever the names; resolving
`(T, n2)` leaves it as it is when `n1` is not the empty name either. -/
theorem C14_named_slots_independent (n1 n2 : String) (T : RType) (s : State)
    (hne : n1 ≠ n2) (hn2 : n2 ≠ "") :
    (∀ fuel c k a, (resolve fuel c n1 T s).2.binding k a n2 = s.binding k a n2) ∧
    (∀ fuel c, ∃ l, (resolve fuel c n1 T s).2.calls = s.calls ++ l ∧
      ∀ e ∈ l, ∃ k a m b, (m = n1 ∨ m = "") ∧ s.binding k a m = some b ∧
        b.resolver.fid = e.1) ∧
    (∀ fuel c b args s1 v rest, s.binding c T n1 = some b →
      (b.singleton = false ∨ b.inst = none) →
      arguments (resolve fuel c) "" b.resolver.ins s = (.ok args, s1) →
      b.resolver.body s1.calls args = some v :: rest →
      (resolve (fuel + 1) c n1 T s).1 = .ok v) ∧
    (∀ c k resolver L, (bind c n2 resolver L s).2.binding k T n1 = s.binding k T n1) ∧
    (n1 ≠ "" → ∀ fuel c k, (resolve fuel c n2 T s).2.binding k T n1 = s.binding k T n1) := by
  refine ⟨?_, ?_, ?_, ?_, ?_⟩
  · intro fuel c k a
    exact (resolve_touchesOnly fuel c n1 T s).1 k a n2 (Ne.symm hne) hn2
  · intro fuel c
    exact (resolve_touchesOnly fuel c n1 T s).2
  · intro fuel c b args s1 v rest hb hfresh hargs hbody
    rw [resolve_local_invoked fuel c n1 T s s1 b args v rest hb hfresh hargs hbody]
  · intro c k resolver L
    exact bind_other_names c n2 resolver L s k T n1 hne
  · intro hn1 fuel c k
    exact (resolve_touchesOnly fuel c n2 T s).1 k T n1 hne hn1

/-- C14 (amended) at `TestSingletonTwoNamedInstancesAreDifferent`: the names "A" and
"B" of `Shape`. -/
theorem C14_named_slots_independent_witness :
    ("A" : String) ≠ "B" ∧ ("B" : String) ≠ "" ∧
    ((∀ fuel c k a,
      (resolve fuel c "A" Shape twoNamedShapes).2.binding k a "B" =
        twoNamedShapes.binding k a "B") ∧
    (∀ fuel c, ∃ l, (resolve fuel c "A" Shape twoNamedShapes).2.calls =
        twoNamedShapes.calls ++ l ∧
      ∀ e ∈ l, ∃ k a m b, (m = "A" ∨ m = "") ∧ twoNamedShapes.binding k a m = some b ∧
        b.resolver.fid = e.1) ∧
    (∀ fuel c b args s1 v rest, twoNamedShapes.binding c Shape "A" = some b →
      (b.singleton = false ∨ b.inst = none) →
      arguments (resolve fuel c) "" b.resolver.ins twoNamedShapes = (.ok args, s1) →
      b.resolver.body s1.calls args = some v :: rest →
      (resolve (fuel + 1) c "A" Shape twoNamedShapes).1 = .ok v) ∧
    (∀ c k resolver L,
      (bind c "B" resolver L twoNamedShapes).2.binding k Shape "A" =
        twoNamedShapes.binding k Shape "A") ∧
    (("A" : String) ≠ "" → ∀ fuel c k,
      (resolve fuel c "B" Shape twoNamedShapes).2.binding k Shape "A" =
        twoNamedShapes.binding k Shape "A")) ∧
    (resolve 1 0 "A" Shape twoNamedShapes).1 = .ok 0 ∧
    (resolve 1 0 "A" Shape twoNamedShapes).2.calls = [(1, [])] :=
  ⟨by decide, by decide,
    C14_named_slots_independent "A" "B" Shape twoNamedShapes (by decide) (by decide),
    rfl, rfl⟩

/-! ## What ForEachNamed visits -/

theorem mem_mapKeys_iff {κ β : Type} [DecidableEq κ] (k : κ) (m : List (κ × β)) :
    k ∈ mapKeys m ↔ (mapGet k m).isSome = true := by
  induction m with
  | nil => simp [mapKeys, mapGet]
  | cons p m ih =>
    obtain ⟨k', v'⟩ := p
    by_cases h : k' = k
    · simp [mapKeys, mapGet, h]
    · have ih' : k ∈ List.map Prod.fst m ↔ (mapGet k m).isSome = true := ih
      simp only [mapKeys, List.map_cons, List.mem_cons, mapGet, h, if_false]
      rw [ih']
      constructor
      · rintro (h1 | h1)
        · exact absurd h1.symm h
        · exact h1
      · exact fun h1 => Or.inr h1

theorem State.binding_eq_getD (s : State) (c : Nat) (a : RType) (n : String) :
    mapGet n ((mapGet a (s.bindings c)).getD []) = s.binding c a n := by
  unfold State.binding
  cases mapGet a (s.bindings c) with
  | none => rfl
  | some names => rfl

/-- The names `ForEachNamed` has work to do for are, each once, the non-empty names under
which the registry's own table binds the abstraction. -/
theorem visitedNames_spec (order : List String → List String) (s : State) (c : Nat)
    (a : RType) (hperm : ∀ l, (order l).Perm l)
    (hkeys : (mapKeys ((mapGet a (s.bindings c)).getD [])).Nodup) :
    (visitedNames order s c a).Nodup ∧
    (∀ n, n ∈ visitedNames order s c a ↔ n ≠ "" ∧ (s.binding c a n).isSome = true) := by
  constructor
  · exact List.Nodup.filter _ ((hperm _).nodup_iff.mpr hkeys)
  · intro n
    simp only [visitedNames, List.mem_filter, (hperm _).mem_iff, mem_mapKeys_iff,
      State.binding_eq_getD, decide_eq_true_eq]
    exact And.comm

/-- The loop of `ForEachNamed` over names that are visited as `VisitedInOrder` says goes
on, after them, with the names that follow. -/
theorem forEachNamedLoop_visited_append (fuel c : Nat) (a : RType) (f : Func)
    (hins : f.ins = [a]) (pre l : List String) (s s1 : State) (vs : List Obj)
    (h : VisitedInOrder fuel c a f pre s vs s1) (hl : ∀ n ∈ pre, n ≠ "") :
    forEachNamedLoop (resolve (fuel + 1) c) f (pre ++ l) s =
      forEachNamedLoop (resolve (fuel + 1) c) f l s1 ∧ vs.length = pre.length := by
  induction h with
  | nil s => exact ⟨rfl, rfl⟩
  | cons name rest s s1 s2 v vs hr hasg _ ih =>
    have hne : name ≠ "" := hl name (List.mem_cons_self _ _)
    obtain ⟨h1, h2⟩ := ih (fun n hn => hl n (List.mem_cons_of_mem _ hn))
    have hres : resolve (fuel + 1) c name a s = (.ok v, s1) := by
      rw [resolve_succ_eq, hr]
    refine ⟨?_, by simp [h2]⟩
    simp only [List.cons_append, forEachNamedLoop, hne, if_false, hins, arguments, hres,
      callCheck, hasg, if_true]
    exact h1

theorem forEachNamedLoop_visited (fuel c : Nat) (a : RType) (f : Func) (hins : f.ins = [a])
    (l : List String) (s s' : State) (vs : List Obj)
    (h : VisitedInOrder fuel c a f l s vs s') (hl : ∀ n ∈ l, n ≠ "") :
    forEachNamedLoop (resolve (fuel + 1) c) f l s = (.ok (), s') ∧ vs.length = l.length := by
  have h1 := forEachNamedLoop_visited_append fuel c a f hins l [] s s' vs h hl
  rw [List.append_nil] at h1
  exact ⟨h1.1.trans rfl, h1.2⟩

/-- The loop of `ForEachNamed` ends with the failure of the first name that fails to
resolve, in the state that resolution left. -/
theorem forEachNamedLoop_fails (fuel c : Nat) (a : RType) (f : Func) (hins : f.ins = [a])
    (pre : List String) (n : String) (post : List String) (s s1 s2 : State)
    (vs : List Obj) (e : Err)
    (h : VisitedInOrder fuel c a f pre s vs s1) (hl : ∀ m ∈ pre, m ≠ "") (hn : n ≠ "")
    (hres : resolve (fuel + 1) c n a s1 = (.error e, s2)) :
    forEachNamedLoop (resolve (fuel + 1) c) f (pre ++ n :: post) s = (.error e, s2) := by
  rw [(forEachNamedLoop_visited_append fuel c a f hins pre (n :: post) s s1 vs h hl).1]
  simp only [forEachNamedLoop, hn, if_false, hins, arguments, hres]

/-- C13 as stated fails where a named binding does not resolve: registry 0, without
parent, binds `Concrete` under "B" to a factory that returns nil and under "C" to a
factory that returns an object.  When the range takes "B" first, `ForEachNamed` panics
after the call of the factory of "B" (function 2) and the consumer (function 9) is
called for neither name; when the range takes "C" first, the consumer is called for
"C" and then `ForEachNamed` panics at "B".  In neither order is the consumer called
for "B". -/
theorem C13_counterexample_named_binding_resolves_to_nil :
    visitedNames id nilNamedConcrete 0 Concrete = ["B", "C"] ∧
    (ForEachNamed id 1 0 (.func concreteConsumer) nilNamedConcrete).1 =
      .error (.panic "no concrete found for the abstraction: ioc.Concrete") ∧
    (ForEachNamed id 1 0 (.func concreteConsumer) nilNamedConcrete).2.calls = [(2, [])] ∧
    visitedNames List.reverse nilNamedConcrete 0 Concrete = ["C", "B"] ∧
    (ForEachNamed List.reverse 1 0 (.func concreteConsumer) nilNamedConcrete).1 =
      .error (.panic "no concrete found for the abstraction: ioc.Concrete") ∧
    (ForEachNamed List.reverse 1 0 (.func concreteConsumer) nilNamedConcrete).2.calls =
      [(3, []), (9, [0]), (2, [])] :=
  ⟨rfl, rfl, rfl, rfl, rfl, rfl⟩

/-- In a child registry whose parent binds `Concrete` under "B", the nil result of the
child's own binding under "B" makes `resolve` go to the parent: the consumer is called
for "B" with the instance of the parent's binding (object 1, made by function 1 after
the call of function 2), and then for "C". -/
theorem ForEachNamed_nil_named_binding_with_parent :
    visitedNames id nilNamedConcreteInChild 1 Concrete = ["B", "C"] ∧
    (ForEachNamed id 2 1 (.func concreteConsumer) nilNamedConcreteInChild).1 = .ok () ∧
    (ForEachNamed id 2 1 (.func concreteConsumer) nilNamedConcreteInChild).2.calls =
      [(2, []), (1, []), (9, [1]), (3, []), (9, [3])] :=
  ⟨rfl, rfl, rfl⟩

/-- C13, amended: `ForEachNamed` with a consumer whose single parameter has type `A`.
The names it has work to do for are, each exactly once, the non-empty names under which
`A` has a binding in the registry's own table: not the empty name, not the names of
other abstractions, not the names bound in a parent only.  When, one name after the
other, the own binding under the name resolves to an instance assignable to `A`,
`ForEachNamed` returns after having called the consumer once per name, with that
instance, and having made no other call of it.  When the names before some name are
visited so and the resolution of that name fails, `ForEachNamed` ends with that
failure, in the state the failed resolution left: the consumer is called neither for
that name nor for the names after it. -/
theorem C13_forEachNamed_visits_until_failure (order : List String → List String) (c : Nat)
    (A : RType) (consumer : Func) (s : State) (hins : consumer.ins = [A])
    (houts : consumer.outs = []) (hperm : ∀ l, (order l).Perm l)
    (hkeys : (mapKeys ((mapGet A (s.bindings c)).getD [])).Nodup) :
    (visitedNames order s c A).Nodup ∧
    (∀ n, n ∈ visitedNames order s c A ↔ n ≠ "" ∧ (s.binding c A n).isSome = true) ∧
    (∀ fuel, ForEachNamed order fuel c (.func consumer) s =
      forEachNamedLoop (resolve fuel c) consumer (visitedNames order s c A) s) ∧
    (∀ fuel vs s', VisitedInOrder fuel c A consumer (visitedNames order s c A) s vs s' →
      ForEachNamed order (fuel + 1) c (.func consumer) s = (.ok (), s') ∧
      vs.length = (visitedNames order s c A).length) ∧
    (∀ fuel pre n post vs s1 e s2, visitedNames order s c A = pre ++ n :: post →
      VisitedInOrder fuel c A consumer pre s vs s1 →
      resolve (fuel + 1) c n A s1 = (.error e, s2) →
      ForEachNamed order (fuel + 1) c (.func consumer) s = (.error e, s2)) := by
  obtain ⟨h1, h2⟩ := visitedNames_spec order s c A hperm hkeys
  refine ⟨h1, h2, ?_, ?_, ?_⟩
  · intro fuel
    exact ForEachNamed_consumer order fuel c consumer s A hins houts
  · intro fuel vs s' hv
    rw [ForEachNamed_consumer order (fuel + 1) c consumer s A hins houts]
    exact forEachNamedLoop_visited fuel c A consumer hins _ s s' vs hv
      (fun n hn => ((h2 n).mp hn).1)
  · intro fuel pre n post vs s1 e s2 hsplit hv hres
    have hmem : ∀ m, m ∈ pre ++ n :: post → m ≠ "" := fun m hm =>
      ((h2 m).mp (hsplit ▸ hm)).1
    rw [ForEachNamed_consumer order (fuel + 1) c consumer s A hins houts]
    have hvn : (order (mapKeys ((mapGet A (s.bindings c)).getD []))).filter
        (fun x => decide (x ≠ "")) = pre ++ n :: post := hsplit
    rw [hvn]
    exact forEachNamedLoop_fails fuel c A consumer hins pre n post s s1 s2 vs e hv
      (fun m hm => hmem m (List.mem_append_left _ hm))
      (hmem n (List.mem_append_right _ (List.mem_cons_self _ _))) hres

theorem namedConcretes_visited :
    VisitedInOrder 0 0 Concrete concreteConsumer ["B", "C"] namedConcretes [0, 2]
      namedConcretesAfterC :=
  VisitedInOrder.cons "B" ["C"] namedConcretes
    (resolveLocally (resolve 0 0) 0 "B" Concrete namedConcretes).2 namedConcretesAfterC 0 [2]
    rfl rfl
    (VisitedInOrder.cons "C" [] namedConcretesAfterB
      (resolveLocally (resolve 0 0) 0 "C" Concrete namedConcretesAfterB).2
      namedConcretesAfterC 2 [] rfl rfl (VisitedInOrder.nil namedConcretesAfterC))

/-- C13, amended, at `TestForEachNamedReturnsNamedConcretesOnly`, the range taken in the
order of declaration: the consumer is called for "B" and for "C", not for the default
`Concrete` and not for the `Shape` named "B". -/
theorem C13_forEachNamed_visits_until_failure_witness :
    concreteConsumer.ins = [Concrete] ∧ concreteConsumer.outs = [] ∧
    (∀ l : List String, (id l).Perm l) ∧
    (mapKeys ((mapGet Concrete (namedConcretes.bindings 0)).getD [])).Nodup ∧
    ((visitedNames id namedConcretes 0 Concrete).Nodup ∧
    (∀ n, n ∈ visitedNames id namedConcretes 0 Concrete ↔
      n ≠ "" ∧ (namedConcretes.binding 0 Concrete n).isSome = true) ∧
    (∀ fuel, ForEachNamed id fuel 0 (.func concreteConsumer) namedConcretes =
      forEachNamedLoop (resolve fuel 0) concreteConsumer
        (visitedNames id namedConcretes 0 Concrete) namedConcretes) ∧
    (∀ fuel vs s',
      VisitedInOrder fuel 0 Concrete concreteConsumer
        (visitedNames id namedConcretes 0 Concrete) namedConcretes vs s' →
      ForEachNamed id (fuel + 1) 0 (.func concreteConsumer) namedConcretes = (.ok (), s') ∧
      vs.length = (visitedNames id namedConcretes 0 Concrete).length) ∧
    (∀ fuel pre n post vs s1 e s2,
      visitedNames id namedConcretes 0 Concrete = pre ++ n :: post →
      VisitedInOrder fuel 0 Concrete concreteConsumer pre namedConcretes vs s1 →
      resolve (fuel + 1) 0 n Concrete s1 = (.error e, s2) →
      ForEachNamed id (fuel + 1) 0 (.func concreteConsumer) namedConcretes =
        (.error e, s2))) ∧
    visitedNames id namedConcretes 0 Concrete = ["B", "C"] ∧
    ForEachNamed id (0 + 1) 0 (.func concreteConsumer) namedConcretes =
      (.ok (), namedConcretesAfterC) ∧
    namedConcretesAfterC.calls = [(2, []), (9, [0]), (3, []), (9, [2])] :=
  ⟨rfl, rfl, fun l => List.Perm.refl l, by decide,
    C13_forEachNamed_visits_until_failure id 0 Concrete concreteConsumer namedConcretes
      rfl rfl (fun l => List.Perm.refl l) (by decide),
    rfl,
    ((C13_forEachNamed_visits_until_failure id 0 Concrete concreteConsumer namedConcretes
      rfl rfl (fun l => List.Perm.refl l) (by decide)).2.2.2.1 0 [0, 2]
        namedConcretesAfterC namedConcretes_visited).1,
    rfl⟩

/-! ## Keys of a map -/

theorem mapKeys_mapSet_mem {κ β : Type} [DecidableEq κ] (k k' : κ) (v : β)
    (m : List (κ × β)) (h : k' ∈ mapKeys (mapSet k v m)) : k' = k ∨ k' ∈ mapKeys m := by
  induction m with
  | nil =>
    simp only [mapSet, mapKeys, List.map_cons, List.map_nil, List.mem_singleton] at h
    exact Or.inl h
  | cons p m ih =>
    obtain ⟨k0, v0⟩ := p
    by_cases hk : k0 = k
    · simp only [mapSet, hk, if_true, mapKeys, List.map_cons, List.mem_cons] at h ⊢
      rcases h with h | h
      · exact Or.inl h
      · exact Or.inr (Or.inr h)
    · simp only [mapSet, hk, if_false, mapKeys, List.map_cons, List.mem_cons] at h ⊢
      rcases h with h | h
      · exact Or.inr (Or.inl h)
      · rcases ih h with h1 | h1
        · exact Or.inl h1
        · exact Or.inr (Or.inr h1)

/-- An assignment `m[k] = v` keeps the keys of the map free of repetition. -/
theorem mapKeys_mapSet_nodup {κ β : Type} [DecidableEq κ] (k : κ) (v : β)
    (m : List (κ × β)) (h : (mapKeys m).Nodup) : (mapKeys (mapSet k v m)).Nodup := by
  induction m with
  | nil => simp [mapSet, mapKeys]
  | cons p m ih =>
    obtain ⟨k0, v0⟩ := p
    have h' : k0 ∉ mapKeys m ∧ (mapKeys m).Nodup := by
      simpa [mapKeys] using h
    by_cases hk : k0 = k
    · subst hk
      simpa [mapSet, mapKeys] using h
    · have hnot : k0 ∉ mapKeys (mapSet k v m) := by
        intro hmem
        rcases mapKeys_mapSet_mem k k0 v m hmem with h1 | h1
        · exact hk h1
        · exact h'.1 h1
      have hrec := ih h'.2
      simp only [mapSet, hk, if_false, mapKeys, List.map_cons, List.nodup_cons]
      exact ⟨hnot, hrec⟩

end Ioc
